import Mathlib

/-
  Verification development for the rdftab RDF/XML-to-SQL ingestion tool
  (src/main.rs).  The source's serde_json values are modelled by the
  inductive type SerdeValue below; serde_json's Map (backed by BTreeMap,
  hence key-sorted) is modelled by key-sorted association lists, and
  Rust's BTreeSet by sorted duplicate-free lists.  Loops become folds,
  and the one unbounded loop (work_through_dependencies) is given fuel.
  All definitions are written to reduce in the kernel so that concrete
  runs can be checked by decide.
-/

/-- Model of serde_json::Value restricted to the variants the program
    builds: strings, arrays and objects.  (The program never constructs
    numbers, booleans or nulls for statement data.) -/
inductive SerdeValue where
  | str : String → SerdeValue
  | arr : List SerdeValue → SerdeValue
  | obj : List (String × SerdeValue) → SerdeValue

/-- Association-list model of serde_json::Map<String, Value>; kept sorted
    by key, as BTreeMap is. -/
abbrev SMap := List (String × SerdeValue)

mutual

def svEq : SerdeValue → SerdeValue → Bool
  | .str a, .str b => a == b
  | .arr a, .arr b => svListEq a b
  | .obj a, .obj b => svObjEq a b
  | _, _ => false

def svListEq : List SerdeValue → List SerdeValue → Bool
  | [], [] => true
  | a :: as, b :: bs => svEq a b && svListEq as bs
  | _, _ => false

def svObjEq : List (String × SerdeValue) → List (String × SerdeValue) → Bool
  | [], [] => true
  | (k1, v1) :: as, (k2, v2) :: bs => k1 == k2 && svEq v1 v2 && svObjEq as bs
  | _, _ => false

end

mutual

def svEq_refl : (a : SerdeValue) → svEq a a = true
  | .str _ => by simp [svEq]
  | .arr l => by simp only [svEq]; exact svListEq_refl l
  | .obj m => by simp only [svEq]; exact svObjEq_refl m

def svListEq_refl : (l : List SerdeValue) → svListEq l l = true
  | [] => by simp [svListEq]
  | a :: as => by
      simp only [svListEq, Bool.and_eq_true]
      exact ⟨svEq_refl a, svListEq_refl as⟩

def svObjEq_refl : (m : List (String × SerdeValue)) → svObjEq m m = true
  | [] => by simp [svObjEq]
  | (k, v) :: as => by
      simp only [svObjEq, Bool.and_eq_true, beq_self_eq_true, true_and]
      exact ⟨svEq_refl v, svObjEq_refl as⟩

end

mutual

def svEq_sound : (a b : SerdeValue) → svEq a b = true → a = b
  | .str a, .str b => by simp [svEq]
  | .arr a, .arr b => by
      simp only [svEq, SerdeValue.arr.injEq]
      exact svListEq_sound a b
  | .obj a, .obj b => by
      simp only [svEq, SerdeValue.obj.injEq]
      exact svObjEq_sound a b
  | .str _, .arr _ => by simp [svEq]
  | .str _, .obj _ => by simp [svEq]
  | .arr _, .str _ => by simp [svEq]
  | .arr _, .obj _ => by simp [svEq]
  | .obj _, .str _ => by simp [svEq]
  | .obj _, .arr _ => by simp [svEq]

def svListEq_sound : (a b : List SerdeValue) → svListEq a b = true → a = b
  | [], [] => by simp
  | [], _ :: _ => by simp [svListEq]
  | _ :: _, [] => by simp [svListEq]
  | a :: as, b :: bs => by
      simp only [svListEq, Bool.and_eq_true, List.cons.injEq]
      exact fun ⟨h1, h2⟩ => ⟨svEq_sound a b h1, svListEq_sound as bs h2⟩

def svObjEq_sound : (a b : List (String × SerdeValue)) → svObjEq a b = true → a = b
  | [], [] => by simp
  | [], _ :: _ => by simp [svObjEq]
  | _ :: _, [] => by simp [svObjEq]
  | (k1, v1) :: as, (k2, v2) :: bs => by
      simp only [svObjEq, Bool.and_eq_true, List.cons.injEq, Prod.mk.injEq, beq_iff_eq]
      exact fun ⟨⟨hk, hv⟩, h2⟩ => ⟨⟨hk, svEq_sound v1 v2 hv⟩, svObjEq_sound as bs h2⟩

end

instance : DecidableEq SerdeValue := fun a b =>
  decidable_of_iff (svEq a b = true)
    ⟨svEq_sound a b, fun h => h ▸ svEq_refl a⟩

/-! ### String order (Rust `str` Ord: lexicographic on bytes, which for
    UTF-8 agrees with lexicographic codepoint order) -/

/-- Codepoint of a character as a natural number. -/
def chVal (c : Char) : Nat := c.val.toNat

/-- Strict lexicographic order on character lists by codepoint. -/
def chLt : List Char → List Char → Bool
  | [], [] => false
  | [], _ :: _ => true
  | _ :: _, [] => false
  | a :: as, b :: bs =>
      if chVal a < chVal b then true else if chVal b < chVal a then false else chLt as bs

/-- Non-strict lexicographic order on character lists. -/
def chLe : List Char → List Char → Bool
  | [], _ => true
  | _ :: _, [] => false
  | a :: as, b :: bs =>
      if chVal a < chVal b then true else if chVal b < chVal a then false else chLe as bs

def strLt (a b : String) : Bool := chLt a.data b.data

def strLe (a b : String) : Bool := chLe a.data b.data

/-! ### JSON serialization, as serde_json::to_string / Display produce it:
    compact, keys in map order (sorted, since BTreeMap), strings escaped. -/

/-- Hex digit for the \u00XX escapes of control characters. -/
def hexDigit (n : Nat) : String :=
  if n = 0 then "0" else if n = 1 then "1" else if n = 2 then "2"
  else if n = 3 then "3" else if n = 4 then "4" else if n = 5 then "5"
  else if n = 6 then "6" else if n = 7 then "7" else if n = 8 then "8"
  else if n = 9 then "9" else if n = 10 then "a" else if n = 11 then "b"
  else if n = 12 then "c" else if n = 13 then "d" else if n = 14 then "e"
  else "f"

/-- JSON escape of one character, following serde_json's writer. -/
def escChar (c : Char) : String :=
  if c = '"' then "\\\""
  else if c = '\\' then "\\\\"
  else if c = '\x08' then "\\b"
  else if c = '\x09' then "\\t"
  else if c = '\x0a' then "\\n"
  else if c = '\x0c' then "\\f"
  else if c = '\x0d' then "\\r"
  else if c.val.toNat < 32 then
    "\\u00" ++ hexDigit (c.val.toNat / 16) ++ hexDigit (c.val.toNat % 16)
  else String.singleton c

def jsonEscape (s : String) : String :=
  s.data.foldl (fun acc c => acc ++ escChar c) ""

mutual

/-- serde_json's compact serialization (both to_string and Display). -/
def svToString : SerdeValue → String
  | .str s => "\"" ++ jsonEscape s ++ "\""
  | .arr l => "[" ++ svListToString l ++ "]"
  | .obj m => "\x7b" ++ svObjToString m ++ "\x7d"

def svListToString : List SerdeValue → String
  | [] => ""
  | [a] => svToString a
  | a :: b :: rest => svToString a ++ "," ++ svListToString (b :: rest)

def svObjToString : List (String × SerdeValue) → String
  | [] => ""
  | [(k, v)] => "\"" ++ jsonEscape k ++ "\":" ++ svToString v
  | (k, v) :: b :: rest =>
      "\"" ++ jsonEscape k ++ "\":" ++ svToString v ++ "," ++ svObjToString (b :: rest)

end

/-- The comparator used by the source's sort_by calls:
    a.to_string().cmp(&b.to_string()). -/
def svLe (a b : SerdeValue) : Bool := strLe (svToString a) (svToString b)

/-! ### Stable sorting (Rust's Vec::sort_by is a stable sort; with the
    total comparator above any stable sort yields the same list). -/

def sInsert (le : SerdeValue → SerdeValue → Bool) (a : SerdeValue) :
    List SerdeValue → List SerdeValue
  | [] => [a]
  | b :: bs => if le a b then a :: b :: bs else b :: sInsert le a bs

def sortObjs (l : List SerdeValue) : List SerdeValue :=
  match l with
  | [] => []
  | a :: as => sInsert svLe a (sortObjs as)

/-! ### BTreeMap / BTreeSet operations on the association-list models -/

/-- BTreeMap::get. -/
def mapGet (m : SMap) (k : String) : Option SerdeValue :=
  match m with
  | [] => none
  | (k1, v1) :: rest => if k = k1 then some v1 else mapGet rest k

/-- BTreeMap::insert (replaces an existing binding, keeps keys sorted). -/
def mapInsert (m : SMap) (k : String) (v : SerdeValue) : SMap :=
  match m with
  | [] => [(k, v)]
  | (k1, v1) :: rest =>
      if k = k1 then (k, v) :: rest
      else if strLt k k1 then (k, v) :: (k1, v1) :: rest
      else (k1, v1) :: mapInsert rest k v

/-- BTreeMap::remove (dropping the returned value). -/
def mapRemove (m : SMap) (k : String) : SMap :=
  match m with
  | [] => []
  | (k1, v1) :: rest => if k = k1 then rest else (k1, v1) :: mapRemove rest k

/-- BTreeMap::contains_key. -/
def mapContains (m : SMap) (k : String) : Bool :=
  match m with
  | [] => false
  | (k1, _) :: rest => if k = k1 then true else mapContains rest k

/-- The keys of a map, in storage (sorted) order. -/
def mapKeys (m : SMap) : List String := m.map (fun kv => kv.1)

/-- serde_json::Value::get on a Value: map lookup on objects, none
    otherwise (the program also calls .get on array elements). -/
def svGet (v : SerdeValue) (k : String) : Option SerdeValue :=
  match v with
  | .obj m => mapGet m k
  | _ => none

/-- BTreeSet::insert on a sorted duplicate-free list of strings. -/
def setInsert (s : List String) (x : String) : List String :=
  match s with
  | [] => [x]
  | y :: rest =>
      if x = y then y :: rest
      else if strLt x y then x :: y :: rest
      else y :: setInsert rest x

/-- BTreeSet::contains. -/
def setContains (s : List String) (x : String) : Bool :=
  match s with
  | [] => false
  | y :: rest => if x = y then true else setContains rest x

/-- Model of BTreeMap<String, BTreeSet<String>> for the dependencies map. -/
abbrev DepMap := List (String × List String)

def depGet (d : DepMap) (k : String) : Option (List String) :=
  match d with
  | [] => none
  | (k1, v1) :: rest => if k = k1 then some v1 else depGet rest k

def depKeys (d : DepMap) : List String := d.map (fun kv => kv.1)

/-- Insert `x` into the set bound to `k` (creating the binding when absent),
    as the source's get_mut-or-insert idiom does. -/
def depAdd (d : DepMap) (k : String) (x : String) : DepMap :=
  match d with
  | [] => [(k, [x])]
  | (k1, v1) :: rest =>
      if k = k1 then (k1, setInsert v1 x) :: rest
      else if strLt k k1 then (k, [x]) :: (k1, v1) :: rest
      else (k1, v1) :: depAdd rest k x

/-! ### C1 PrefixShortener (src lines 20-50) -/

/-- The source's Prefix record (fields prefix and base); the first field
    is renamed pfx because prefix is a Lean keyword. -/
structure PrefixDef where
  pfx : String
  base : String
deriving DecidableEq

/-- Rust str::replace for a nonempty pattern: replace every
    non-overlapping occurrence, scanning left to right.  (Structured with
    fuel so that it reduces in the kernel; fuel = length of the scanned
    list suffices for a nonempty pattern, and the prefix table never
    holds an empty base in the runs we model.) -/
def replaceGo (pat rep : List Char) : Nat → List Char → List Char
  | 0, s => s
  | _ + 1, [] => []
  | n + 1, c :: rest =>
      if pat ≠ [] ∧ pat.isPrefixOf (c :: rest) then
        rep ++ replaceGo pat rep n (List.drop (pat.length - 1) rest)
      else
        c :: replaceGo pat rep n rest

def rustReplace (s pat rep : String) : String :=
  ⟨replaceGo pat.data rep.data s.data.length s.data⟩

/-- Rust str::starts_with. -/
def rustStartsWith (s pat : String) : Bool := pat.data.isPrefixOf s.data

/-- src main.rs lines 43-50: fn shorten.  Walks the prefix table in
    order (the table is read sorted by base length, longest first) and
    for the first entry whose base is a prefix of the IRI replaces every
    occurrence of the base by "pfx:".  Otherwise wraps in angle
    brackets. -/
def shorten (prefixes : List PrefixDef) (iri : String) : String :=
  match prefixes with
  | [] => "<" ++ iri ++ ">"
  | p :: rest =>
      if rustStartsWith iri p.base then rustReplace iri p.base (p.pfx ++ ":")
      else shorten rest iri

/-! ### C4 ThinStore: rows (src lines 52-80) -/

/-- A row as pushed on the stanza stack (6 cells, src line 970). -/
structure Row6 where
  subject : Option String
  predicate : Option String
  object : Option String
  value : Option String
  datatype : Option String
  language : Option String
deriving DecidableEq

/-- A thin row: the stanza name plus the 6 cells (src thinify). -/
structure ThinRow where
  stanza : Option String
  subject : Option String
  predicate : Option String
  object : Option String
  value : Option String
  datatype : Option String
  language : Option String
deriving DecidableEq

/-- src lines 73-80: fn get_cell_contents. -/
def get_cell_contents (c : Option String) : String :=
  match c with
  | some s => s
  | none => ""

/-- src lines 52-71: fn thinify.  Walks the stanza stack; while the
    stanza name is empty it adopts a row's predicate cell (s[1]) as the
    name; every row is emitted with the current name prepended. -/
def thinifyGo (stanza_name : String) : List Row6 → List ThinRow
  | [] => []
  | s :: rest =>
      let stanza_name :=
        if stanza_name = "" then
          match s.predicate with
          | some sb => sb
          | none => stanza_name
        else stanza_name
      ⟨some stanza_name, s.subject, s.predicate, s.object, s.value, s.datatype, s.language⟩
        :: thinifyGo stanza_name rest

def thinify (stanza_stack : List Row6) (stanza_name : String) : List ThinRow :=
  thinifyGo stanza_name stanza_stack

/-! ### C5 Subjectifier (src lines 82-307) -/

/-- src lines 82-102: fn row2object_map. -/
def row2object_map (row : ThinRow) : SerdeValue :=
  let object := get_cell_contents row.object
  let value := get_cell_contents row.value
  let datatype := get_cell_contents row.datatype
  let language := get_cell_contents row.language
  if object ≠ "" then
    .obj (mapInsert [] "object" (.str object))
  else
    let m := mapInsert [] "value" (.str value)
    if datatype ≠ "" then .obj (mapInsert m "datatype" (.str datatype))
    else if language ≠ "" then .obj (mapInsert m "language" (.str language))
    else .obj m

/-! ### C6 BlankInliner: work_through_dependencies (src lines 309-391).
    The source's `while !dependencies.is_empty()` loop is modelled as a
    step function wtdPass (one iteration of the loop body) driven by
    fuel; `none` means the fuel ran out with dependencies still present,
    which is exactly when the source loop has reached a fixpoint and
    spins forever (each productive pass removes at least one subject, so
    subjects.length + 1 passes suffice whenever the loop terminates). -/

structure WtdState where
  dependencies : DepMap
  subjects : SMap
deriving DecidableEq

/-- Body of the innermost loop (src lines 339-378): process one object
    of the current predicate list.  The accumulator carries the rebuilt
    object list, the new dependencies and the handled set. -/
def wtdObjStep (leaves : List String) (subjects : SMap) (subject_id : String)
    (acc : List SerdeValue × DepMap × List String) (obj : SerdeValue) :
    List SerdeValue × DepMap × List String :=
  let (objects, deps, handled) := acc
  let o : SerdeValue :=
    match svGet obj "object" with
    | some val => val
    | none => .obj []
  match o with
  | .str os =>
      if rustStartsWith os "_:" then
        if setContains leaves os then
          let val : SerdeValue :=
            match mapGet subjects os with
            | some v => v
            | none => .obj []
          match obj with
          | .obj _ => (objects ++ [.obj (mapInsert [] "object" val)], deps, setInsert handled os)
          | _ => (objects ++ [obj], deps, handled)
        else
          (objects ++ [obj], depAdd deps subject_id os, handled)
      else (objects ++ [obj], deps, handled)
  | _ => (objects ++ [obj], deps, handled)

/-- Body of the per-predicate loop (src lines 331-385): rebuild and
    re-sort one predicate's object list, then write the updated
    predicate map back into subjects. -/
def wtdPredStep (leaves : List String) (subject_id : String)
    (acc : SMap × SMap × DepMap × List String) (predicate : String) :
    SMap × SMap × DepMap × List String :=
  let (predicates, subjects, deps, handled) := acc
  let pred_objs : List SerdeValue :=
    match mapGet predicates predicate with
    | some (.arr v) => v
    | _ => []
  let (objects, deps, handled) :=
    pred_objs.foldl (wtdObjStep leaves subjects subject_id) ([], deps, handled)
  let objects := sortObjs objects
  let predicates := mapInsert predicates predicate (.arr objects)
  let subjects := mapInsert subjects subject_id (.obj predicates)
  (predicates, subjects, deps, handled)

/-- Body of the per-subject loop (src lines 324-386). -/
def wtdSubjStep (leaves : List String) (acc : SMap × DepMap × List String)
    (subject_id : String) : SMap × DepMap × List String :=
  let (subjects, deps, handled) := acc
  let predicates : SMap :=
    match mapGet subjects subject_id with
    | some (.obj m) => m
    | _ => []
  let (_, subjects, deps, handled) :=
    (mapKeys predicates).foldl (wtdPredStep leaves subject_id)
      (predicates, subjects, deps, handled)
  (subjects, deps, handled)

/-- One iteration of the while loop (src lines 314-390): compute the
    leaves, clear dependencies, process every subject, then delete the
    handled (inlined) blank subjects. -/
def wtdPass (st : WtdState) : WtdState :=
  let leaves : List String :=
    (mapKeys st.subjects).filter (fun k => !(depKeys st.dependencies).contains k)
  let keys := mapKeys st.subjects
  let (subjects, deps, handled) := keys.foldl (wtdSubjStep leaves) (st.subjects, [], [])
  ⟨deps, handled.foldl mapRemove subjects⟩

def wtdRun : Nat → WtdState → Option SMap
  | 0, st => if st.dependencies.isEmpty then some st.subjects else none
  | n + 1, st =>
      if st.dependencies.isEmpty then some st.subjects else wtdRun n (wtdPass st)

/-- Row scan for one subject id (src lines 258-299): builds the subject's
    predicate map and accumulates blank-object dependencies. -/
def subjRowStep (subject_id : String) (acc : SMap × DepMap) (row : ThinRow) :
    SMap × DepMap :=
  if get_cell_contents row.subject ≠ subject_id then acc
  else
    let (predicates, dependencies) := acc
    let object_map := row2object_map row
    let predicate := get_cell_contents row.predicate
    let predicates :=
      match mapGet predicates predicate with
      | some v =>
          match v with
          | .arr l => mapInsert predicates predicate (.arr (sortObjs (l ++ [object_map])))
          | _ => predicates
      | none =>
          if predicate ≠ "" then mapInsert predicates predicate (.arr (sortObjs [object_map]))
          else predicates
    let object := get_cell_contents row.object
    let dependencies :=
      if object ≠ "" ∧ rustStartsWith object "_:" then depAdd dependencies subject_id object
      else dependencies
    (predicates, dependencies)

/-- src lines 248-303 without the final work_through_dependencies call:
    the subjects map and the dependencies map. -/
def thin_rows_to_subjects_core (thin_rows : List ThinRow) : SMap × DepMap :=
  let subject_ids : List String :=
    thin_rows.foldl (fun s row => setInsert s (get_cell_contents row.subject)) []
  subject_ids.foldl
    (fun (acc : SMap × DepMap) subject_id =>
      let (subjects, dependencies) := acc
      let (predicates, dependencies) :=
        thin_rows.foldl (subjRowStep subject_id) ([], dependencies)
      (mapInsert subjects subject_id (.obj predicates), dependencies))
    ([], [])

/-- src fn thin_rows_to_subjects (lines 248-307), including the
    work_through_dependencies call; none when the worklist loop would
    spin forever. -/
def thin_rows_to_subjects (thin_rows : List ThinRow) : Option SMap :=
  let (subjects, dependencies) := thin_rows_to_subjects_core thin_rows
  wtdRun (subjects.length + 1) ⟨dependencies, subjects⟩

/-! ### C7 OverlayCollapser (src lines 104-245 and 393-444) -/

def first_objectGo : List SerdeValue → Option SerdeValue
  | [] => none
  | obj :: rest =>
      match svGet obj "object" with
      | some o => some o
      | none =>
          match svGet obj "value" with
          | some o => some o
          | none => first_objectGo rest

/-- src lines 104-124: fn first_object.  The warning path (no object
    found) yields the empty string. -/
def first_object (predicates : SMap) (predicate : String) : SerdeValue :=
  match mapGet predicates predicate with
  | some (.arr v) =>
      match first_objectGo v with
      | some o => o
      | none => .str ""
  | _ => .str ""

/-- Rust's s.trim_start_matches('"').trim_end_matches('"'): strip every
    leading and trailing double-quote character. -/
def trimQuotes (s : String) : String :=
  ⟨((s.data.dropWhile (fun c => c == '"')).reverse.dropWhile (fun c => c == '"')).reverse⟩

/-- The `match subjects.get(x) { Some(Object(m)) => m, _ => empty }` idiom
    the source uses for preds and alt_preds. -/
def predsOf (subjects : SMap) (subject_id : String) : SMap :=
  match mapGet subjects subject_id with
  | some (.obj m) => m
  | _ => []

/-- The string compress extracts from an overlay predicate: the first
    object under the key, serialized and stripped of surrounding quotes
    (src lines 141-152). -/
def overlayKey (preds : SMap) (t : String) : String :=
  trimQuotes (svToString (first_object preds t))

/-- The trimmed object string of an Object (src lines 198-201). -/
def oObjOf (o : SerdeValue) : String :=
  match svGet o "object" with
  | some s => trimQuotes (svToString s)
  | none => ""

/-- The trimmed value string of an Object (src lines 202-205). -/
def oValOf (o : SerdeValue) : String :=
  match svGet o "value" with
  | some s => trimQuotes (svToString s)
  | none => ""

/-- The removal of the three overlay keys and rdf:type that compress
    performs on the overlay subject (src lines 155-158). -/
def erase4 (m : SMap) (subject_type predicate_type object_type : String) : SMap :=
  mapRemove (mapRemove (mapRemove (mapRemove m subject_type) predicate_type)
    object_type) "rdf:type"

/-- Whether the array under subjects[S][P] holds an Object whose trimmed
    object or value string equals the target -- the matching test of
    compress's object loop (src line 207). -/
def overlayMatches (subjects : SMap) (S P target : String) : Bool :=
  match (mapGet subjects S).bind (fun p => svGet p P) with
  | some (.arr objs) => objs.any (fun o => decide (oObjOf o = target ∨ oValOf o = target))
  | _ => false

/-- src lines 154-159 of fn compress: strip the three overlay keys and
    rdf:type from the overlay subject's entry. -/
def compress_strip (subject_id subject_type predicate_type object_type : String)
    (compressed_subjects : SMap) : SMap :=
  match mapGet compressed_subjects subject_id with
  | some (.obj m) =>
      mapInsert compressed_subjects subject_id
        (.obj (erase4 m subject_type predicate_type object_type))
  | _ => compressed_subjects

/-- src lines 166-168 of fn compress: make sure the annotated subject has
    an entry. -/
def compress_ensure_subject (subject : String) (alt_preds : SMap)
    (compressed_subjects : SMap) : SMap :=
  if (mapGet compressed_subjects subject).isNone then
    mapInsert compressed_subjects subject (.obj alt_preds)
  else compressed_subjects

/-- src lines 171-181 of fn compress: make sure the annotated subject's
    entry has a binding for the annotated predicate (an empty Object when
    alt_preds has no Object there, which is the phantom binding the
    source creates because object lists are Arrays, not Objects). -/
def compress_ensure_predicate (subject predicate : String) (alt_preds : SMap)
    (compressed_subjects : SMap) : SMap :=
  match mapGet compressed_subjects subject with
  | some (.obj m) =>
      if (mapGet m predicate).isNone then
        let compressed_objs : SerdeValue :=
          match mapGet alt_preds predicate with
          | some (.obj p) => .obj p
          | _ => .obj []
        mapInsert compressed_subjects subject (.obj (mapInsert m predicate compressed_objs))
      else compressed_subjects
  | _ => compressed_subjects

/-- src lines 188-237 of fn compress: the body of the `for o in objs`
    loop.  obj is the trimmed target string; a matching object receives
    the merged annotations under `kind` and the overlay subject is
    marked for removal. -/
def compress_objStep (kind subject_id obj : String) (compressed_subjects : SMap)
    (acc : List SerdeValue × List String) (o : SerdeValue) :
    List SerdeValue × List String :=
  let (objs_copy, remove) := acc
  if oObjOf o = obj ∨ oValOf o = obj then
    match mapGet compressed_subjects subject_id with
    | some (.obj items) =>
        let annotations : SMap :=
          match svGet o kind with
          | some (.obj m) => m
          | _ => []
        let annotations := items.foldl
          (fun (ann : SMap) kv =>
            let annotations_for_key : List SerdeValue :=
              match mapGet ann kv.1 with
              | some (.arr v) => v
              | _ => []
            let annotations_for_key :=
              match kv.2 with
              | .arr v => annotations_for_key ++ v
              | _ => annotations_for_key
            mapInsert ann kv.1 (.arr annotations_for_key))
          annotations
        match o with
        | .obj m =>
            (objs_copy ++ [SerdeValue.obj (mapInsert m kind (.obj annotations))],
             setInsert remove subject_id)
        | _ => (objs_copy ++ [o], remove)
    | _ => (objs_copy ++ [o], remove)
  else (objs_copy ++ [o], remove)

/-- src lines 239-243 of fn compress: write the rebuilt object list back. -/
def compress_writeback (subject predicate : String) (objs_copy : List SerdeValue)
    (compressed_subjects : SMap) : SMap :=
  match mapGet compressed_subjects subject with
  | some (.obj m) =>
      match mapGet m predicate with
      | some (.arr _) =>
          mapInsert compressed_subjects subject
            (.obj (mapInsert m predicate (.arr objs_copy)))
      | _ => compressed_subjects
  | _ => compressed_subjects

/-- src lines 130-245: fn compress.  Mirrors the source statement by
    statement; returns the updated (compressed_subjects, remove) pair
    that the source mutates through &mut parameters. -/
def compress (kind : String) (subject_id : String) (subjects : SMap)
    (compressed_subjects : SMap) (remove : List String) (preds : SMap)
    (subject_type predicate_type object_type : String) : SMap × List String :=
  let subject := overlayKey preds subject_type
  let predicate := overlayKey preds predicate_type
  let obj := overlayKey preds object_type
  let compressed_subjects :=
    compress_strip subject_id subject_type predicate_type object_type compressed_subjects
  let alt_preds : SMap := predsOf subjects subject
  let compressed_subjects := compress_ensure_subject subject alt_preds compressed_subjects
  let compressed_subjects :=
    compress_ensure_predicate subject predicate alt_preds compressed_subjects
  match (mapGet compressed_subjects subject).bind (fun p => svGet p predicate) with
  | some (.arr objs) =>
      let (objs_copy, remove) :=
        objs.foldl (compress_objStep kind subject_id obj compressed_subjects) ([], remove)
      (compress_writeback subject predicate objs_copy compressed_subjects, remove)
  | _ => (compressed_subjects, remove)

/-- One iteration of the annotate_reify subject loop (src lines
    397-436). -/
def annotate_reify_step (subjects : SMap) (acc : SMap × List String)
    (subject_id : String) : SMap × List String :=
  let (compressed_subjects, remove) := acc
  let preds : SMap := predsOf subjects subject_id
  let compressed_subjects :=
    if (mapGet compressed_subjects subject_id).isNone then
      mapInsert compressed_subjects subject_id (.obj preds)
    else compressed_subjects
  let (compressed_subjects, remove) :=
    if mapContains preds "owl:annotatedSource" then
      compress "annotations" subject_id subjects compressed_subjects remove preds
        "owl:annotatedSource" "owl:annotatedProperty" "owl:annotatedTarget"
    else (compressed_subjects, remove)
  let (compressed_subjects, remove) :=
    if mapContains preds "rdf:subject" then
      compress "metadata" subject_id subjects compressed_subjects remove preds
        "rdf:subject" "rdf:predicate" "rdf:object"
    else (compressed_subjects, remove)
  (compressed_subjects, remove)

/-- src lines 393-444: fn annotate_reify. -/
def annotate_reify (subjects : SMap) : SMap :=
  let acc := (mapKeys subjects).foldl (annotate_reify_step subjects) ([], [])
  acc.2.foldl mapRemove acc.1

/-! ### C8 ThickEmitter (src lines 448-494) -/

/-- src fn subjects_to_thick_rows. -/
def subjects_to_thick_rows (subjects : SMap) : List SMap :=
  (mapKeys subjects).foldl
    (fun rows subject_id =>
      let predicates : SMap :=
        match mapGet subjects subject_id with
        | some (.obj p) => p
        | _ => []
      (mapKeys predicates).foldl
        (fun rows predicate =>
          let objs : List SerdeValue :=
            match mapGet predicates predicate with
            | some (.arr v) => v
            | _ => []
          objs.foldl
            (fun rows obj =>
              let result : SMap :=
                match obj with
                | .obj m => m
                | _ => []
              let result := mapInsert result "subject" (.str subject_id)
              let result := mapInsert result "predicate" (.str predicate)
              let result :=
                match mapGet result "object" with
                | some (.str _) => result
                | some s => mapInsert result "object" (.str (svToString s))
                | none => result
              rows ++ [result])
            rows)
        rows)
    []

/-- One stanza through the thin-to-thick pipeline as fn insert runs it
    (src line 994): subjects_to_thick_rows(annotate_reify(
    thin_rows_to_subjects(rows))). -/
def stanzaThickRows (thin_rows : List ThinRow) : Option (List SMap) :=
  (thin_rows_to_subjects thin_rows).map (fun s => subjects_to_thick_rows (annotate_reify s))

/-! ### C2 TripleIntake / C3 StanzaAssembler (src fn insert, lines 890-996) -/

/-- rio_api NamedOrBlankNode. -/
inductive RioSubject where
  | named : String → RioSubject
  | blank : String → RioSubject
deriving DecidableEq

/-- rio_api Term for objects. -/
inductive RioTerm where
  | named : String → RioTerm
  | blank : String → RioTerm
  | simpleLit : String → RioTerm
  | typedLit : String → String → RioTerm
  | langLit : String → String → RioTerm
deriving DecidableEq

structure RioTriple where
  subject : RioSubject
  predicate : String
  object : RioTerm
deriving DecidableEq

/-- The parser-callback state: the stanza stack, the current stanza name
    and the thin_rows_by_stanza BTreeMap (sorted association list). -/
structure IntakeState where
  stack : List Row6
  stanza : String
  groups : List (String × List ThinRow)

/-- thin_rows_by_stanza update (src lines 935-939): append to an
    existing group, or insert a new binding (key-sorted, as BTreeMap). -/
def groupsAppend (gs : List (String × List ThinRow)) (k : String) (rows : List ThinRow) :
    List (String × List ThinRow) :=
  match gs with
  | [] => [(k, rows)]
  | (k1, v1) :: rest =>
      if k = k1 then (k1, v1 ++ rows) :: rest
      else if strLt k k1 then (k, rows) :: (k1, v1) :: rest
      else (k1, v1) :: groupsAppend rest k rows

/-- The parser callback (src lines 926-988) for one triple. -/
def processTriple (prefixes : List PrefixDef) (st : IntakeState) (t : RioTriple) :
    IntakeState :=
  if t.subject = .named "http://example.com/stanza-end" then
    let stanza_rows := thinify st.stack st.stanza
    let groups := groupsAppend st.groups st.stanza stanza_rows
    ⟨[], "", groups⟩
  else
    let subject : Option String :=
      match t.subject with
      | .named node => some (shorten prefixes node)
      | .blank id => some ("_:" ++ id)
    let predicate : Option String := some (shorten prefixes t.predicate)
    let cells : Option String × Option String × Option String × Option String :=
      match t.object with
      | .named node => (some (shorten prefixes node), none, none, none)
      | .blank id => (some ("_:" ++ id), none, none, none)
      | .simpleLit value => (none, some value, none, none)
      | .typedLit value datatype => (none, some value, some (shorten prefixes datatype), none)
      | .langLit value language => (none, some value, none, some language)
    let (object, value, datatype, language) := cells
    let stack := st.stack ++ [⟨subject, predicate, object, value, datatype, language⟩]
    let stanza :=
      match t.subject with
      | .named node => shorten prefixes node
      | _ => st.stanza
    let stanza :=
      if stanza = "" ∧
          (t.predicate = "http://www.w3.org/2002/07/owl#annotatedSource" ∨
           t.predicate = "http://www.w3.org/1999/02/22-rdf-syntax-ns#subject") then
        match t.object with
        | .named node => shorten prefixes node
        | _ => stanza
      else stanza
    ⟨stack, stanza, st.groups⟩

/-- Run the streaming parse over a whole triple stream. -/
def processStream (prefixes : List PrefixDef) (triples : List RioTriple) :
    List (String × List ThinRow) :=
  (triples.foldl (processTriple prefixes) ⟨[], "", []⟩).groups

/-- src lines 991-996: one thin-to-thick pass per stanza group, in the
    BTreeMap's (key-sorted) iteration order, appending all thick rows
    into one output batch. -/
def emitAll : List (String × List ThinRow) → Option (List SMap)
  | [] => some []
  | (_, rows) :: rest =>
      match stanzaThickRows rows, emitAll rest with
      | some r, some rs => some (r ++ rs)
      | _, _ => none

/-- The full ingestion pipeline on a parsed triple stream: the batch of
    thick rows in the order fn insert appends them. -/
def ingestStream (prefixes : List PrefixDef) (triples : List RioTriple) :
    Option (List SMap) :=
  emitAll (processStream prefixes triples)

/-! ### C9 Reexpander (src lines 496-888).  The mutually recursive
    functions are driaded by fuel (the source recursion has no syntactic
    bound; on the concrete inputs of the theorems below any sufficiently
    large fuel yields the value the source computes).  The process-wide
    B_ID counter is threaded explicitly. -/

/-- Rust str::contains with a string pattern. -/
def containsGo (pat : List Char) : List Char → Bool
  | [] => pat.isEmpty
  | c :: rest => pat.isPrefixOf (c :: rest) || containsGo pat rest

def containsSub (s pat : String) : Bool := containsGo pat.data s.data

/-- Rust str::strip_prefix with a string pattern (one occurrence). -/
def stripPre (s pat : String) : Option String :=
  if pat.data.isPrefixOf s.data then some ⟨s.data.drop pat.data.length⟩ else none

/-- Rust str::strip_suffix with a string pattern (one occurrence). -/
def stripSuf (s pat : String) : Option String :=
  if pat.data.reverse.isPrefixOf s.data.reverse then
    some ⟨(s.data.reverse.drop pat.data.length).reverse⟩
  else none

/-- Rust str::split(':'): split at every colon. -/
def splitCharGo (c : Char) : List Char → List (List Char)
  | [] => [[]]
  | x :: rest =>
      let r := splitCharGo c rest
      if x = c then [] :: r
      else
        match r with
        | [] => [[x]]
        | h :: t => (x :: h) :: t

def splitColon (s : String) : List String :=
  (splitCharGo ':' s.data).map (fun l => ⟨l⟩)

def deprefixFind (prefixes : List PrefixDef) (pfx name : String) : Option String :=
  match prefixes with
  | [] => none
  | p :: rest =>
      if p.pfx = pfx then some ("<" ++ p.base ++ name ++ ">") else deprefixFind rest pfx name

/-- src lines 506-522: fn deprefix (inner to thick2triples).  A
    two-component content with a known prefix becomes an angle-bracketed
    IRI; content holding a caret pair or an at sign passes through;
    everything else is triple-quoted. -/
def deprefix (prefixes : List PrefixDef) (content : String) : String :=
  let found : Option String :=
    match splitColon content with
    | [pfx, name] => deprefixFind prefixes pfx name
    | _ => none
  match found with
  | some r => r
  | none =>
      if containsSub content "^^" || containsSub content "@" then content
      else "\"\"\"" ++ content ++ "\"\"\""

/-- src lines 525-538: fn quote (inner to create_node). -/
def rustQuote (token : String) : String :=
  if containsSub token "\n" then
    let token' :=
      match (stripPre token "\"").bind (fun t => stripSuf t "\"") with
      | some t => t
      | none => token
    "\"\"\"" ++ token' ++ "\"\"\""
  else token

/-- src lines 524-568: fn create_node. -/
def create_node (prefixes : List PrefixDef) (content : SerdeValue) : SerdeValue :=
  match content with
  | .str s =>
      if rustStartsWith s "_:" then content
      else if rustStartsWith s "<" then content
      else if rustStartsWith s "http" then .str ("\"\"\"" ++ s ++ "\"\"\"")
      else .str ( deprefix prefixes s)
  | .obj m =>
      match mapGet m "value", mapGet m "language" with
      | some (.str value), some (.str language) => .str (rustQuote value ++ "@" ++ language)
      | _, _ =>
          match mapGet m "value", mapGet m "datatype" with
          | some (.str value), some (.str datatype) => .str (rustQuote value ++ "^^" ++ datatype)
          | _, _ =>
              match mapGet m "value" with
              | some (.str value) => .str (rustQuote value)
              | _ => .str (svToString content)
  | _ => .str (svToString content)

mutual

/-- src lines 500-505 and 851-859: fn thick2triples (outer dispatch). -/
def thick2triples (fuel : Nat) (prefixes : List PrefixDef) (subject predicate : String)
    (thick_row : SMap) (b : Nat) : List SerdeValue × Nat :=
  match fuel with
  | 0 => ([], b)
  | n + 1 =>
      if (mapGet thick_row "object").isSome then
        obj2triples n prefixes subject predicate thick_row b
      else if (mapGet thick_row "value").isSome then
        val2triples n prefixes subject predicate thick_row b
      else ([], b)
termination_by structural fuel

/-- src lines 570-662: fn decompress. -/
def decompress (fuel : Nat) (prefixes : List PrefixDef) (thick_row : SMap)
    (target : SerdeValue) (target_type decomp_type : String) (b : Nat) : SMap × Nat :=
  match fuel with
  | 0 => ([], b)
  | n + 1 =>
      let annodata_subj :=
        if decomp_type = "annotations" then "owl:annotatedSource" else "rdf:subject"
      let annodata_pred :=
        if decomp_type = "annotations" then "owl:annotatedProperty" else "rdf:predicate"
      let annodata_obj :=
        if decomp_type = "annotations" then "owl:annotatedTarget" else "rdf:object"
      let (target_map, b) : SMap × Nat :=
        match target with
        | .obj m =>
            if ¬ mapContains m "value" then
              let (ts, b) := predicate_map_to_triples n prefixes m b
              (mapInsert [] target_type (.arr ts), b)
            else (mapInsert [] target_type target, b)
        | .str _ => (mapInsert [] target_type target, b)
        | _ => ([], b)
      let subject_map : SMap :=
        match mapGet thick_row "subject" with
        | some (.str s) => mapInsert [] "object" (.str s)
        | _ => []
      let predicate_map : SMap :=
        match mapGet thick_row "predicate" with
        | some (.str s) => mapInsert [] "object" (.str s)
        | _ => []
      let object_type_map : SMap :=
        mapInsert [] "object"
          (.str (if decomp_type = "annotations" then "owl:Axiom" else "rdf:Statement"))
      let annodata := mapInsert [] annodata_subj (.arr [.obj subject_map])
      let annodata := mapInsert annodata annodata_pred (.arr [.obj predicate_map])
      let annodata := mapInsert annodata annodata_obj (.arr [.obj target_map])
      let annodata := mapInsert annodata "rdf:type" (.arr [.obj object_type_map])
      let annodata :=
        match mapGet thick_row decomp_type with
        | some (.obj m) => m.foldl (fun ad kv => mapInsert ad kv.1 kv.2) annodata
        | _ => annodata
      (annodata, b)
termination_by structural fuel

/-- src lines 664-685: fn predicate_map_to_triples.  Allocates the next
    blank id first (B_ID += 1), then expands every object of every
    predicate under that blank subject. -/
def predicate_map_to_triples (fuel : Nat) (prefixes : List PrefixDef) (pred_map : SMap)
    (b : Nat) : List SerdeValue × Nat :=
  match fuel with
  | 0 => ([], b)
  | n + 1 =>
      let b := b + 1
      let bnode := "_:myb" ++ toString b
      pred_map.foldl
        (fun (acc : List SerdeValue × Nat) kv =>
          let (triples, b) := acc
          match kv.2 with
          | .arr v =>
              v.foldl
                (fun (acc2 : List SerdeValue × Nat) obj =>
                  let (triples, b) := acc2
                  match obj with
                  | .obj m =>
                      let (ts, b) := thick2triples n prefixes bnode kv.1 m b
                      (triples ++ ts, b)
                  | _ => (triples, b))
                (triples, b)
          | _ => (triples, b))
        ([], b)
termination_by structural fuel

/-- src lines 687-784: fn obj2triples. -/
def obj2triples (fuel : Nat) (prefixes : List PrefixDef) (subject predicate : String)
    (thick_row : SMap) (b : Nat) : List SerdeValue × Nat :=
  match fuel with
  | 0 => ([], b)
  | n + 1 =>
      let target := mapGet thick_row "object"
      let (triples, b) : List SerdeValue × Nat :=
        match target with
        | some (.arr target) =>
            let (triples, b) :=
              target.foldl
                (fun (acc : List SerdeValue × Nat) t =>
                  let (triples, b) := acc
                  match t with
                  | .obj t =>
                      let t_subject :=
                        match mapGet t "subject" with
                        | some (.str s) => s
                        | _ => ""
                      let t_predicate :=
                        match mapGet t "predicate" with
                        | some (.str s) => s
                        | _ => ""
                      let (ts, b) := thick2triples n prefixes t_subject t_predicate t b
                      (triples ++ ts, b)
                  | _ => (triples, b))
                ([], b)
            let object := "_:myb" ++ toString (b - 1)
            let triple := mapInsert [] "subject" (create_node prefixes (.str subject))
            let triple := mapInsert triple "predicate" (create_node prefixes (.str predicate))
            let triple := mapInsert triple "object" (create_node prefixes (.str object))
            (triples ++ [.obj triple], b)
        | some (.obj target) =>
            let object := "_:myb" ++ toString (b + 1)
            let (ts, b) := predicate_map_to_triples n prefixes target b
            let triple := mapInsert [] "subject" (create_node prefixes (.str subject))
            let triple := mapInsert triple "predicate" (create_node prefixes (.str predicate))
            let triple := mapInsert triple "object" (create_node prefixes (.str object))
            (ts ++ [.obj triple], b)
        | some (.str target) =>
            let triple := mapInsert [] "subject" (create_node prefixes (.str subject))
            let triple := mapInsert triple "predicate" (create_node prefixes (.str predicate))
            let triple := mapInsert triple "object" (create_node prefixes (.str target))
            ([.obj triple], b)
        | _ => ([], b)
      let (triples, b) : List SerdeValue × Nat :=
        if (mapGet thick_row "annotations").isSome then
          match target with
          | some target =>
              let (ann, b) := decompress n prefixes thick_row target "object" "annotations" b
              let (ts, b) := predicate_map_to_triples n prefixes ann b
              (triples ++ ts, b)
          | none => (triples, b)
        else (triples, b)
      if (mapGet thick_row "metadata").isSome then
        match target with
        | some target =>
            let (meta, b) := decompress n prefixes thick_row target "object" "metadata" b
            let (ts, b) := predicate_map_to_triples n prefixes meta b
            (triples ++ ts, b)
        | none => (triples, b)
      else (triples, b)
termination_by structural fuel

/-- src lines 786-849: fn val2triples. -/
def val2triples (fuel : Nat) (prefixes : List PrefixDef) (subject predicate : String)
    (thick_row : SMap) (b : Nat) : List SerdeValue × Nat :=
  match fuel with
  | 0 => ([], b)
  | n + 1 =>
      match mapGet thick_row "value" with
      | some value =>
          let target : SerdeValue :=
            match mapGet thick_row "datatype" with
            | some (.str datatype) =>
                .obj (mapInsert (mapInsert [] "value" (.str (svToString value)))
                  "datatype" (.str datatype))
            | _ =>
                match mapGet thick_row "language" with
                | some (.str language) =>
                    .obj (mapInsert (mapInsert [] "value" (.str (svToString value)))
                      "language" (.str language))
                | _ => value
          let triple := mapInsert [] "subject" (create_node prefixes (.str subject))
          let triple := mapInsert triple "predicate" (create_node prefixes (.str predicate))
          let triple := mapInsert triple "object" (create_node prefixes target)
          let triples := [SerdeValue.obj triple]
          let (triples, b) : List SerdeValue × Nat :=
            if (mapGet thick_row "annotations").isSome then
              let (ann, b) := decompress n prefixes thick_row target "value" "annotations" b
              let (ts, b) := predicate_map_to_triples n prefixes ann b
              (triples ++ ts, b)
            else (triples, b)
          if (mapGet thick_row "metadata").isSome then
            let (meta, b) := decompress n prefixes thick_row target "value" "metadata" b
            let (ts, b) := predicate_map_to_triples n prefixes meta b
            (triples ++ ts, b)
          else (triples, b)
      | none => ([], b)
termination_by structural fuel

end

/-! ### serde_json::from_str for the values the program writes
    (strings/arrays/objects; C9 re-parses the JSON-encoded object
    cells).  A failed parse leaves the row unchanged, as the source's
    `if let Ok(val)` does. -/

def hexVal (c : Char) : Option Nat :=
  if c = '0' then some 0 else if c = '1' then some 1 else if c = '2' then some 2
  else if c = '3' then some 3 else if c = '4' then some 4 else if c = '5' then some 5
  else if c = '6' then some 6 else if c = '7' then some 7 else if c = '8' then some 8
  else if c = '9' then some 9 else if c = 'a' ∨ c = 'A' then some 10
  else if c = 'b' ∨ c = 'B' then some 11 else if c = 'c' ∨ c = 'C' then some 12
  else if c = 'd' ∨ c = 'D' then some 13 else if c = 'e' ∨ c = 'E' then some 14
  else if c = 'f' ∨ c = 'F' then some 15 else none

/-- Parse the body of a JSON string literal (after the opening quote). -/
def parseJStr : Nat → List Char → Option (String × List Char)
  | 0, _ => none
  | _ + 1, [] => none
  | n + 1, c :: rest =>
      if c = '"' then some ("", rest)
      else if c = '\\' then
        match rest with
        | [] => none
        | e :: rest2 =>
            let dec : Option (Char × List Char) :=
              if e = '"' then some ('"', rest2)
              else if e = '\\' then some ('\\', rest2)
              else if e = '/' then some ('/', rest2)
              else if e = 'n' then some ('\n', rest2)
              else if e = 't' then some ('\t', rest2)
              else if e = 'r' then some ('\r', rest2)
              else if e = 'b' then some ('\x08', rest2)
              else if e = 'f' then some ('\x0c', rest2)
              else if e = 'u' then
                match rest2 with
                | h1 :: h2 :: h3 :: h4 :: rest3 =>
                    match hexVal h1, hexVal h2, hexVal h3, hexVal h4 with
                    | some a, some b, some c, some d =>
                        some (Char.ofNat (((a * 16 + b) * 16 + c) * 16 + d), rest3)
                    | _, _, _, _ => none
                | _ => none
              else none
            match dec with
            | some (ch, rest3) =>
                match parseJStr n rest3 with
                | some (s, rest4) => some (String.singleton ch ++ s, rest4)
                | none => none
            | none => none
      else
        match parseJStr n rest with
        | some (s, rest2) => some (String.singleton c ++ s, rest2)
        | none => none

mutual

/-- Recursive-descent parser for the subset of JSON the program emits. -/
def parseSV : Nat → List Char → Option (SerdeValue × List Char)
  | 0, _ => none
  | _ + 1, [] => none
  | n + 1, c :: rest =>
      if c = '"' then
        match parseJStr n rest with
        | some (s, rest2) => some (.str s, rest2)
        | none => none
      else if c = '[' then
        match rest with
        | ']' :: rest2 => some (.arr [], rest2)
        | _ =>
            match parseArr n rest with
            | some (l, rest2) => some (.arr l, rest2)
            | none => none
      else if c = '\x7b' then
        match rest with
        | '\x7d' :: rest2 => some (.obj [], rest2)
        | _ =>
            match parseObj n rest with
            | some (m, rest2) => some (.obj m, rest2)
            | none => none
      else none

def parseArr : Nat → List Char → Option (List SerdeValue × List Char)
  | 0, _ => none
  | n + 1, cs =>
      match parseSV n cs with
      | some (v, rest) =>
          match rest with
          | ',' :: rest2 =>
              match parseArr n rest2 with
              | some (l, rest3) => some (v :: l, rest3)
              | none => none
          | ']' :: rest2 => some ([v], rest2)
          | _ => none
      | none => none

def parseObj : Nat → List Char → Option (List (String × SerdeValue) × List Char)
  | 0, _ => none
  | n + 1, cs =>
      match cs with
      | '"' :: rest =>
          match parseJStr n rest with
          | some (k, rest2) =>
              match rest2 with
              | ':' :: rest3 =>
                  match parseSV n rest3 with
                  | some (v, rest4) =>
                      match rest4 with
                      | ',' :: rest5 =>
                          match parseObj n rest5 with
                          | some (m, rest6) => some ((k, v) :: m, rest6)
                          | none => none
                      | '\x7d' :: rest5 => some ([(k, v)], rest5)
                      | _ => none
                  | none => none
              | _ => none
          | none => none
      | _ => none

end

/-- serde_json::from_str: the whole input must parse. -/
def svFromString (s : String) : Option SerdeValue :=
  match parseSV (s.data.length + 1) s.data with
  | some (v, []) => some v
  | _ => none

/-- src lines 861-888: fn thicks2triples, threading the B_ID counter
    (which starts at 0 for a run); the fuel bounds the recursion depth
    of thick2triples. -/
def thicks2triples (fuel : Nat) (prefixes : List PrefixDef) (thick_rows : List SMap) :
    List SerdeValue :=
  (thick_rows.foldl
    (fun (acc : List SerdeValue × Nat) row =>
      let (triples, b) := acc
      let row :=
        match mapGet row "object" with
        | some (.str s) =>
            if rustStartsWith s "\x7b" then
              match svFromString s with
              | some val => mapInsert row "object" val
              | none => row
            else row
        | _ => row
      let subject :=
        match mapGet row "subject" with
        | some (.str s) => s
        | _ => ""
      let predicate :=
        match mapGet row "predicate" with
        | some (.str s) => s
        | _ => ""
      let (ts, b) := thick2triples fuel prefixes subject predicate row b
      (triples ++ ts, b))
    ([], 0)).1

/-! ## Claims -/

/-- First table entry whose base is a prefix of the IRI (the entry
    shorten commits to). -/
def firstMatch (iri : String) : List PrefixDef → Option PrefixDef
  | [] => none
  | p :: rest => if rustStartsWith iri p.base then some p else firstMatch iri rest

/-- The single thin row used by the C2 counterexample: both the object
    cell and the value cell are empty. -/
def c2row : ThinRow := ⟨some "ex:A", some "ex:A", some "ex:p", none, none, none, none⟩

/-- Thin rows for the C9 counterexample: _:a bears owl:annotatedSource,
    owl:annotatedProperty and owl:annotatedTarget but NO rdf:type
    owl:Axiom. -/
def c9rows : List ThinRow :=
  [ ⟨some "ex:S", some "ex:S", some "ex:P", some "ex:O", none, none, none⟩,
    ⟨some "ex:S", some "_:a", some "owl:annotatedSource", some "ex:S", none, none, none⟩,
    ⟨some "ex:S", some "_:a", some "owl:annotatedProperty", some "ex:P", none, none, none⟩,
    ⟨some "ex:S", some "_:a", some "owl:annotatedTarget", some "ex:O", none, none, none⟩,
    ⟨some "ex:S", some "_:a", some "rdfs:comment", none, some "note", none, none⟩ ]

/-- Thin rows for the C3 counterexample: a complete OWL-annotation
    overlay subject _:a whose annotated triple (ex:S, ex:P, ex:O) exists
    nowhere in the stanza. -/
def c3rows : List ThinRow :=
  [ ⟨some "ex:S", some "_:a", some "rdf:type", some "owl:Axiom", none, none, none⟩,
    ⟨some "ex:S", some "_:a", some "owl:annotatedSource", some "ex:S", none, none, none⟩,
    ⟨some "ex:S", some "_:a", some "owl:annotatedProperty", some "ex:P", none, none, none⟩,
    ⟨some "ex:S", some "_:a", some "owl:annotatedTarget", some "ex:O", none, none, none⟩,
    ⟨some "ex:S", some "_:a", some "rdfs:comment", none, some "note", none, none⟩ ]

/-- The orphaned overlay subject map for the C3 witness. -/
def c3preds : SMap :=
  [("owl:annotatedSource", .arr [.obj [("object", .str "ex:S")]]),
   ("rdfs:comment", .arr [.obj [("value", .str "note")]])]

def c3m : SMap := [("_:a", .obj c3preds)]

def c6stream : List RioTriple :=
  [ ⟨.named "http://z/A", "http://p/p", .simpleLit "v1"⟩,
    ⟨.named "http://example.com/stanza-end", "http://p/p", .simpleLit ""⟩,
    ⟨.named "http://a/B", "http://p/p", .simpleLit "v2"⟩,
    ⟨.named "http://example.com/stanza-end", "http://p/p", .simpleLit ""⟩ ]

/-- Lookup in thin_rows_by_stanza (BTreeMap::get on the grouping map of
    fn insert). -/
def groupsGet (gs : List (String × List ThinRow)) (k : String) : Option (List ThinRow) :=
  match gs with
  | [] => none
  | (k1, v1) :: rest => if k = k1 then some v1 else groupsGet rest k

def c1prefixes : List PrefixDef := [⟨"ex", "http://example.com/"⟩]

/-- A document with one triple whose object is the PLAIN LITERAL "ex:O"
    (no blank nodes anywhere). -/
def c1docLit : List RioTriple :=
  [ ⟨.named "http://example.com/S", "http://example.com/P", .simpleLit "ex:O"⟩,
    ⟨.named "http://example.com/stanza-end", "http://example.com/P", .simpleLit ""⟩ ]

/-- A document with one triple whose object is the IRI
    http://example.com/O (no blank nodes anywhere). -/
def c1docIri : List RioTriple :=
  [ ⟨.named "http://example.com/S", "http://example.com/P",
      .named "http://example.com/O"⟩,
    ⟨.named "http://example.com/stanza-end", "http://example.com/P", .simpleLit ""⟩ ]

/-! Invariant machinery for C7: every Object in every predicate's array
    has exactly one of the object/value keys, and datatype/language
    never co-occur and only accompany value. -/

/-- The column discipline of one Object / thick row map. -/
def objOkM (m : SMap) : Bool :=
  ((mapGet m "object").isSome != (mapGet m "value").isSome) &&
  !((mapGet m "datatype").isSome && (mapGet m "language").isSome) &&
  (!((mapGet m "datatype").isSome || (mapGet m "language").isSome) ||
    (mapGet m "value").isSome)

def objOk (v : SerdeValue) : Bool :=
  match v with
  | .obj m => objOkM m
  | _ => false

/-- Every array bound in a predicate map holds only well-formed Objects. -/
def PredInvP (pm : SMap) : Prop :=
  ∀ kv ∈ pm, ∀ l, kv.2 = SerdeValue.arr l → ∀ o ∈ l, objOk o = true

/-- Every object entry of a subject map has a well-formed predicate map. -/
def SubjInvP (m : SMap) : Prop :=
  ∀ kv ∈ m, ∀ pm, kv.2 = SerdeValue.obj pm → PredInvP pm

/-! Sortedness machinery for C8. -/

/-- Every array anywhere inside the value is in canonical (serialized
    string) order. -/
inductive AllSorted : SerdeValue → Prop where
  | str : ∀ s, AllSorted (.str s)
  | arr : ∀ l, l.Pairwise (fun a b => svLe a b = true) → (∀ x ∈ l, AllSorted x) →
      AllSorted (.arr l)
  | obj : ∀ m, (∀ kv ∈ m, AllSorted kv.2) → AllSorted (.obj m)

/-- The sortedness invariant on subject / predicate maps. -/
def MapSorted (m : SMap) : Prop := ∀ kv ∈ m, AllSorted kv.2

def c8rows : List ThinRow :=
  [ ⟨some "ex:S", some "ex:S", some "ex:P", some "ex:A", none, none, none⟩,
    ⟨some "ex:S", some "ex:S", some "ex:P", some "ex:B", none, none, none⟩,
    ⟨some "ex:S", some "_:a", some "rdf:type", some "owl:Axiom", none, none, none⟩,
    ⟨some "ex:S", some "_:a", some "owl:annotatedSource", some "ex:S", none, none, none⟩,
    ⟨some "ex:S", some "_:a", some "owl:annotatedProperty", some "ex:P", none, none, none⟩,
    ⟨some "ex:S", some "_:a", some "owl:annotatedTarget", some "ex:B", none, none, none⟩,
    ⟨some "ex:S", some "_:a", some "rdfs:comment", none, some "note", none, none⟩ ]

def c8e1 : SerdeValue := .obj [("object", .str "ex:A")]

def c8e2 : SerdeValue :=
  .obj [("annotations", .obj [("rdfs:comment", .arr [.obj [("value", .str "note")]])]),
        ("object", .str "ex:B")]

/-! ### C4: the blank-node reference relation and the worklist invariant -/

/-- An object (one element of a predicate's object list) references the
    blank node b when its object attribute is exactly the string b and b
    is written with a blank prefix. -/
def objRefs (obj : SerdeValue) (b : String) : Prop :=
  svGet obj "object" = some (.str b) ∧ rustStartsWith b "_:" = true

/-- The predicate map pm references b at predicate p. -/
def pmRefsAt (pm : SMap) (p b : String) : Prop :=
  ∃ objs obj, mapGet pm p = some (.arr objs) ∧ obj ∈ objs ∧ objRefs obj b

def pmRefs (pm : SMap) (b : String) : Prop := ∃ p, pmRefsAt pm p b

/-- Subject s references blank node b in the subjects map. -/
def subjRefs (subjects : SMap) (s b : String) : Prop :=
  ∃ pm, mapGet subjects s = some (.obj pm) ∧ pmRefs pm b

/-- Membership in the dependencies map. -/
def depContains (d : DepMap) (s b : String) : Bool :=
  match depGet d s with
  | some bs => setContains bs b
  | none => false

/-- Strictly sorted key list (the BTreeMap representation invariant). -/
def keysSorted (m : SMap) : Prop :=
  (mapKeys m).Pairwise (fun a b => strLt a b = true)

/-- Well-formedness of a worklist state relative to a ranking function:
    the subjects map is a BTreeMap image whose values are objects, every
    referenced blank node is itself a subject (closedness), references
    strictly decrease the rank (acyclicity), and the dependencies map
    records exactly the reference relation with no empty entries. -/
def WtdInv (rank : String → Nat) (st : WtdState) : Prop :=
  keysSorted st.subjects ∧
  (∀ kv ∈ st.subjects, ∃ pm, kv.2 = SerdeValue.obj pm) ∧
  (∀ s b, subjRefs st.subjects s b → mapContains st.subjects b = true) ∧
  (∀ s b, subjRefs st.subjects s b → rank b < rank s) ∧
  (∀ s b, depContains st.dependencies s b = true → subjRefs st.subjects s b) ∧
  (∀ s b, subjRefs st.subjects s b → depContains st.dependencies s b = true) ∧
  (∀ k, k ∈ depKeys st.dependencies → ∃ b, depContains st.dependencies k b = true)

def depKeysSorted (d : DepMap) : Prop :=
  (depKeys d).Pairwise (fun a b => strLt a b = true)

def pmObjsAt (pm : SMap) (p : String) : List SerdeValue :=
  match mapGet pm p with
  | some (.arr v) => v
  | _ => []

def wtdPredFold (leaves : List String) (sid : String) (ks : List String)
    (B : SMap × SMap × DepMap × List String) : SMap × SMap × DepMap × List String :=
  ks.foldl (wtdPredStep leaves sid) B

/-- The predicate map stored under sid (or empty when absent or not an
    object), as read at the top of the per-subject loop. -/
def pmOf (subjects : SMap) (sid : String) : SMap :=
  match mapGet subjects sid with
  | some (.obj m) => m
  | _ => []

def wtdSubjFold (leaves : List String) (ks : List String)
    (A : SMap × DepMap × List String) : SMap × DepMap × List String :=
  ks.foldl (wtdSubjStep leaves) A

/-- Every key of the dependencies map owns at least one recorded blank. -/
def depNE (d : DepMap) : Prop := ∀ k ∈ depKeys d, ∃ b, depContains d k b = true

/-- The leaves computed at the top of a pass (src lines 315-322). -/
def wtdLeaves (st : WtdState) : List String :=
  (mapKeys st.subjects).filter (fun k => !(depKeys st.dependencies).contains k)

/-- A stanza whose blank nodes form a cycle: ex:Z points to _:x, _:x to
    _:y and _:y back to _:x. -/
def c4cycRows : List ThinRow :=
  [ ⟨some "ex:Z", some "ex:Z", some "ex:P", some "_:x", none, none, none⟩,
    ⟨some "ex:Z", some "_:x", some "ex:P", some "_:y", none, none, none⟩,
    ⟨some "ex:Z", some "_:y", some "ex:P", some "_:x", none, none, none⟩ ]

/-- The worklist state the cyclic stanza reaches the loop with. -/
def c4cycSt : WtdState :=
  ⟨(thin_rows_to_subjects_core c4cycRows).2, (thin_rows_to_subjects_core c4cycRows).1⟩

/-- A stanza with an acyclic blank-node graph whose single blank object
    _:u is never defined as a subject. -/
def c4dangRows : List ThinRow :=
  [ ⟨some "ex:W", some "ex:W", some "ex:P", some "_:u", none, none, none⟩ ]

def c4dangSt : WtdState :=
  ⟨(thin_rows_to_subjects_core c4dangRows).2, (thin_rows_to_subjects_core c4dangRows).1⟩


/-! ### Theorems -/

theorem chLe_trans : ∀ a b c, chLe a b = true → chLe b c = true → chLe a c = true
  | [], _, _, _, _ => rfl
  | _ :: _, [], _, h, _ => by simp [chLe] at h
  | _ :: _, _ :: _, [], _, h => by simp [chLe] at h
  | a :: as, b :: bs, c :: cs, h1, h2 => by
      simp only [chLe] at h1 h2 ⊢
      by_cases hab : chVal a < chVal b
      · simp only [hab, if_true] at h1
        by_cases hbc : chVal b < chVal c
        · have : chVal a < chVal c := Nat.lt_trans hab hbc
          simp [this]
        · simp only [hbc, if_false] at h2
          by_cases hcb : chVal c < chVal b
          · simp [hcb] at h2
          · have hbc' : chVal b = chVal c :=
              Nat.le_antisymm (Nat.not_lt.mp hcb) (Nat.not_lt.mp hbc)
            have : chVal a < chVal c := hbc' ▸ hab
            simp [this]
      · simp only [hab, if_false] at h1
        by_cases hba : chVal b < chVal a
        · simp [hba] at h1
        · have hab' : chVal a = chVal b :=
            Nat.le_antisymm (Nat.not_lt.mp hba) (Nat.not_lt.mp hab)
          simp only [hab', lt_self_iff_false, if_false] at h1 ⊢
          by_cases hbc : chVal b < chVal c
          · simp [hbc]
          · simp only [hbc, if_false] at h2 ⊢
            by_cases hcb : chVal c < chVal b
            · simp [hcb] at h2
            · simp only [hcb, if_false] at h2 ⊢
              exact chLe_trans as bs cs h1 h2

theorem chLe_total : ∀ a b, chLe a b = true ∨ chLe b a = true
  | [], _ => Or.inl rfl
  | _ :: _, [] => Or.inr rfl
  | a :: as, b :: bs => by
      simp only [chLe]
      by_cases hab : chVal a < chVal b
      · left; simp [hab]
      · by_cases hba : chVal b < chVal a
        · right; simp [hba]
        · simp only [hab, hba, if_false]
          exact chLe_total as bs

theorem strLe_trans : ∀ a b c, strLe a b = true → strLe b c = true → strLe a c = true :=
  fun a b c h1 h2 => chLe_trans a.data b.data c.data h1 h2

theorem strLe_total : ∀ a b, strLe a b = true ∨ strLe b a = true :=
  fun a b => chLe_total a.data b.data

theorem svLe_trans : ∀ a b c, svLe a b = true → svLe b c = true → svLe a c = true :=
  fun a b c h1 h2 => strLe_trans _ _ _ h1 h2

theorem svLe_total : ∀ a b, svLe a b = true ∨ svLe b a = true :=
  fun a b => strLe_total _ _

theorem mem_sInsert (le : SerdeValue → SerdeValue → Bool) (a x : SerdeValue) :
    ∀ l, x ∈ sInsert le a l → x = a ∨ x ∈ l
  | [] => by simp [sInsert]
  | b :: bs => by
      simp only [sInsert]
      by_cases hab : le a b = true
      · simp only [hab, if_true]
        intro h
        rcases List.mem_cons.mp h with h | h
        · exact Or.inl h
        · exact Or.inr h
      · simp only [hab, if_false]
        intro h
        rcases List.mem_cons.mp h with h | h
        · exact Or.inr (by simp [h])
        · rcases mem_sInsert le a x bs h with h2 | h2
          · exact Or.inl h2
          · exact Or.inr (by simp [h2])

theorem sInsert_sorted (le : SerdeValue → SerdeValue → Bool)
    (htrans : ∀ a b c, le a b = true → le b c = true → le a c = true)
    (htotal : ∀ a b, le a b = true ∨ le b a = true)
    (a : SerdeValue) :
    ∀ l, l.Pairwise (fun x y => le x y = true) →
      (sInsert le a l).Pairwise (fun x y => le x y = true)
  | [], _ => by simp [sInsert]
  | b :: bs, h => by
      simp only [sInsert]
      rcases List.pairwise_cons.mp h with ⟨hb, hbs⟩
      by_cases hab : le a b = true
      · simp only [hab, if_true]
        refine List.pairwise_cons.mpr ⟨?_, h⟩
        intro x hx
        rcases List.mem_cons.mp hx with hx | hx
        · exact hx ▸ hab
        · exact htrans a b x hab (hb x hx)
      · simp only [hab, if_false]
        refine List.pairwise_cons.mpr ⟨?_, sInsert_sorted le htrans htotal a bs hbs⟩
        have hba : le b a = true := (htotal a b).resolve_left hab
        intro x hx
        rcases mem_sInsert le a x bs hx with rfl | hx'
        · exact hba
        · exact hb x hx'

theorem sortObjs_sorted : ∀ l, (sortObjs l).Pairwise (fun x y => svLe x y = true)
  | [] => by simp [sortObjs]
  | a :: as => by
      simp only [sortObjs]
      exact sInsert_sorted svLe svLe_trans svLe_total a (sortObjs as) (sortObjs_sorted as)

theorem sInsert_perm (le : SerdeValue → SerdeValue → Bool) (a : SerdeValue) :
    ∀ l, (sInsert le a l).Perm (a :: l)
  | [] => by simp [sInsert]
  | b :: bs => by
      simp only [sInsert]
      by_cases hab : le a b = true
      · simp [hab]
      · simp only [hab, if_false]
        exact ((sInsert_perm le a bs).cons b).trans (List.Perm.swap a b bs)

theorem sortObjs_perm : ∀ l, (sortObjs l).Perm l
  | [] => by simp [sortObjs]
  | a :: as => by
      simp only [sortObjs]
      exact (sInsert_perm svLe a (sortObjs as)).trans ((sortObjs_perm as).cons a)

/-- Claim C5 counterexample. -/
theorem C5_counterexample :
    shorten [⟨"ex", "http://x/"⟩] "http://x/http://x/y" = "ex:ex:y" ∧
    shorten [⟨"ex", "http://x/"⟩] "http://x/http://x/y" ≠ "ex:" ++ "http://x/y" := by
  decide

/-- Claim C5 amended. -/
theorem C5_amended (ps : List PrefixDef) (iri : String)
    (hsorted : ps.Pairwise (fun p q => q.base.length ≤ p.base.length)) :
    (firstMatch iri ps = none → shorten ps iri = "<" ++ iri ++ ">") ∧
    (∀ p, firstMatch iri ps = some p →
      p ∈ ps ∧ rustStartsWith iri p.base = true ∧
      shorten ps iri = rustReplace iri p.base (p.pfx ++ ":") ∧
      ∀ q ∈ ps, rustStartsWith iri q.base = true → q.base.length ≤ p.base.length) := by
  induction ps with
  | nil => exact ⟨fun _ => rfl, fun p h => by simp [firstMatch] at h⟩
  | cons hd tl ih =>
      rcases List.pairwise_cons.mp hsorted with ⟨hhd, htl⟩
      rcases ih htl with ⟨ihn, ihs⟩
      by_cases hm : rustStartsWith iri hd.base = true
      · constructor
        · intro h
          simp [firstMatch, hm] at h
        · intro p hp
          simp only [firstMatch, hm, if_true] at hp
          have hphd : p = hd := (Option.some.inj hp).symm
          subst hphd
          refine ⟨List.mem_cons_self _ _, hm, ?_, ?_⟩
          · simp [shorten, hm]
          · intro q hq _
            rcases List.mem_cons.mp hq with rfl | hq2
            · exact le_refl _
            · exact hhd q hq2
      · have hm' : rustStartsWith iri hd.base = false := by
          cases h : rustStartsWith iri hd.base
          · rfl
          · exact absurd h hm
        constructor
        · intro h
          simp only [firstMatch, hm', if_false] at h
          have : shorten (hd :: tl) iri = shorten tl iri := by simp [shorten, hm']
          rw [this]
          exact ihn h
        · intro p hp
          simp only [firstMatch, hm', if_false] at hp
          rcases ihs p hp with ⟨hmem, hsw, heq, hmax⟩
          refine ⟨List.mem_cons_of_mem _ hmem, hsw, ?_, ?_⟩
          · simpa [shorten, hm'] using heq
          · intro q hq hqsw
            rcases List.mem_cons.mp hq with rfl | hq2
            · exact absurd hqsw (by simp [hm'])
            · exact hmax q hq2 hqsw

/-- Claim C5 witness. -/
theorem C5_amended_witness :
    shorten [⟨"ex", "http://x/"⟩] "http://x/y" = "ex:y" := by
  have h := (C5_amended [⟨"ex", "http://x/"⟩] "http://x/y" (by simp)).2
    ⟨"ex", "http://x/"⟩ (by decide)
  rw [h.2.2.1]
  decide

/-- Claim C2 counterexample. -/
theorem C2_counterexample :
    stanzaThickRows [c2row] =
      some [[("predicate", .str "ex:p"), ("subject", .str "ex:A"), ("value", .str "")]] ∧
    stanzaThickRows [c2row] ≠ some [] := by
  constructor
  · decide
  · decide

theorem strLt_empty (s : String) (h : s ≠ "") : strLt "" s = true := by
  cases s with
  | mk data =>
      cases data with
      | nil => exact absurd rfl h
      | cons c cs => rfl

/-- A both-cells-empty row whose predicate is the annotation trigger: the
    subject's entry is stripped by the collapse and nothing is emitted. -/
theorem c2_trigger_annotation (st s : String) :
    stanzaThickRows [⟨some st, some s, some "owl:annotatedSource",
      none, none, none, none⟩] = some [] := by
  have h1 : thin_rows_to_subjects [⟨some st, some s, some "owl:annotatedSource",
      none, none, none, none⟩] = some [(s, SerdeValue.obj
        [("owl:annotatedSource", .arr [.obj [("value", .str "")]])])] := by
    simp [thin_rows_to_subjects, thin_rows_to_subjects_core, List.foldl, setInsert,
      subjRowStep, get_cell_contents, row2object_map, mapGet, mapInsert, wtdRun,
      sortObjs, sInsert, rustStartsWith]
  rw [stanzaThickRows, h1]
  simp only [Option.map]
  by_cases hs : s = ""
  · subst hs
    decide
  · have hs' : ¬ ("" = s) := fun hh => hs hh.symm
    have hlt : strLt "" s = true := strLt_empty s hs
    simp [annotate_reify, annotate_reify_step, predsOf, compress, compress_strip,
      compress_ensure_subject, compress_ensure_predicate, erase4, overlayKey,
      first_object, first_objectGo, svGet, trimQuotes, svToString, jsonEscape,
      escChar, mapGet, mapInsert, mapRemove, mapContains, mapKeys, List.foldl,
      hs, hs', hlt, subjects_to_thick_rows, compress_objStep, compress_writeback]

/-- The same for the reification trigger rdf:subject. -/
theorem c2_trigger_reification (st s : String) :
    stanzaThickRows [⟨some st, some s, some "rdf:subject",
      none, none, none, none⟩] = some [] := by
  have h1 : thin_rows_to_subjects [⟨some st, some s, some "rdf:subject",
      none, none, none, none⟩] = some [(s, SerdeValue.obj
        [("rdf:subject", .arr [.obj [("value", .str "")]])])] := by
    simp [thin_rows_to_subjects, thin_rows_to_subjects_core, List.foldl, setInsert,
      subjRowStep, get_cell_contents, row2object_map, mapGet, mapInsert, wtdRun,
      sortObjs, sInsert, rustStartsWith]
  rw [stanzaThickRows, h1]
  simp only [Option.map]
  by_cases hs : s = ""
  · subst hs
    decide
  · have hs' : ¬ ("" = s) := fun hh => hs hh.symm
    have hlt : strLt "" s = true := strLt_empty s hs
    simp [annotate_reify, annotate_reify_step, predsOf, compress, compress_strip,
      compress_ensure_subject, compress_ensure_predicate, erase4, overlayKey,
      first_object, first_objectGo, svGet, trimQuotes, svToString, jsonEscape,
      escChar, mapGet, mapInsert, mapRemove, mapContains, mapKeys, List.foldl,
      hs, hs', hlt, subjects_to_thick_rows, compress_objStep, compress_writeback]

/-- Claim C2 amended: a thin row whose object and value cells are both
    empty is not warned about and not dropped as malformed:
    row2object_map silently builds the empty-string value Object.  For
    every non-empty predicate other than the two overlay trigger
    predicates the pipeline emits a thick row carrying subject, predicate
    and an empty-string value (rows with an empty predicate are the only
    ones dropped with a warning).  When the predicate is the trigger
    owl:annotatedSource or rdf:subject, the materialized empty-value
    Object is instead consumed by the overlay collapse — the trigger key
    is stripped from the subject's entry — so the stanza emits no thick
    row, again without any malformed-row diagnostic. -/
theorem C2_amended (st s p : String) (hp : p ≠ "") :
    (p ≠ "owl:annotatedSource" → p ≠ "rdf:subject" →
      stanzaThickRows [⟨some st, some s, some p, none, none, none, none⟩] =
        some [[("predicate", .str p), ("subject", .str s), ("value", .str "")]]) ∧
    ((p = "owl:annotatedSource" ∨ p = "rdf:subject") →
      stanzaThickRows [⟨some st, some s, some p, none, none, none, none⟩] =
        some []) := by
  constructor
  · intro hp1 hp2
    have hobj : row2object_map ⟨some st, some s, some p, none, none, none, none⟩ =
        .obj [("value", .str "")] := by
      simp [row2object_map, get_cell_contents, mapInsert]
    simp only [stanzaThickRows, thin_rows_to_subjects, thin_rows_to_subjects_core,
      List.foldl, setInsert, subjRowStep, get_cell_contents, hobj]
    have hsv : strLt "subject" "value" = true := by decide
    have hps : strLt "predicate" "subject" = true := by decide
    simp [mapGet, mapInsert, hp, wtdRun, annotate_reify, annotate_reify_step, predsOf,
      mapKeys, mapContains, Ne.symm hp1, Ne.symm hp2, subjects_to_thick_rows,
      rustStartsWith, sortObjs, sInsert, hsv, hps]
  · rintro (rfl | rfl)
    · exact c2_trigger_annotation st s
    · exact c2_trigger_reification st s

/-- Claim C2 witness. -/
theorem C2_amended_witness :
    stanzaThickRows [⟨some "ex:A", some "ex:A", some "ex:p", none, none, none, none⟩] =
      some [[("predicate", .str "ex:p"), ("subject", .str "ex:A"),
        ("value", .str "")]] ∧
    stanzaThickRows [⟨some "ex:A", some "ex:A", some "owl:annotatedSource",
      none, none, none, none⟩] = some [] :=
  ⟨(C2_amended "ex:A" "ex:A" "ex:p" (by decide)).1 (by decide) (by decide),
   (C2_amended "ex:A" "ex:A" "owl:annotatedSource" (by decide)).2 (Or.inl rfl)⟩

/-! Helper lemmas about map and set membership, and monotonicity of the
    overlay-collapse steps. -/

theorem mapContains_mapInsert_self (m : SMap) (k : String) (v : SerdeValue) :
    mapContains (mapInsert m k v) k = true := by
  induction m with
  | nil => simp [mapInsert, mapContains]
  | cons hd tl ih =>
      simp only [mapInsert]
      by_cases h1 : k = hd.1
      · simp [h1, mapContains]
      · by_cases h2 : strLt k hd.1 = true
        · simp [h1, h2, mapContains]
        · simp only [h1, h2, if_false, if_neg]
          simp [mapContains, h1, ih]

theorem mapContains_mapInsert_of (m : SMap) (k j : String) (v : SerdeValue)
    (h : mapContains m j = true) : mapContains (mapInsert m k v) j = true := by
  induction m with
  | nil => simp [mapContains] at h
  | cons hd tl ih =>
      simp only [mapInsert]
      simp only [mapContains] at h
      by_cases h1 : k = hd.1
      · subst h1
        by_cases hj : j = hd.1
        · simp [mapContains, hj]
        · simp only [hj, if_false] at h
          simp [mapContains, hj, h]
      · by_cases h2 : strLt k hd.1 = true
        · by_cases hjk : j = k
          · simp [h1, h2, mapContains, hjk]
          · by_cases hj : j = hd.1
            · simp [h1, h2, mapContains, hjk, hj]
            · simp only [hj, if_false] at h
              simp [h1, h2, mapContains, hjk, hj, h]
        · by_cases hj : j = hd.1
          · simp [h1, h2, mapContains, hj]
          · simp only [hj, if_false] at h
            simp [h1, h2, mapContains, hj, ih h]

theorem mapContains_mapRemove_ne (m : SMap) (k j : String) (hne : j ≠ k)
    (h : mapContains m j = true) : mapContains (mapRemove m k) j = true := by
  induction m with
  | nil => simp [mapContains] at h
  | cons hd tl ih =>
      simp only [mapContains] at h
      simp only [mapRemove]
      by_cases hk : k = hd.1
      · subst hk
        simp only [if_pos rfl]
        have hj : ¬ j = hd.1 := fun hh => hne (by rw [hh])
        simpa [hj] using h
      · simp only [hk, if_false]
        by_cases hj : j = hd.1
        · simp [mapContains, hj]
        · simp only [hj, if_false] at h
          simp [mapContains, hj, ih h]

theorem setContains_setInsert_elim (s : List String) (x j : String)
    (h : setContains (setInsert s x) j = true) : setContains s j = true ∨ j = x := by
  induction s with
  | nil =>
      simp only [setInsert, setContains] at h
      by_cases hj : j = x
      · exact Or.inr hj
      · simp [hj] at h
  | cons hd tl ih =>
      simp only [setInsert] at h
      by_cases h1 : x = hd
      · simp only [h1, if_pos rfl] at h
        exact Or.inl (h1 ▸ h)
      · by_cases h2 : strLt x hd = true
        · simp only [h1, h2, if_false, if_true] at h
          simp only [setContains] at h
          by_cases hj : j = x
          · exact Or.inr hj
          · simp only [hj, if_false] at h
            exact Or.inl h
        · simp only [h1, h2, if_false] at h
          simp only [setContains] at h ⊢
          by_cases hj : j = hd
          · simp [hj]
          · simp only [hj, if_false] at h ⊢
            exact ih h

theorem compress_strip_contains (sid t1 t2 t3 : String) (cs : SMap) (j : String)
    (h : mapContains cs j = true) :
    mapContains (compress_strip sid t1 t2 t3 cs) j = true := by
  unfold compress_strip
  split
  · exact mapContains_mapInsert_of _ _ _ _ h
  · exact h

theorem compress_ensure_subject_contains (s : String) (ap : SMap) (cs : SMap) (j : String)
    (h : mapContains cs j = true) :
    mapContains (compress_ensure_subject s ap cs) j = true := by
  unfold compress_ensure_subject
  split
  · exact mapContains_mapInsert_of _ _ _ _ h
  · exact h

theorem compress_ensure_predicate_contains (s p : String) (ap : SMap) (cs : SMap) (j : String)
    (h : mapContains cs j = true) :
    mapContains (compress_ensure_predicate s p ap cs) j = true := by
  unfold compress_ensure_predicate
  split
  · split
    · exact mapContains_mapInsert_of _ _ _ _ h
    · exact h
  · exact h

theorem compress_writeback_contains (s p : String) (oc : List SerdeValue) (cs : SMap)
    (j : String) (h : mapContains cs j = true) :
    mapContains (compress_writeback s p oc cs) j = true := by
  unfold compress_writeback
  split
  · split
    · exact mapContains_mapInsert_of _ _ _ _ h
    · exact h
  · exact h

theorem compress_contains (kind sid : String) (subjects cs : SMap) (rem : List String)
    (preds : SMap) (t1 t2 t3 : String) (j : String) (h : mapContains cs j = true) :
    mapContains (compress kind sid subjects cs rem preds t1 t2 t3).1 j = true := by
  have h1 := compress_strip_contains sid t1 t2 t3 cs j h
  have h2 := compress_ensure_subject_contains
    (trimQuotes (svToString (first_object preds t1)))
    (predsOf subjects (trimQuotes (svToString (first_object preds t1)))) _ j h1
  have h3 := compress_ensure_predicate_contains
    (trimQuotes (svToString (first_object preds t1)))
    (trimQuotes (svToString (first_object preds t2)))
    (predsOf subjects (trimQuotes (svToString (first_object preds t1)))) _ j h2
  simp only [compress]
  split
  · exact compress_writeback_contains _ _ _ _ j h3
  · exact h3

theorem compress_objStep_remove (kind sid obj : String) (cs : SMap)
    (acc : List SerdeValue × List String) (o : SerdeValue) (j : String)
    (h : setContains (compress_objStep kind sid obj cs acc o).2 j = true) :
    setContains acc.2 j = true ∨ j = sid := by
  unfold compress_objStep at h
  rcases acc with ⟨oc, rem⟩
  dsimp only at h
  split at h
  · split at h
    · split at h
      · exact setContains_setInsert_elim _ _ _ h
      · exact Or.inl h
    · exact Or.inl h
  · exact Or.inl h

theorem compress_fold_remove (kind sid obj : String) (cs : SMap)
    (objs : List SerdeValue) (acc : List SerdeValue × List String) (j : String)
    (h : setContains (objs.foldl (compress_objStep kind sid obj cs) acc).2 j = true) :
    setContains acc.2 j = true ∨ j = sid := by
  induction objs generalizing acc with
  | nil => exact Or.inl h
  | cons o rest ih =>
      simp only [List.foldl] at h
      rcases ih _ h with h2 | h2
      · exact compress_objStep_remove kind sid obj cs acc o j h2
      · exact Or.inr h2

theorem compress_remove (kind sid : String) (subjects cs : SMap) (rem : List String)
    (preds : SMap) (t1 t2 t3 : String) (j : String)
    (h : setContains (compress kind sid subjects cs rem preds t1 t2 t3).2 j = true) :
    setContains rem j = true ∨ j = sid := by
  simp only [compress] at h
  split at h
  · exact compress_fold_remove _ _ _ _ _ _ j h
  · exact Or.inl h

theorem mapContains_of_mapGet (m : SMap) (k : String) (v : SerdeValue)
    (h : mapGet m k = some v) : mapContains m k = true := by
  induction m with
  | nil => simp [mapGet] at h
  | cons hd tl ih =>
      simp only [mapGet] at h
      simp only [mapContains]
      by_cases hk : k = hd.1
      · simp [hk]
      · simp only [hk, if_false] at h ⊢
        exact ih h

theorem mem_mapKeys_of_mapGet (m : SMap) (k : String) (v : SerdeValue)
    (h : mapGet m k = some v) : k ∈ mapKeys m := by
  induction m with
  | nil => simp [mapGet] at h
  | cons hd tl ih =>
      simp only [mapGet] at h
      simp only [mapKeys, List.map_cons]
      by_cases hk : k = hd.1
      · simp [hk]
      · simp only [hk, if_false] at h
        exact List.mem_cons_of_mem _ (ih h)

theorem setContains_of_mem (s : List String) (x : String) (h : x ∈ s) :
    setContains s x = true := by
  induction s with
  | nil => simp at h
  | cons hd tl ih =>
      simp only [setContains]
      by_cases hx : x = hd
      · simp [hx]
      · simp only [hx, if_false]
        exact ih (by rcases List.mem_cons.mp h with h1 | h1; exact absurd h1 hx; exact h1)

theorem fold_mapRemove_contains (rl : List String) (cs : SMap) (a : String)
    (hne : ∀ k ∈ rl, k ≠ a) (h : mapContains cs a = true) :
    mapContains (rl.foldl mapRemove cs) a = true := by
  induction rl generalizing cs with
  | nil => exact h
  | cons hd tl ih =>
      simp only [List.foldl]
      refine ih _ (fun k hk => hne k (List.mem_cons_of_mem _ hk)) ?_
      exact mapContains_mapRemove_ne _ _ _
        (fun hh => hne hd (List.mem_cons_self _ _) hh.symm) h

theorem annotate_reify_step_contains (subjects : SMap) (acc : SMap × List String)
    (sid a : String) (h : mapContains acc.1 a = true) :
    mapContains (annotate_reify_step subjects acc sid).1 a = true := by
  rcases acc with ⟨cs, rem⟩
  simp only [annotate_reify_step]
  repeat' split
  all_goals solve_by_elim [compress_contains, mapContains_mapInsert_of]

theorem annotate_reify_step_contains_self (subjects : SMap) (acc : SMap × List String)
    (sid : String) : mapContains (annotate_reify_step subjects acc sid).1 sid = true := by
  rcases acc with ⟨cs, rem⟩
  by_cases hn : (mapGet cs sid).isNone = true
  · simp only [annotate_reify_step, hn, if_true]
    repeat' split
    all_goals solve_by_elim [compress_contains, mapContains_mapInsert_self]
  · have hn' : (mapGet cs sid).isNone = false := Bool.eq_false_iff.mpr hn
    have hc : mapContains cs sid = true := by
      cases hg : mapGet cs sid with
      | none => rw [hg] at hn'; simp at hn'
      | some v => exact mapContains_of_mapGet _ _ _ hg
    simp only [annotate_reify_step, hn', Bool.false_eq_true, if_false]
    repeat' split
    all_goals solve_by_elim [compress_contains]

theorem annotate_reify_step_remove (subjects : SMap) (acc : SMap × List String)
    (sid j : String)
    (h : setContains (annotate_reify_step subjects acc sid).2 j = true) :
    setContains acc.2 j = true ∨
      (j = sid ∧ (mapContains (predsOf subjects sid) "owl:annotatedSource" = true ∨
                  mapContains (predsOf subjects sid) "rdf:subject" = true)) := by
  rcases acc with ⟨cs, rem⟩
  by_cases h1 : mapContains (predsOf subjects sid) "owl:annotatedSource" = true
  · by_cases h2 : mapContains (predsOf subjects sid) "rdf:subject" = true
    · simp only [annotate_reify_step, h1, h2, if_true] at h
      rcases compress_remove _ _ _ _ _ _ _ _ _ j h with h3 | h3
      · rcases compress_remove _ _ _ _ _ _ _ _ _ j h3 with h4 | h4
        · exact Or.inl h4
        · exact Or.inr ⟨h4, Or.inl h1⟩
      · exact Or.inr ⟨h3, Or.inl h1⟩
    · have h2' : mapContains (predsOf subjects sid) "rdf:subject" = false :=
        Bool.eq_false_iff.mpr h2
      simp only [annotate_reify_step, h1, h2', if_true, Bool.false_eq_true, if_false] at h
      rcases compress_remove _ _ _ _ _ _ _ _ _ j h with h3 | h3
      · exact Or.inl h3
      · exact Or.inr ⟨h3, Or.inl h1⟩
  · have h1' : mapContains (predsOf subjects sid) "owl:annotatedSource" = false :=
      Bool.eq_false_iff.mpr h1
    by_cases h2 : mapContains (predsOf subjects sid) "rdf:subject" = true
    · simp only [annotate_reify_step, h1', h2, Bool.false_eq_true, if_false, if_true] at h
      rcases compress_remove _ _ _ _ _ _ _ _ _ j h with h3 | h3
      · exact Or.inl h3
      · exact Or.inr ⟨h3, Or.inr h2⟩
    · have h2' : mapContains (predsOf subjects sid) "rdf:subject" = false :=
        Bool.eq_false_iff.mpr h2
      simp only [annotate_reify_step, h1', h2', Bool.false_eq_true, if_false] at h
      exact Or.inl h

theorem annotate_reify_fold_contains (subjects : SMap) (ks : List String)
    (acc : SMap × List String) (a : String)
    (h : a ∈ ks ∨ mapContains acc.1 a = true) :
    mapContains (ks.foldl (annotate_reify_step subjects) acc).1 a = true := by
  induction ks generalizing acc with
  | nil =>
      rcases h with h | h
      · simp at h
      · exact h
  | cons hd tl ih =>
      simp only [List.foldl]
      rcases h with h | h
      · rcases List.mem_cons.mp h with rfl | h2
        · exact ih _ (Or.inr (annotate_reify_step_contains_self subjects acc a))
        · exact ih _ (Or.inl h2)
      · exact ih _ (Or.inr (annotate_reify_step_contains subjects acc hd a h))

theorem annotate_reify_fold_remove (subjects : SMap) (ks : List String)
    (acc : SMap × List String) (j : String)
    (h : setContains (ks.foldl (annotate_reify_step subjects) acc).2 j = true) :
    setContains acc.2 j = true ∨
      (mapContains (predsOf subjects j) "owl:annotatedSource" = true ∨
       mapContains (predsOf subjects j) "rdf:subject" = true) := by
  induction ks generalizing acc with
  | nil => exact Or.inl h
  | cons hd tl ih =>
      simp only [List.foldl] at h
      rcases ih _ h with h2 | h2
      · rcases annotate_reify_step_remove subjects acc hd j h2 with h3 | ⟨rfl, h3⟩
        · exact Or.inl h3
        · exact Or.inr h3
      · exact Or.inr h2

/-- Claim C9 amended. -/
theorem C9_amended (m : SMap) (a : String) (preds : SMap)
    (hga : mapGet m a = some (.obj preds))
    (h1 : mapContains preds "owl:annotatedSource" = false)
    (h2 : mapContains preds "rdf:subject" = false) :
    mapContains (annotate_reify m) a = true := by
  simp only [annotate_reify]
  have hcontains := annotate_reify_fold_contains m (mapKeys m) ([], []) a
    (Or.inl (mem_mapKeys_of_mapGet _ _ _ hga))
  refine fold_mapRemove_contains _ _ _ ?_ hcontains
  intro k hk hka
  subst hka
  have hs := setContains_of_mem _ _ hk
  rcases annotate_reify_fold_remove m (mapKeys m) ([], []) k hs with hempty | htrig
  · simp [setContains] at hempty
  · have hpreds : predsOf m k = preds := by simp [predsOf, hga]
    rw [hpreds] at htrig
    rcases htrig with ht | ht
    · rw [h1] at ht
      exact absurd ht (by simp)
    · rw [h2] at ht
      exact absurd ht (by simp)

/-- Claim C9 counterexample. -/
theorem C9_counterexample :
    (thin_rows_to_subjects c9rows).map (fun m => mapContains m "_:a") = some true ∧
    (thin_rows_to_subjects c9rows).map
        (fun m => (svGet (.obj m) "_:a").map (fun preds => svGet preds "rdf:type")) =
      some (some none) ∧
    (thin_rows_to_subjects c9rows).map (fun m => mapContains (annotate_reify m) "_:a") =
      some false := by
  refine ⟨by decide, by decide, by decide⟩

/-- Claim C9 witness. -/
theorem C9_amended_witness :
    mapContains (annotate_reify
      [("ex:B", .obj [("ex:p", .arr [.obj [("value", .str "x")]])])]) "ex:B" = true :=
  C9_amended _ "ex:B" [("ex:p", .arr [.obj [("value", .str "x")]])]
    (by decide) (by decide) (by decide)

theorem mapGet_mapInsert_self (m : SMap) (k : String) (v : SerdeValue) :
    mapGet (mapInsert m k v) k = some v := by
  induction m with
  | nil => simp [mapInsert, mapGet]
  | cons hd tl ih =>
      simp only [mapInsert]
      by_cases h1 : k = hd.1
      · simp [mapGet, h1]
      · by_cases h2 : strLt k hd.1 = true
        · simp [h1, h2, mapGet]
        · simp [h1, h2, mapGet, ih]

theorem mapGet_mapInsert_ne (m : SMap) (k j : String) (v : SerdeValue) (hne : j ≠ k) :
    mapGet (mapInsert m k v) j = mapGet m j := by
  induction m with
  | nil => simp [mapInsert, mapGet, hne]
  | cons hd tl ih =>
      simp only [mapInsert]
      by_cases h1 : k = hd.1
      · subst h1
        simp [mapGet, hne]
      · by_cases h2 : strLt k hd.1 = true
        · simp [h1, h2, mapGet, hne]
        · by_cases hj : j = hd.1
          · simp [h1, h2, mapGet, hj]
          · simp [h1, h2, mapGet, hj, ih]

/-- A step for a subject with neither overlay-trigger key is just the
    ensure-entry insertion. -/
theorem annotate_reify_step_notrigger (subjects : SMap) (acc : SMap × List String)
    (sid : String)
    (h1 : mapContains (predsOf subjects sid) "owl:annotatedSource" = false)
    (h2 : mapContains (predsOf subjects sid) "rdf:subject" = false) :
    annotate_reify_step subjects acc sid =
      (if (mapGet acc.1 sid).isNone then
        mapInsert acc.1 sid (.obj (predsOf subjects sid))
      else acc.1, acc.2) := by
  rcases acc with ⟨cs, rem⟩
  simp only [annotate_reify_step, h1, h2, Bool.false_eq_true, if_false]

/-- Folding trigger-free subjects preserves an existing entry and the
    remove set. -/
theorem fold_notrigger_keep (subjects : SMap) (a : String) (v : SerdeValue) :
    ∀ (ks : List String) (acc : SMap × List String),
    (∀ b ∈ ks, mapContains (predsOf subjects b) "owl:annotatedSource" = false ∧
               mapContains (predsOf subjects b) "rdf:subject" = false) →
    mapGet acc.1 a = some v →
    mapGet (ks.foldl (annotate_reify_step subjects) acc).1 a = some v ∧
    (ks.foldl (annotate_reify_step subjects) acc).2 = acc.2
  | [], acc, _, hget => ⟨hget, rfl⟩
  | b :: ks, acc, htrig, hget => by
      simp only [List.foldl]
      have hb := htrig b (List.mem_cons_self _ _)
      rw [annotate_reify_step_notrigger subjects acc b hb.1 hb.2]
      refine fold_notrigger_keep subjects a v ks _
        (fun c hc => htrig c (List.mem_cons_of_mem _ hc)) ?_
      by_cases hn : (mapGet acc.1 b).isNone = true
      · simp only [hn, if_true]
        by_cases hab : a = b
        · subst hab
          rw [hget] at hn
          simp at hn
        · rw [mapGet_mapInsert_ne _ _ _ _ hab]
          exact hget
      · have hn' : (mapGet acc.1 b).isNone = false := Bool.eq_false_iff.mpr hn
        simp only [hn', Bool.false_eq_true, if_false]
        exact hget

/-- Folding trigger-free subjects starting from a state whose entries all
    agree with predsOf keeps that shape, keeps a absent (when a is not in
    the list), and keeps the remove set. -/
theorem fold_notrigger_shape (subjects : SMap) (a : String) :
    ∀ (ks : List String) (acc : SMap × List String),
    (∀ b ∈ ks, mapContains (predsOf subjects b) "owl:annotatedSource" = false ∧
               mapContains (predsOf subjects b) "rdf:subject" = false) →
    a ∉ ks →
    mapGet acc.1 a = none →
    (∀ S, mapGet acc.1 S = none ∨ mapGet acc.1 S = some (.obj (predsOf subjects S))) →
    mapGet (ks.foldl (annotate_reify_step subjects) acc).1 a = none ∧
    (∀ S, mapGet (ks.foldl (annotate_reify_step subjects) acc).1 S = none ∨
      mapGet (ks.foldl (annotate_reify_step subjects) acc).1 S =
        some (.obj (predsOf subjects S))) ∧
    (ks.foldl (annotate_reify_step subjects) acc).2 = acc.2
  | [], acc, _, _, hnone, hshape => ⟨hnone, hshape, rfl⟩
  | b :: ks, acc, htrig, hmem, hnone, hshape => by
      simp only [List.foldl]
      have hb := htrig b (List.mem_cons_self _ _)
      rw [annotate_reify_step_notrigger subjects acc b hb.1 hb.2]
      have hba : b ≠ a := fun hh => hmem (hh ▸ List.mem_cons_self _ _)
      have step1 :
          mapGet (if (mapGet acc.1 b).isNone then
            mapInsert acc.1 b (.obj (predsOf subjects b)) else acc.1) a = none := by
        by_cases hn : (mapGet acc.1 b).isNone = true
        · simp only [hn, if_true]
          rw [mapGet_mapInsert_ne _ _ _ _ (fun hh => hba hh.symm)]
          exact hnone
        · have hn' : (mapGet acc.1 b).isNone = false := Bool.eq_false_iff.mpr hn
          simp only [hn', Bool.false_eq_true, if_false]
          exact hnone
      have step2 : ∀ S,
          mapGet (if (mapGet acc.1 b).isNone then
            mapInsert acc.1 b (.obj (predsOf subjects b)) else acc.1) S = none ∨
          mapGet (if (mapGet acc.1 b).isNone then
            mapInsert acc.1 b (.obj (predsOf subjects b)) else acc.1) S =
            some (.obj (predsOf subjects S)) := by
        intro S
        by_cases hn : (mapGet acc.1 b).isNone = true
        · simp only [hn, if_true]
          by_cases hSb : S = b
          · subst hSb
            exact Or.inr (mapGet_mapInsert_self _ _ _)
          · rw [mapGet_mapInsert_ne _ _ _ _ hSb]
            exact hshape S
        · have hn' : (mapGet acc.1 b).isNone = false := Bool.eq_false_iff.mpr hn
          simp only [hn', Bool.false_eq_true, if_false]
          exact hshape S
      exact fold_notrigger_shape subjects a ks _
        (fun c hc => htrig c (List.mem_cons_of_mem _ hc))
        (fun hc => hmem (List.mem_cons_of_mem _ hc)) step1 step2

theorem compress_fold_nomatch (kind sid obj : String) (cs : SMap) :
    ∀ (objs : List SerdeValue) (l : List SerdeValue) (r : List String),
    (∀ o ∈ objs, ¬(oObjOf o = obj ∨ oValOf o = obj)) →
    objs.foldl (compress_objStep kind sid obj cs) (l, r) = (l ++ objs, r)
  | [], l, r, _ => by simp
  | o :: objs, l, r, hnm => by
      simp only [List.foldl]
      have ho := hnm o (List.mem_cons_self _ _)
      have hstep : compress_objStep kind sid obj cs (l, r) o = (l ++ [o], r) := by
        simp only [compress_objStep, if_neg ho]
      rw [hstep]
      rw [compress_fold_nomatch kind sid obj cs objs (l ++ [o]) r
        (fun o2 ho2 => hnm o2 (List.mem_cons_of_mem _ ho2))]
      simp

theorem compress_orphan (kind a : String) (subjects cs preds : SMap) (rem : List String)
    (t1 t2 t3 : String)
    (hga : mapGet cs a = some (.obj preds))
    (hshape : ∀ S, S ≠ a →
      mapGet cs S = none ∨ mapGet cs S = some (.obj (predsOf subjects S)))
    (hSa : overlayKey preds t1 ≠ a)
    (hnm : overlayMatches subjects (overlayKey preds t1) (overlayKey preds t2)
      (overlayKey preds t3) = false) :
    mapGet (compress kind a subjects cs rem preds t1 t2 t3).1 a =
      some (.obj (erase4 preds t1 t2 t3)) ∧
    (compress kind a subjects cs rem preds t1 t2 t3).2 = rem := by
  have hstrip : compress_strip a t1 t2 t3 cs =
      mapInsert cs a (.obj (erase4 preds t1 t2 t3)) := by
    simp only [compress_strip, hga]
  have hga1 : mapGet (compress_strip a t1 t2 t3 cs) a =
      some (.obj (erase4 preds t1 t2 t3)) := by
    rw [hstrip]; exact mapGet_mapInsert_self _ _ _
  have hS1 : mapGet (compress_strip a t1 t2 t3 cs) (overlayKey preds t1) =
      mapGet cs (overlayKey preds t1) := by
    rw [hstrip]; exact mapGet_mapInsert_ne _ _ _ _ hSa
  -- the state after compress_ensure_subject
  set S := overlayKey preds t1 with hSdef
  set P := overlayKey preds t2 with hPdef
  set cs1 := compress_strip a t1 t2 t3 cs with hcs1
  have hens : mapGet (compress_ensure_subject S (predsOf subjects S) cs1) a =
        some (.obj (erase4 preds t1 t2 t3)) ∧
      mapGet (compress_ensure_subject S (predsOf subjects S) cs1) S =
        some (.obj (predsOf subjects S)) := by
    unfold compress_ensure_subject
    by_cases hn : (mapGet cs1 S).isNone = true
    · simp only [hn, if_true]
      exact ⟨by rw [mapGet_mapInsert_ne _ _ _ _ (fun hh => hSa hh.symm)]; exact hga1,
        mapGet_mapInsert_self _ _ _⟩
    · have hn' : (mapGet cs1 S).isNone = false := Bool.eq_false_iff.mpr hn
      simp only [hn', Bool.false_eq_true, if_false]
      refine ⟨hga1, ?_⟩
      rcases hshape S hSa with hc | hc
      · rw [hS1] at hn'
        rw [hc] at hn'
        simp at hn'
      · rw [hS1, hc]
  set cs2 := compress_ensure_subject S (predsOf subjects S) cs1 with hcs2
  -- the state after compress_ensure_predicate
  have hensp :
      (mapGet (compress_ensure_predicate S P (predsOf subjects S) cs2) a =
        some (.obj (erase4 preds t1 t2 t3))) ∧
      ((mapGet (compress_ensure_predicate S P (predsOf subjects S) cs2) S).bind
          (fun p => svGet p P) =
        some (SerdeValue.obj []) ∨
       (mapGet (compress_ensure_predicate S P (predsOf subjects S) cs2) S).bind
          (fun p => svGet p P) =
        mapGet (predsOf subjects S) P) := by
    unfold compress_ensure_predicate
    rw [hens.2]
    by_cases hp : (mapGet (predsOf subjects S) P).isNone = true
    · simp only [hp, if_true]
      constructor
      · rw [mapGet_mapInsert_ne _ _ _ _ (fun hh => hSa hh.symm)]
        exact hens.1
      · left
        rw [mapGet_mapInsert_self]
        simp only [Option.bind, svGet]
        rw [mapGet_mapInsert_self]
        have : mapGet (predsOf subjects S) P = none := by
          cases hg : mapGet (predsOf subjects S) P
          · rfl
          · rw [hg] at hp; simp at hp
        simp [this]
    · have hp' : (mapGet (predsOf subjects S) P).isNone = false := Bool.eq_false_iff.mpr hp
      simp only [hp', Bool.false_eq_true, if_false]
      refine ⟨hens.1, Or.inr ?_⟩
      rw [hens.2]
      simp [svGet]
  set cs3 := compress_ensure_predicate S P (predsOf subjects S) cs2 with hcs3
  -- now the final match of compress
  show mapGet (compress kind a subjects cs rem preds t1 t2 t3).1 a = _ ∧ _
  have hunfold : compress kind a subjects cs rem preds t1 t2 t3 =
      (match (mapGet cs3 S).bind (fun p => svGet p P) with
       | some (.arr objs) =>
           let z := objs.foldl (compress_objStep kind a (overlayKey preds t3) cs3) ([], rem)
           (compress_writeback S P z.1 cs3, z.2)
       | _ => (cs3, rem)) := by
    simp only [compress]
  rw [hunfold]
  rcases hensp.2 with hcase | hcase
  · rw [hcase]
    exact ⟨hensp.1, rfl⟩
  · rw [hcase]
    cases hg : mapGet (predsOf subjects S) P with
    | none => exact ⟨hensp.1, rfl⟩
    | some v =>
        cases v with
        | str s => exact ⟨hensp.1, rfl⟩
        | obj o => exact ⟨hensp.1, rfl⟩
        | arr objs =>
            dsimp only
            have hnomatch : ∀ o ∈ objs, ¬(oObjOf o = overlayKey preds t3 ∨
                oValOf o = overlayKey preds t3) := by
              intro o ho
              unfold overlayMatches at hnm
              have hms : (mapGet subjects S).bind (fun p => svGet p P) =
                  some (.arr objs) := by
                unfold predsOf at hg
                cases hgs : mapGet subjects S with
                | none => rw [hgs] at hg; simp [mapGet] at hg
                | some w =>
                    cases w with
                    | obj m2 =>
                        rw [hgs] at hg
                        simp only [hgs, Option.bind, svGet]
                        exact hg
                    | str s2 => rw [hgs] at hg; simp [mapGet] at hg
                    | arr l2 => rw [hgs] at hg; simp [mapGet] at hg
              rw [hms] at hnm
              simp only [List.any_eq_false] at hnm
              intro hcond
              have := hnm o ho
              simp [hcond] at this
            rw [compress_fold_nomatch kind a (overlayKey preds t3) cs3 objs [] rem hnomatch]
            constructor
            · unfold compress_writeback
              simp only [List.nil_append]
              cases hgS : mapGet cs3 S with
              | none => exact hensp.1
              | some w =>
                  cases w with
                  | obj m2 =>
                      dsimp only
                      cases hgP : mapGet m2 P with
                      | none => exact hensp.1
                      | some u =>
                          cases u with
                          | arr l2 =>
                              dsimp only
                              rw [mapGet_mapInsert_ne _ _ _ _ (fun hh => hSa hh.symm)]
                              exact hensp.1
                          | str s2 => exact hensp.1
                          | obj o2 => exact hensp.1
                  | str s2 => exact hensp.1
                  | arr l2 => exact hensp.1
            · rfl

/-- Claim C3 amended. -/
theorem C3_amended (m : SMap) (a : String) (preds : SMap)
    (hnodup : (mapKeys m).Nodup)
    (hga : mapGet m a = some (.obj preds))
    (htrig : mapContains preds "owl:annotatedSource" = true)
    (hmeta : mapContains preds "rdf:subject" = false)
    (hothers : ∀ b, b ≠ a →
      mapContains (predsOf m b) "owl:annotatedSource" = false ∧
      mapContains (predsOf m b) "rdf:subject" = false)
    (hSa : overlayKey preds "owl:annotatedSource" ≠ a)
    (hnm : overlayMatches m (overlayKey preds "owl:annotatedSource")
      (overlayKey preds "owl:annotatedProperty")
      (overlayKey preds "owl:annotatedTarget") = false) :
    mapGet (annotate_reify m) a =
      some (.obj (erase4 preds "owl:annotatedSource" "owl:annotatedProperty"
        "owl:annotatedTarget")) := by
  obtain ⟨ks1, ks2, hsplit⟩ := List.append_of_mem (mem_mapKeys_of_mapGet _ _ _ hga)
  have hnodup' : (ks1 ++ a :: ks2).Nodup := hsplit ▸ hnodup
  have ha1 : a ∉ ks1 := by
    intro hmem
    exact (List.nodup_append.mp hnodup').2.2 hmem (List.mem_cons_self _ _)
  have ha2 : a ∉ ks2 :=
    (List.nodup_cons.mp (List.nodup_append.mp hnodup').2.1).1
  have hpred : predsOf m a = preds := by simp [predsOf, hga]
  simp only [annotate_reify, hsplit, List.foldl_append, List.foldl_cons]
  cases hfold : ks1.foldl (annotate_reify_step m) ([], []) with
  | mk cs1 rem1 =>
      have hph1 := fold_notrigger_shape m a ks1 ([], [])
        (fun b hb => hothers b (fun hh => ha1 (hh ▸ hb))) ha1 (by simp [mapGet])
        (fun S => Or.inl (by simp [mapGet]))
      rw [hfold] at hph1
      have hnone1 : mapGet cs1 a = none := hph1.1
      have hshape1 := hph1.2.1
      have hrem1 : rem1 = [] := hph1.2.2
      subst hrem1
      have hstep : annotate_reify_step m (cs1, ([] : List String)) a =
          compress "annotations" a m (mapInsert cs1 a (.obj preds)) [] preds
            "owl:annotatedSource" "owl:annotatedProperty" "owl:annotatedTarget" := by
        simp only [annotate_reify_step, hpred, htrig, hmeta, hnone1, Option.isNone,
          if_true, Bool.false_eq_true, if_false]
      rw [hstep]
      have horphan := compress_orphan "annotations" a m (mapInsert cs1 a (.obj preds))
        preds [] "owl:annotatedSource" "owl:annotatedProperty" "owl:annotatedTarget"
        (mapGet_mapInsert_self _ _ _)
        (fun S hS => by
          rw [mapGet_mapInsert_ne _ _ _ _ hS]
          exact hshape1 S)
        hSa hnm
      have hph3 := fold_notrigger_keep m a
        (.obj (erase4 preds "owl:annotatedSource" "owl:annotatedProperty"
          "owl:annotatedTarget")) ks2
        (compress "annotations" a m (mapInsert cs1 a (.obj preds)) [] preds
          "owl:annotatedSource" "owl:annotatedProperty" "owl:annotatedTarget")
        (fun b hb => hothers b (fun hh => ha2 (hh ▸ hb)))
        horphan.1
      rw [hph3.2, horphan.2]
      simp only [List.foldl]
      exact hph3.1

/-- Claim C3 counterexample. -/
theorem C3_counterexample :
    (thin_rows_to_subjects c3rows).map (fun m => mapContains (annotate_reify m) "_:a") =
      some true ∧
    (thin_rows_to_subjects c3rows).map (fun m =>
        (svGet (.obj m) "_:a").map (fun p => (svGet p "owl:annotatedSource").isSome)) =
      some (some true) ∧
    (thin_rows_to_subjects c3rows).map (fun m =>
        (svGet (.obj (annotate_reify m)) "_:a").map
          (fun p => svGet p "owl:annotatedSource")) =
      some (some none) := by
  refine ⟨by decide, by decide, by decide⟩

/-- Claim C3 witness. -/
theorem C3_amended_witness :
    mapGet (annotate_reify c3m) "_:a" =
      some (.obj (erase4 c3preds "owl:annotatedSource" "owl:annotatedProperty"
        "owl:annotatedTarget")) := by
  refine C3_amended c3m "_:a" c3preds (by decide) (by decide) (by decide) (by decide)
    ?_ (by decide) (by decide)
  intro b hb
  have hget : mapGet c3m b = none := by
    simp [c3m, mapGet, hb]
  constructor <;> simp [predsOf, hget, mapContains]

theorem chVal_inj {a b : Char} (h : chVal a = chVal b) : a = b := by
  apply Char.ext
  unfold chVal at h
  exact UInt32.ext h

theorem chLt_trans : ∀ a b c, chLt a b = true → chLt b c = true → chLt a c = true
  | [], [], _, h, _ => by simp [chLt] at h
  | [], _ :: _, [], _, h => by simp [chLt] at h
  | [], _ :: _, _ :: _, _, _ => rfl
  | _ :: _, [], _, h, _ => by simp [chLt] at h
  | _ :: _, _ :: _, [], _, h => by simp [chLt] at h
  | a :: as, b :: bs, c :: cs, h1, h2 => by
      simp only [chLt] at h1 h2 ⊢
      by_cases hab : chVal a < chVal b
      · by_cases hbc : chVal b < chVal c
        · simp [Nat.lt_trans hab hbc]
        · simp only [hbc, if_false] at h2
          by_cases hcb : chVal c < chVal b
          · simp [hcb] at h2
          · have : chVal b = chVal c :=
              Nat.le_antisymm (Nat.not_lt.mp hcb) (Nat.not_lt.mp hbc)
            simp [this ▸ hab]
      · simp only [hab, if_false] at h1
        by_cases hba : chVal b < chVal a
        · simp [hba] at h1
        · have hab' : chVal a = chVal b :=
            Nat.le_antisymm (Nat.not_lt.mp hba) (Nat.not_lt.mp hab)
          by_cases hbc : chVal b < chVal c
          · simp [hab' ▸ hbc]
          · simp only [hbc, if_false] at h2
            by_cases hcb : chVal c < chVal b
            · simp [hcb] at h2
            · simp only [hcb, if_false] at h2
              simp only [hab', lt_self_iff_false, if_false] at h1
              simp only [hab', hbc, hcb, if_false]
              exact chLt_trans as bs cs h1 h2

theorem chLt_conn : ∀ a b, chLt a b = false → chLt b a = false → a = b
  | [], [], _, _ => rfl
  | [], _ :: _, h, _ => by simp [chLt] at h
  | _ :: _, [], _, h => by simp [chLt] at h
  | a :: as, b :: bs, h1, h2 => by
      simp only [chLt] at h1 h2
      by_cases hab : chVal a < chVal b
      · simp [hab] at h1
      · by_cases hba : chVal b < chVal a
        · simp [hba] at h2
        · have hab' : chVal a = chVal b :=
            Nat.le_antisymm (Nat.not_lt.mp hba) (Nat.not_lt.mp hab)
          simp only [hab, hba, if_false] at h1 h2
          have := chLt_conn as bs h1 h2
          rw [chVal_inj hab', this]

theorem strLt_trans (a b c : String) (h1 : strLt a b = true) (h2 : strLt b c = true) :
    strLt a c = true := chLt_trans _ _ _ h1 h2

theorem strLt_conn (a b : String) (h1 : strLt a b = false) (h2 : strLt b a = false) :
    a = b := by
  have := chLt_conn a.data b.data h1 h2
  cases a
  cases b
  exact congrArg String.mk this

theorem mem_groupsAppend_key (gs : List (String × List ThinRow)) (k : String)
    (rows : List ThinRow) (g : String × List ThinRow)
    (h : g ∈ groupsAppend gs k rows) : g.1 = k ∨ g.1 ∈ gs.map (fun x => x.1) := by
  induction gs with
  | nil =>
      simp [groupsAppend] at h
      simp [h]
  | cons hd tl ih =>
      simp only [groupsAppend] at h
      by_cases h1 : k = hd.1
      · rw [if_pos h1] at h
        rcases List.mem_cons.mp h with rfl | h2
        · simp
        · simp only [List.map_cons]
          exact Or.inr (List.mem_cons_of_mem _ (List.mem_map_of_mem _ h2))
      · rw [if_neg h1] at h
        by_cases h2 : strLt k hd.1 = true
        · rw [if_pos h2] at h
          rcases List.mem_cons.mp h with rfl | h3
          · exact Or.inl rfl
          · simp only [List.map_cons]
            rcases List.mem_cons.mp h3 with rfl | h4
            · exact Or.inr (List.mem_cons_self _ _)
            · exact Or.inr (List.mem_cons_of_mem _ (List.mem_map_of_mem _ h4))
        · rw [if_neg h2] at h
          rcases List.mem_cons.mp h with rfl | h3
          · simp
          · rcases ih h3 with h4 | h4
            · exact Or.inl h4
            · simp only [List.map_cons]
              exact Or.inr (List.mem_cons_of_mem _ h4)

theorem groupsAppend_pairwise (gs : List (String × List ThinRow)) (k : String)
    (rows : List ThinRow)
    (h : gs.Pairwise (fun g1 g2 => strLt g1.1 g2.1 = true)) :
    (groupsAppend gs k rows).Pairwise (fun g1 g2 => strLt g1.1 g2.1 = true) := by
  induction gs with
  | nil => simp [groupsAppend]
  | cons hd tl ih =>
      rcases List.pairwise_cons.mp h with ⟨hrel, htl⟩
      simp only [groupsAppend]
      by_cases h1 : k = hd.1
      · simp only [h1, if_pos rfl]
        exact List.pairwise_cons.mpr ⟨hrel, htl⟩
      · by_cases h2 : strLt k hd.1 = true
        · simp only [h1, h2, if_false, if_true]
          refine List.pairwise_cons.mpr ⟨?_, List.pairwise_cons.mpr ⟨hrel, htl⟩⟩
          intro g hg
          rcases List.mem_cons.mp hg with rfl | h3
          · exact h2
          · exact strLt_trans _ _ _ h2 (hrel g h3)
        · simp only [h1, h2, if_false]
          refine List.pairwise_cons.mpr ⟨?_, ih htl⟩
          intro g hg
          rcases mem_groupsAppend_key tl k rows g hg with h3 | h3
          · rw [h3]
            cases h4 : strLt hd.1 k
            · have h2' : strLt k hd.1 = false := Bool.eq_false_iff.mpr h2
              exact absurd (strLt_conn _ _ h2' h4) h1
            · rfl
          · rcases List.mem_map.mp h3 with ⟨g2, hg2, hkey⟩
            have := hrel g2 hg2
            rw [hkey] at this
            exact this

theorem processTriple_groups_pairwise (prefixes : List PrefixDef) (st : IntakeState)
    (t : RioTriple)
    (h : st.groups.Pairwise (fun g1 g2 => strLt g1.1 g2.1 = true)) :
    (processTriple prefixes st t).groups.Pairwise
      (fun g1 g2 => strLt g1.1 g2.1 = true) := by
  unfold processTriple
  split
  · exact groupsAppend_pairwise _ _ _ h
  · exact h

theorem processStream_fold_pairwise (prefixes : List PrefixDef) :
    ∀ (ts : List RioTriple) (st : IntakeState),
    st.groups.Pairwise (fun g1 g2 => strLt g1.1 g2.1 = true) →
    ((ts.foldl (processTriple prefixes) st).groups.Pairwise
      (fun g1 g2 => strLt g1.1 g2.1 = true))
  | [], _, h => h
  | t :: ts, st, h => by
      simp only [List.foldl]
      exact processStream_fold_pairwise prefixes ts _
        (processTriple_groups_pairwise prefixes st t h)

/-- Claim C6 amended. -/
theorem C6_amended (prefixes : List PrefixDef) (triples : List RioTriple) :
    (processStream prefixes triples).Pairwise
      (fun g1 g2 => strLt g1.1 g2.1 = true) :=
  processStream_fold_pairwise prefixes triples ⟨[], "", []⟩ (List.Pairwise.nil)

/-- Claim C6 counterexample: the stanza rooted at http://z/A arrives
    first in the stream, but the batch emits the http://a/B stanza first
    because thin_rows_by_stanza is a BTreeMap iterated in key order. -/
theorem C6_counterexample :
    c6stream.head? = some ⟨.named "http://z/A", "http://p/p", .simpleLit "v1"⟩ ∧
    (ingestStream [] c6stream).map (fun rows => rows.map (fun r => mapGet r "subject")) =
      some [some (.str "<http://a/B>"), some (.str "<http://z/A>")] ∧
    strLt "<http://a/B>" "<http://z/A>" = true := by
  refine ⟨rfl, by decide, by decide⟩

theorem groupsAppend_groupsAppend (gs : List (String × List ThinRow)) (s : String)
    (r1 r2 : List ThinRow) :
    groupsAppend (groupsAppend gs s r1) s r2 = groupsAppend gs s (r1 ++ r2) := by
  induction gs with
  | nil => simp [groupsAppend]
  | cons hd tl ih =>
      simp only [groupsAppend]
      by_cases h1 : s = hd.1
      · rw [if_pos h1, if_pos h1]
        simp only [groupsAppend]
        rw [if_pos h1]
        simp
      · rw [if_neg h1]
        by_cases h2 : strLt s hd.1 = true
        · rw [if_pos h2]
          simp only [groupsAppend, eq_self_iff_true, if_true]
          rw [if_neg h1, if_pos h2]
        · rw [if_neg h2]
          simp only [groupsAppend]
          rw [if_neg h1, if_neg h2, if_neg h1, if_neg h2, ih]

theorem groupsGet_groupsAppend_none (gs : List (String × List ThinRow)) (s : String)
    (rows : List ThinRow) (h : groupsGet gs s = none) :
    groupsGet (groupsAppend gs s rows) s = some rows := by
  induction gs with
  | nil => simp [groupsAppend, groupsGet]
  | cons hd tl ih =>
      simp only [groupsGet] at h
      by_cases h1 : s = hd.1
      · rw [if_pos h1] at h
        exact absurd h (by simp)
      · rw [if_neg h1] at h
        simp only [groupsAppend]
        rw [if_neg h1]
        by_cases h2 : strLt s hd.1 = true
        · rw [if_pos h2]
          simp [groupsGet]
        · rw [if_neg h2]
          simp only [groupsGet]
          rw [if_neg h1]
          exact ih h

/-- Claim C10. -/
theorem C10_same_stanza_merge (gs : List (String × List ThinRow)) (s : String)
    (r1 r2 : List ThinRow) :
    groupsAppend (groupsAppend gs s r1) s r2 = groupsAppend gs s (r1 ++ r2) ∧
    (groupsGet gs s = none →
      groupsGet (groupsAppend (groupsAppend gs s r1) s r2) s = some (r1 ++ r2)) := by
  refine ⟨groupsAppend_groupsAppend gs s r1 r2, fun h => ?_⟩
  rw [groupsAppend_groupsAppend gs s r1 r2]
  exact groupsGet_groupsAppend_none gs s (r1 ++ r2) h

/-- Claim C10 witness. -/
theorem C10_same_stanza_merge_witness :
    groupsAppend (groupsAppend [] "ex:S"
        [⟨some "ex:S", some "ex:S", some "ex:p", none, some "a", none, none⟩]) "ex:S"
        [⟨some "ex:S", some "_:b", some "ex:q", none, some "c", none, none⟩] =
      groupsAppend [] "ex:S"
        ([⟨some "ex:S", some "ex:S", some "ex:p", none, some "a", none, none⟩] ++
         [⟨some "ex:S", some "_:b", some "ex:q", none, some "c", none, none⟩]) ∧
    groupsGet (groupsAppend (groupsAppend [] "ex:S"
        [⟨some "ex:S", some "ex:S", some "ex:p", none, some "a", none, none⟩]) "ex:S"
        [⟨some "ex:S", some "_:b", some "ex:q", none, some "c", none, none⟩]) "ex:S" =
      some ([⟨some "ex:S", some "ex:S", some "ex:p", none, some "a", none, none⟩] ++
        [⟨some "ex:S", some "_:b", some "ex:q", none, some "c", none, none⟩]) := by
  have h := C10_same_stanza_merge []
    "ex:S" [⟨some "ex:S", some "ex:S", some "ex:p", none, some "a", none, none⟩]
    [⟨some "ex:S", some "_:b", some "ex:q", none, some "c", none, none⟩]
  exact ⟨h.1, h.2 (by decide)⟩

/-- Claim C1: the round-trip fails.  The two documents above are
    distinct (a literal triple versus an IRI triple), contain no blank
    nodes, and ingest to different thick rows (a value cell versus an
    object cell) -- yet thicks2triples re-expands both to the SAME
    single IRI triple, because create_node / deprefix rewrites the literal
    "ex:O" into <http://example.com/O>.  Since re-expansion identifies
    two distinct blank-node-free inputs, it cannot return the parsed
    triple multiset up to blank renaming for both. -/
theorem C1_roundtrip_bug :
    (ingestStream c1prefixes c1docLit).map
        (fun rows => rows.map (fun r => (mapGet r "value", mapGet r "object"))) =
      some [(some (.str "ex:O"), none)] ∧
    (ingestStream c1prefixes c1docIri).map
        (fun rows => rows.map (fun r => (mapGet r "value", mapGet r "object"))) =
      some [(none, some (.str "ex:O"))] ∧
    (ingestStream c1prefixes c1docLit).map (thicks2triples 10 c1prefixes) =
      some [.obj [("object", .str "<http://example.com/O>"),
        ("predicate", .str "<http://example.com/P>"),
        ("subject", .str "<http://example.com/S>")]] ∧
    (ingestStream c1prefixes c1docLit).map (thicks2triples 10 c1prefixes) =
      (ingestStream c1prefixes c1docIri).map (thicks2triples 10 c1prefixes) := by
  refine ⟨by decide, by decide, by decide, by decide⟩

theorem mem_mapInsert (m : SMap) (k : String) (v : SerdeValue)
    (kv : String × SerdeValue) (h : kv ∈ mapInsert m k v) : kv = (k, v) ∨ kv ∈ m := by
  induction m with
  | nil => simpa [mapInsert] using h
  | cons hd tl ih =>
      simp only [mapInsert] at h
      by_cases h1 : k = hd.1
      · rw [if_pos h1] at h
        rcases List.mem_cons.mp h with rfl | h2
        · exact Or.inl rfl
        · exact Or.inr (List.mem_cons_of_mem _ h2)
      · rw [if_neg h1] at h
        by_cases h2 : strLt k hd.1 = true
        · rw [if_pos h2] at h
          rcases List.mem_cons.mp h with rfl | h3
          · exact Or.inl rfl
          · exact Or.inr h3
        · rw [if_neg h2] at h
          rcases List.mem_cons.mp h with rfl | h3
          · exact Or.inr (List.mem_cons_self _ _)
          · rcases ih h3 with h4 | h4
            · exact Or.inl h4
            · exact Or.inr (List.mem_cons_of_mem _ h4)

theorem mem_mapRemove (m : SMap) (k : String) (kv : String × SerdeValue)
    (h : kv ∈ mapRemove m k) : kv ∈ m := by
  induction m with
  | nil => simpa [mapRemove] using h
  | cons hd tl ih =>
      simp only [mapRemove] at h
      by_cases h1 : k = hd.1
      · rw [if_pos h1] at h
        exact List.mem_cons_of_mem _ h
      · rw [if_neg h1] at h
        rcases List.mem_cons.mp h with rfl | h2
        · exact List.mem_cons_self _ _
        · exact List.mem_cons_of_mem _ (ih h2)

theorem mem_sortObjs (l : List SerdeValue) (o : SerdeValue) (h : o ∈ sortObjs l) :
    o ∈ l := (sortObjs_perm l).mem_iff.mp h

theorem mem_of_mapGet (m : SMap) (k : String) (v : SerdeValue)
    (h : mapGet m k = some v) : (k, v) ∈ m := by
  induction m with
  | nil => simp [mapGet] at h
  | cons hd tl ih =>
      simp only [mapGet] at h
      by_cases h1 : k = hd.1
      · rw [if_pos h1] at h
        have : hd = (k, v) := by
          rcases hd with ⟨a, b⟩
          have hb : b = v := Option.some.inj h
          have ha : a = k := by simpa using h1.symm
          rw [ha, hb]
        rw [← this]
        exact List.mem_cons_self _ _
      · rw [if_neg h1] at h
        exact List.mem_cons_of_mem _ (ih h)

theorem PredInvP_mapInsert (pm : SMap) (p : String) (v : SerdeValue)
    (hpm : PredInvP pm)
    (hv : ∀ l, v = SerdeValue.arr l → ∀ o ∈ l, objOk o = true) :
    PredInvP (mapInsert pm p v) := by
  intro kv hkv l hl o ho
  rcases mem_mapInsert pm p v kv hkv with rfl | h2
  · exact hv l hl o ho
  · exact hpm kv h2 l hl o ho

theorem PredInvP_mapRemove (pm : SMap) (p : String) (hpm : PredInvP pm) :
    PredInvP (mapRemove pm p) :=
  fun kv hkv l hl o ho => hpm kv (mem_mapRemove pm p kv hkv) l hl o ho

theorem SubjInvP_mapInsert (m : SMap) (s : String) (v : SerdeValue)
    (hm : SubjInvP m) (hv : ∀ pm, v = SerdeValue.obj pm → PredInvP pm) :
    SubjInvP (mapInsert m s v) := by
  intro kv hkv pm hpm
  rcases mem_mapInsert m s v kv hkv with rfl | h2
  · exact hv pm hpm
  · exact hm kv h2 pm hpm

theorem SubjInvP_mapRemove (m : SMap) (s : String) (hm : SubjInvP m) :
    SubjInvP (mapRemove m s) :=
  fun kv hkv pm hpm => hm kv (mem_mapRemove m s kv hkv) pm hpm

theorem PredInvP_predsOf (m : SMap) (s : String) (hm : SubjInvP m) :
    PredInvP (predsOf m s) := by
  unfold predsOf
  cases hg : mapGet m s with
  | none => intro kv hkv; simp at hkv
  | some v =>
      cases v with
      | obj pm => exact hm (s, .obj pm) (mem_of_mapGet m s _ hg) pm rfl
      | str _ => intro kv hkv; simp at hkv
      | arr _ => intro kv hkv; simp at hkv

theorem PredInvP_of_mapGet_arr (pm : SMap) (p : String) (l : List SerdeValue)
    (hpm : PredInvP pm) (hg : mapGet pm p = some (.arr l)) :
    ∀ o ∈ l, objOk o = true :=
  hpm (p, .arr l) (mem_of_mapGet pm p _ hg) l rfl

theorem objOk_row2object_map (row : ThinRow) : objOk (row2object_map row) = true := by
  have h1 : strLt "datatype" "value" = true := by decide
  have h2 : strLt "language" "value" = true := by decide
  unfold row2object_map
  by_cases ho : get_cell_contents row.object = ""
  · simp only [ho, ne_eq, not_true_eq_false, if_false]
    by_cases hd : get_cell_contents row.datatype = ""
    · by_cases hl : get_cell_contents row.language = ""
      · simp [hd, hl, mapInsert, objOk, objOkM, mapGet]
      · simp [hd, hl, mapInsert, objOk, objOkM, mapGet, h2]
    · simp [hd, mapInsert, objOk, objOkM, mapGet, h1]
  · simp [ho, mapInsert, objOk, objOkM, mapGet]

theorem subjRowStep_predinv (sid : String) (acc : SMap × DepMap) (row : ThinRow)
    (h : PredInvP acc.1) : PredInvP (subjRowStep sid acc row).1 := by
  rcases acc with ⟨predicates, deps⟩
  unfold subjRowStep
  by_cases hs : get_cell_contents row.subject ≠ sid
  · rw [if_pos hs]
    exact h
  · rw [if_neg hs]
    dsimp only at h ⊢
    cases hg : mapGet predicates (get_cell_contents row.predicate) with
    | some v =>
        cases v with
        | arr l =>
            dsimp only
            refine PredInvP_mapInsert _ _ _ h ?_
            intro l2 hl2 o ho
            have hl2' : l2 = sortObjs (l ++ [row2object_map row]) :=
              (SerdeValue.arr.inj hl2).symm
            subst hl2'
            rcases List.mem_append.mp (mem_sortObjs _ _ ho) with h3 | h3
            · exact PredInvP_of_mapGet_arr _ _ _ h hg o h3
            · rw [List.mem_singleton.mp h3]
              exact objOk_row2object_map row
        | str s => exact h
        | obj m => exact h
    | none =>
        by_cases hp : get_cell_contents row.predicate ≠ ""
        · rw [if_pos hp]
          refine PredInvP_mapInsert _ _ _ h ?_
          intro l2 hl2 o ho
          have hl2' : l2 = sortObjs [row2object_map row] :=
            (SerdeValue.arr.inj hl2).symm
          subst hl2'
          rw [List.mem_singleton.mp (mem_sortObjs _ _ ho)]
          exact objOk_row2object_map row
        · rw [if_neg hp]
          exact h

theorem rows_fold_predinv (sid : String) :
    ∀ (rows : List ThinRow) (acc : SMap × DepMap), PredInvP acc.1 →
    PredInvP ((rows.foldl (subjRowStep sid) acc).1)
  | [], _, h => h
  | row :: rows, acc, h => by
      simp only [List.foldl]
      exact rows_fold_predinv sid rows _ (subjRowStep_predinv sid acc row h)

theorem core_subjinv (rows : List ThinRow) :
    SubjInvP (thin_rows_to_subjects_core rows).1 := by
  unfold thin_rows_to_subjects_core
  generalize (rows.foldl (fun s row => setInsert s (get_cell_contents row.subject))
    ([] : List String)) = sids
  have hgen : ∀ (ks : List String) (acc : SMap × DepMap), SubjInvP acc.1 →
      SubjInvP ((ks.foldl (fun (acc : SMap × DepMap) subject_id =>
        let (subjects, dependencies) := acc
        let (predicates, dependencies) :=
          rows.foldl (subjRowStep subject_id) ([], dependencies)
        (mapInsert subjects subject_id (.obj predicates), dependencies)) acc).1) := by
    intro ks
    induction ks with
    | nil => intro acc h; exact h
    | cons sid ks ih =>
        intro acc h
        simp only [List.foldl]
        rcases acc with ⟨subjects, deps⟩
        refine ih _ ?_
        dsimp only
        refine SubjInvP_mapInsert _ _ _ h ?_
        intro pm hpm
        have := rows_fold_predinv sid rows ([], deps) (by intro kv hkv; simp at hkv)
        rw [SerdeValue.obj.inj hpm] at this
        exact this
  exact hgen sids ([], []) (by intro kv hkv; simp at hkv)

theorem allOk_append (l : List SerdeValue) (x : SerdeValue)
    (hl : ∀ o ∈ l, objOk o = true) (hx : objOk x = true) :
    ∀ o ∈ l ++ [x], objOk o = true := by
  intro o ho
  rcases List.mem_append.mp ho with h | h
  · exact hl o h
  · rw [List.mem_singleton.mp h]
    exact hx

theorem wtdObjStep_objok (leaves : List String) (subjects : SMap) (sid : String)
    (acc : List SerdeValue × DepMap × List String) (obj : SerdeValue)
    (hacc : ∀ o ∈ acc.1, objOk o = true) (hobj : objOk obj = true) :
    ∀ o ∈ (wtdObjStep leaves subjects sid acc obj).1, objOk o = true := by
  rcases acc with ⟨objects, deps, handled⟩
  have hnest : ∀ val : SerdeValue,
      objOk (.obj (mapInsert [] "object" val)) = true := by
    intro val
    simp [mapInsert, mapGet, objOk, objOkM]
  unfold wtdObjStep
  dsimp only at hacc ⊢
  repeat' split
  all_goals first
    | exact allOk_append _ _ hacc hobj
    | exact allOk_append _ _ hacc (hnest _)

theorem wtdObjFold_objok (leaves : List String) (subjects : SMap) (sid : String) :
    ∀ (objs : List SerdeValue) (acc : List SerdeValue × DepMap × List String),
    (∀ o ∈ objs, objOk o = true) → (∀ o ∈ acc.1, objOk o = true) →
    ∀ o ∈ (objs.foldl (wtdObjStep leaves subjects sid) acc).1, objOk o = true
  | [], _, _, hacc => hacc
  | obj :: objs, acc, hobjs, hacc => by
      simp only [List.foldl]
      exact wtdObjFold_objok leaves subjects sid objs _
        (fun o ho => hobjs o (List.mem_cons_of_mem _ ho))
        (wtdObjStep_objok leaves subjects sid acc obj hacc
          (hobjs obj (List.mem_cons_self _ _)))

theorem wtdPredStep_inv (leaves : List String) (sid : String)
    (acc : SMap × SMap × DepMap × List String) (p : String)
    (hpred : PredInvP acc.1) (hsubj : SubjInvP acc.2.1) :
    PredInvP (wtdPredStep leaves sid acc p).1 ∧
    SubjInvP (wtdPredStep leaves sid acc p).2.1 := by
  rcases acc with ⟨predicates, subjects, deps, handled⟩
  unfold wtdPredStep
  dsimp only at hpred hsubj ⊢
  have hobjs : ∀ o ∈ (match mapGet predicates p with
      | some (.arr v) => v
      | _ => ([] : List SerdeValue)), objOk o = true := by
    cases hg : mapGet predicates p with
    | none => intro o ho; simp at ho
    | some v =>
        cases v with
        | arr l => exact PredInvP_of_mapGet_arr _ _ _ hpred hg
        | str s => intro o ho; simp at ho
        | obj m => intro o ho; simp at ho
  have hfold := wtdObjFold_objok leaves subjects sid _ ([], deps, handled) hobjs
    (by intro o ho; simp at ho)
  have hsorted : ∀ o ∈ sortObjs ((match mapGet predicates p with
      | some (.arr v) => v
      | _ => ([] : List SerdeValue)).foldl
        (wtdObjStep leaves subjects sid) ([], deps, handled)).1, objOk o = true :=
    fun o ho => hfold o (mem_sortObjs _ _ ho)
  refine ⟨?_, ?_⟩
  · refine PredInvP_mapInsert _ _ _ hpred ?_
    intro l hl o ho
    rw [← SerdeValue.arr.inj hl] at ho
    exact hsorted o ho
  · refine SubjInvP_mapInsert _ _ _ hsubj ?_
    intro pm hpm
    rw [← SerdeValue.obj.inj hpm]
    refine PredInvP_mapInsert _ _ _ hpred ?_
    intro l hl o ho
    rw [← SerdeValue.arr.inj hl] at ho
    exact hsorted o ho

theorem wtdPredFold_inv (leaves : List String) (sid : String) :
    ∀ (ps : List String) (acc : SMap × SMap × DepMap × List String),
    PredInvP acc.1 → SubjInvP acc.2.1 →
    SubjInvP ((ps.foldl (wtdPredStep leaves sid) acc).2.1)
  | [], _, _, hsubj => hsubj
  | p :: ps, acc, hpred, hsubj => by
      simp only [List.foldl]
      have := wtdPredStep_inv leaves sid acc p hpred hsubj
      exact wtdPredFold_inv leaves sid ps _ this.1 this.2

theorem wtdSubjStep_inv (leaves : List String) (acc : SMap × DepMap × List String)
    (sid : String) (h : SubjInvP acc.1) : SubjInvP (wtdSubjStep leaves acc sid).1 := by
  rcases acc with ⟨subjects, deps, handled⟩
  unfold wtdSubjStep
  dsimp only at h ⊢
  have hpred : PredInvP (match mapGet subjects sid with
      | some (.obj m) => m
      | _ => ([] : SMap)) := by
    cases hg : mapGet subjects sid with
    | none => intro kv hkv; simp at hkv
    | some v =>
        cases v with
        | obj pm => exact h (sid, .obj pm) (mem_of_mapGet _ _ _ hg) pm rfl
        | str s => intro kv hkv; simp at hkv
        | arr l => intro kv hkv; simp at hkv
  exact wtdPredFold_inv leaves sid _ _ hpred h

theorem wtdSubjFold_inv (leaves : List String) :
    ∀ (ks : List String) (acc : SMap × DepMap × List String), SubjInvP acc.1 →
    SubjInvP ((ks.foldl (wtdSubjStep leaves) acc).1)
  | [], _, h => h
  | k :: ks, acc, h => by
      simp only [List.foldl]
      exact wtdSubjFold_inv leaves ks _ (wtdSubjStep_inv leaves acc k h)

theorem fold_mapRemove_subjinv :
    ∀ (rl : List String) (m : SMap), SubjInvP m → SubjInvP (rl.foldl mapRemove m)
  | [], _, h => h
  | k :: rl, m, h => by
      simp only [List.foldl]
      exact fold_mapRemove_subjinv rl _ (SubjInvP_mapRemove m k h)

theorem wtdPass_subjinv (st : WtdState) (h : SubjInvP st.subjects) :
    SubjInvP (wtdPass st).subjects := by
  unfold wtdPass
  dsimp only
  cases hf : (mapKeys st.subjects).foldl
      (wtdSubjStep ((mapKeys st.subjects).filter
        (fun k => !(depKeys st.dependencies).contains k))) (st.subjects, [], []) with
  | mk subjects' rest =>
      have := wtdSubjFold_inv ((mapKeys st.subjects).filter
        (fun k => !(depKeys st.dependencies).contains k))
        (mapKeys st.subjects) (st.subjects, [], []) h
      rw [hf] at this
      rcases rest with ⟨deps', handled'⟩
      exact fold_mapRemove_subjinv handled' subjects' this

theorem wtdRun_subjinv :
    ∀ (fuel : Nat) (st : WtdState) (m : SMap), SubjInvP st.subjects →
    wtdRun fuel st = some m → SubjInvP m
  | 0, st, m, h, hr => by
      unfold wtdRun at hr
      split at hr
      · rw [← Option.some.inj hr]
        exact h
      · simp at hr
  | fuel + 1, st, m, h, hr => by
      unfold wtdRun at hr
      split at hr
      · rw [← Option.some.inj hr]
        exact h
      · exact wtdRun_subjinv fuel _ m (wtdPass_subjinv st h) hr

theorem thin_rows_to_subjects_subjinv (rows : List ThinRow) (m : SMap)
    (h : thin_rows_to_subjects rows = some m) : SubjInvP m := by
  unfold thin_rows_to_subjects at h
  exact wtdRun_subjinv _ _ m (core_subjinv rows) h

theorem objOkM_mapInsert_other (m : SMap) (k : String) (v : SerdeValue)
    (hk1 : k ≠ "object") (hk2 : k ≠ "value") (hk3 : k ≠ "datatype") (hk4 : k ≠ "language")
    (h : objOkM m = true) : objOkM (mapInsert m k v) = true := by
  unfold objOkM at h ⊢
  rw [mapGet_mapInsert_ne _ _ _ _ (Ne.symm hk1), mapGet_mapInsert_ne _ _ _ _ (Ne.symm hk2),
    mapGet_mapInsert_ne _ _ _ _ (Ne.symm hk3), mapGet_mapInsert_ne _ _ _ _ (Ne.symm hk4)]
  exact h

theorem objOkM_set_object (m : SMap) (v : SerdeValue)
    (h : objOkM m = true) (hobj : (mapGet m "object").isSome = true) :
    objOkM (mapInsert m "object" v) = true := by
  unfold objOkM at h ⊢
  rw [mapGet_mapInsert_self, mapGet_mapInsert_ne _ _ _ _ (by decide : ("value":String) ≠ "object"),
    mapGet_mapInsert_ne _ _ _ _ (by decide : ("datatype":String) ≠ "object"),
    mapGet_mapInsert_ne _ _ _ _ (by decide : ("language":String) ≠ "object")]
  rw [hobj] at h
  exact h

theorem compress_strip_subjinv (sid t1 t2 t3 : String) (cs : SMap) (h : SubjInvP cs) :
    SubjInvP (compress_strip sid t1 t2 t3 cs) := by
  unfold compress_strip
  cases hg : mapGet cs sid with
  | none => exact h
  | some v =>
      cases v with
      | obj m =>
          refine SubjInvP_mapInsert _ _ _ h ?_
          intro pm hpm
          rw [← SerdeValue.obj.inj hpm]
          have hm : PredInvP m := h (sid, .obj m) (mem_of_mapGet _ _ _ hg) m rfl
          unfold erase4
          exact PredInvP_mapRemove _ _ (PredInvP_mapRemove _ _
            (PredInvP_mapRemove _ _ (PredInvP_mapRemove _ _ hm)))
      | str s => exact h
      | arr l => exact h

theorem compress_ensure_subject_subjinv (s : String) (ap : SMap) (cs : SMap)
    (h : SubjInvP cs) (hap : PredInvP ap) :
    SubjInvP (compress_ensure_subject s ap cs) := by
  unfold compress_ensure_subject
  split
  · refine SubjInvP_mapInsert _ _ _ h ?_
    intro pm hpm
    rw [← SerdeValue.obj.inj hpm]
    exact hap
  · exact h

theorem compress_ensure_predicate_subjinv (s p : String) (ap : SMap) (cs : SMap)
    (h : SubjInvP cs) : SubjInvP (compress_ensure_predicate s p ap cs) := by
  unfold compress_ensure_predicate
  cases hg : mapGet cs s with
  | none => exact h
  | some v =>
      cases v with
      | obj m =>
          dsimp only
          split
          · refine SubjInvP_mapInsert _ _ _ h ?_
            intro pm hpm
            rw [← SerdeValue.obj.inj hpm]
            have hm : PredInvP m := h (s, .obj m) (mem_of_mapGet _ _ _ hg) m rfl
            refine PredInvP_mapInsert _ _ _ hm ?_
            intro l hl
            split at hl <;> simp at hl
          · exact h
      | str s2 => exact h
      | arr l => exact h

theorem compress_objStep_objok (kind sid obj : String) (cs : SMap)
    (hk1 : kind ≠ "object") (hk2 : kind ≠ "value") (hk3 : kind ≠ "datatype")
    (hk4 : kind ≠ "language")
    (acc : List SerdeValue × List String) (o : SerdeValue)
    (hacc : ∀ x ∈ acc.1, objOk x = true) (ho : objOk o = true) :
    ∀ x ∈ (compress_objStep kind sid obj cs acc o).1, objOk x = true := by
  rcases acc with ⟨objs_copy, rem⟩
  unfold compress_objStep
  dsimp only at hacc ⊢
  have hmod : ∀ m ann, o = SerdeValue.obj m →
      objOk (SerdeValue.obj (mapInsert m kind (.obj ann))) = true := by
    intro m ann hm
    have : objOkM m = true := by
      rw [hm] at ho
      exact ho
    exact objOkM_mapInsert_other m kind _ hk1 hk2 hk3 hk4 this
  repeat' split
  all_goals first
    | exact allOk_append _ _ hacc ho
    | (rename_i hobj
       exact allOk_append _ _ hacc (hmod _ _ rfl))

theorem compress_objFold_objok (kind sid obj : String) (cs : SMap)
    (hk1 : kind ≠ "object") (hk2 : kind ≠ "value") (hk3 : kind ≠ "datatype")
    (hk4 : kind ≠ "language") :
    ∀ (objs : List SerdeValue) (acc : List SerdeValue × List String),
    (∀ x ∈ objs, objOk x = true) → (∀ x ∈ acc.1, objOk x = true) →
    ∀ x ∈ (objs.foldl (compress_objStep kind sid obj cs) acc).1, objOk x = true
  | [], _, _, hacc => hacc
  | o :: objs, acc, hobjs, hacc => by
      simp only [List.foldl]
      exact compress_objFold_objok kind sid obj cs hk1 hk2 hk3 hk4 objs _
        (fun x hx => hobjs x (List.mem_cons_of_mem _ hx))
        (compress_objStep_objok kind sid obj cs hk1 hk2 hk3 hk4 acc o hacc
          (hobjs o (List.mem_cons_self _ _)))

theorem compress_writeback_subjinv (s p : String) (oc : List SerdeValue) (cs : SMap)
    (h : SubjInvP cs) (hoc : ∀ x ∈ oc, objOk x = true) :
    SubjInvP (compress_writeback s p oc cs) := by
  unfold compress_writeback
  cases hg : mapGet cs s with
  | none => exact h
  | some v =>
      cases v with
      | obj m =>
          dsimp only
          cases hg2 : mapGet m p with
          | none => exact h
          | some u =>
              cases u with
              | arr l =>
                  dsimp only
                  refine SubjInvP_mapInsert _ _ _ h ?_
                  intro pm hpm
                  rw [← SerdeValue.obj.inj hpm]
                  have hm : PredInvP m := h (s, .obj m) (mem_of_mapGet _ _ _ hg) m rfl
                  refine PredInvP_mapInsert _ _ _ hm ?_
                  intro l2 hl2 o ho
                  rw [← SerdeValue.arr.inj hl2] at ho
                  exact hoc o ho
              | str s2 => exact h
              | obj m2 => exact h
      | str s2 => exact h
      | arr l => exact h

theorem compress_subjinv (kind sid : String) (subjects cs : SMap) (rem : List String)
    (preds : SMap) (t1 t2 t3 : String)
    (hk1 : kind ≠ "object") (hk2 : kind ≠ "value") (hk3 : kind ≠ "datatype")
    (hk4 : kind ≠ "language")
    (hsub : SubjInvP subjects) (hcs : SubjInvP cs) :
    SubjInvP (compress kind sid subjects cs rem preds t1 t2 t3).1 := by
  have h1 := compress_strip_subjinv sid t1 t2 t3 cs hcs
  have h2 := compress_ensure_subject_subjinv (overlayKey preds t1)
    (predsOf subjects (overlayKey preds t1)) _ h1
    (PredInvP_predsOf subjects _ hsub)
  have h3 := compress_ensure_predicate_subjinv (overlayKey preds t1)
    (overlayKey preds t2) (predsOf subjects (overlayKey preds t1)) _ h2
  simp only [compress]
  cases hb : (mapGet (compress_ensure_predicate (overlayKey preds t1)
      (overlayKey preds t2) (predsOf subjects (overlayKey preds t1))
      (compress_ensure_subject (overlayKey preds t1)
        (predsOf subjects (overlayKey preds t1))
        (compress_strip sid t1 t2 t3 cs))) (overlayKey preds t1)).bind
      (fun p => svGet p (overlayKey preds t2)) with
  | none => exact h3
  | some v =>
      cases v with
      | arr objs =>
          dsimp only
          have hobjs : ∀ x ∈ objs, objOk x = true := by
            cases hg : mapGet (compress_ensure_predicate (overlayKey preds t1)
                (overlayKey preds t2) (predsOf subjects (overlayKey preds t1))
                (compress_ensure_subject (overlayKey preds t1)
                  (predsOf subjects (overlayKey preds t1))
                  (compress_strip sid t1 t2 t3 cs))) (overlayKey preds t1) with
            | none => rw [hg] at hb; simp at hb
            | some p =>
                rw [hg] at hb
                simp only [Option.some_bind] at hb
                cases p with
                | obj pm =>
                    have hpm : PredInvP pm :=
                      h3 (overlayKey preds t1, .obj pm) (mem_of_mapGet _ _ _ hg) pm rfl
                    exact PredInvP_of_mapGet_arr pm _ objs hpm hb
                | str s2 => simp [svGet] at hb
                | arr l2 => simp [svGet] at hb
          exact compress_writeback_subjinv _ _ _ _ h3
            (compress_objFold_objok kind sid (overlayKey preds t3) _ hk1 hk2 hk3 hk4
              objs ([], rem) hobjs (by intro x hx; simp at hx))
      | str s2 => exact h3
      | obj m2 => exact h3

theorem annotate_reify_step_subjinv (subjects : SMap) (acc : SMap × List String)
    (sid : String) (hsub : SubjInvP subjects) (hcs : SubjInvP acc.1) :
    SubjInvP (annotate_reify_step subjects acc sid).1 := by
  rcases acc with ⟨cs, rem⟩
  simp only [annotate_reify_step]
  have hens : SubjInvP (if (mapGet cs sid).isNone = true then
      mapInsert cs sid (.obj (predsOf subjects sid)) else cs) := by
    split
    · refine SubjInvP_mapInsert _ _ _ hcs ?_
      intro pm hpm
      rw [← SerdeValue.obj.inj hpm]
      exact PredInvP_predsOf subjects sid hsub
    · exact hcs
  by_cases h1 : mapContains (predsOf subjects sid) "owl:annotatedSource" = true
  · by_cases h2 : mapContains (predsOf subjects sid) "rdf:subject" = true
    · simp only [h1, h2, if_true]
      exact compress_subjinv _ _ _ _ _ _ _ _ _ (by decide) (by decide) (by decide)
        (by decide) hsub
        (compress_subjinv _ _ _ _ _ _ _ _ _ (by decide) (by decide) (by decide)
          (by decide) hsub hens)
    · have h2' := Bool.eq_false_iff.mpr h2
      simp only [h1, h2', if_true, Bool.false_eq_true, if_false]
      exact compress_subjinv _ _ _ _ _ _ _ _ _ (by decide) (by decide) (by decide)
        (by decide) hsub hens
  · have h1' := Bool.eq_false_iff.mpr h1
    by_cases h2 : mapContains (predsOf subjects sid) "rdf:subject" = true
    · simp only [h1', h2, Bool.false_eq_true, if_false, if_true]
      exact compress_subjinv _ _ _ _ _ _ _ _ _ (by decide) (by decide) (by decide)
        (by decide) hsub hens
    · have h2' := Bool.eq_false_iff.mpr h2
      simp only [h1', h2', Bool.false_eq_true, if_false]
      exact hens

theorem annotate_reify_fold_subjinv (subjects : SMap) (hsub : SubjInvP subjects) :
    ∀ (ks : List String) (acc : SMap × List String), SubjInvP acc.1 →
    SubjInvP ((ks.foldl (annotate_reify_step subjects) acc).1)
  | [], _, h => h
  | k :: ks, acc, h => by
      simp only [List.foldl]
      exact annotate_reify_fold_subjinv subjects hsub ks _
        (annotate_reify_step_subjinv subjects acc k hsub h)

theorem annotate_reify_subjinv (m : SMap) (h : SubjInvP m) :
    SubjInvP (annotate_reify m) := by
  simp only [annotate_reify]
  exact fold_mapRemove_subjinv _ _
    (annotate_reify_fold_subjinv m h (mapKeys m) ([], []) (by intro kv hkv; simp at hkv))

theorem subjects_to_thick_rows_ok (m : SMap) (h : SubjInvP m) :
    ∀ r ∈ subjects_to_thick_rows m, objOkM r = true := by
  unfold subjects_to_thick_rows
  have hrow : ∀ (sid p : String) (obj : SerdeValue), objOk obj = true →
      objOkM (let result : SMap := match obj with
          | .obj em => em
          | _ => []
        let result := mapInsert result "subject" (.str sid)
        let result := mapInsert result "predicate" (.str p)
        match mapGet result "object" with
        | some (.str _) => result
        | some s => mapInsert result "object" (.str (svToString s))
        | none => result) = true := by
    intro sid p obj hobj
    cases obj with
    | str s => simp [objOk] at hobj
    | arr l => simp [objOk] at hobj
    | obj em =>
        dsimp only
        have h1 : objOkM (mapInsert (mapInsert em "subject" (.str sid))
            "predicate" (.str p)) = true := by
          refine objOkM_mapInsert_other _ _ _ (by decide) (by decide) (by decide)
            (by decide) ?_
          exact objOkM_mapInsert_other _ _ _ (by decide) (by decide) (by decide)
            (by decide) hobj
        cases hg : mapGet (mapInsert (mapInsert em "subject" (.str sid))
            "predicate" (.str p)) "object" with
        | none => exact h1
        | some s =>
            cases s with
            | str s2 => exact h1
            | arr l =>
                dsimp only
                refine objOkM_set_object _ _ h1 ?_
                rw [hg]
                rfl
            | obj m2 =>
                dsimp only
                refine objOkM_set_object _ _ h1 ?_
                rw [hg]
                rfl
  -- outer folds accumulate rows
  have hinner : ∀ (sid p : String) (objs : List SerdeValue) (rows : List SMap),
      (∀ o ∈ objs, objOk o = true) → (∀ r ∈ rows, objOkM r = true) →
      ∀ r ∈ objs.foldl (fun rows obj =>
        rows ++ [let result : SMap := match obj with
            | .obj em => em
            | _ => []
          let result := mapInsert result "subject" (.str sid)
          let result := mapInsert result "predicate" (.str p)
          match mapGet result "object" with
          | some (.str _) => result
          | some s => mapInsert result "object" (.str (svToString s))
          | none => result]) rows, objOkM r = true := by
    intro sid p objs
    induction objs with
    | nil => intro rows _ hrows; exact hrows
    | cons o objs ih =>
        intro rows hobjs hrows
        simp only [List.foldl]
        refine ih _ (fun x hx => hobjs x (List.mem_cons_of_mem _ hx)) ?_
        intro r hr
        rcases List.mem_append.mp hr with h2 | h2
        · exact hrows r h2
        · rw [List.mem_singleton.mp h2]
          exact hrow sid p o (hobjs o (List.mem_cons_self _ _))
  have hfold : ∀ {α : Type} (f : List SMap → α → List SMap),
      (∀ rows x, (∀ r ∈ rows, objOkM r = true) → ∀ r ∈ f rows x, objOkM r = true) →
      ∀ (xs : List α) (rows : List SMap), (∀ r ∈ rows, objOkM r = true) →
      ∀ r ∈ xs.foldl f rows, objOkM r = true := by
    intro α f hf xs
    induction xs with
    | nil => intro rows h2; exact h2
    | cons x xs ih =>
        intro rows h2
        simp only [List.foldl]
        exact ih _ (hf rows x h2)
  refine hfold _ ?_ (mapKeys m) [] (by intro r hr; simp at hr)
  intro rows sid hrows
  refine hfold _ ?_ _ rows hrows
  intro rows2 p hrows2
  refine hinner sid p _ rows2 ?_ hrows2
  intro o ho
  revert ho
  cases hg : mapGet m sid with
  | none => dsimp only; intro ho; rw [show mapGet ([] : SMap) p = none from rfl] at ho; simp at ho
  | some v =>
      cases v with
      | obj pm =>
          dsimp only
          have hpm : PredInvP pm := h (sid, .obj pm) (mem_of_mapGet _ _ _ hg) pm rfl
          cases hg2 : mapGet pm p with
          | none => intro ho; simp at ho
          | some u =>
              cases u with
              | arr l =>
                  intro ho
                  exact PredInvP_of_mapGet_arr pm p l hpm hg2 o ho
              | str s2 => intro ho; simp at ho
              | obj m2 => intro ho; simp at ho
      | str s2 => dsimp only; intro ho; rw [show mapGet ([] : SMap) p = none from rfl] at ho; simp at ho
      | arr l2 => dsimp only; intro ho; rw [show mapGet ([] : SMap) p = none from rfl] at ho; simp at ho

/-- Claim C7: column discipline of emitted thick rows. -/
theorem C7_thick_row_columns (thin_rows : List ThinRow) (rows : List SMap)
    (h : stanzaThickRows thin_rows = some rows) :
    ∀ r ∈ rows,
      ((mapGet r "object").isSome = true ↔ (mapGet r "value").isSome = false) ∧
      ¬((mapGet r "datatype").isSome = true ∧ (mapGet r "language").isSome = true) ∧
      (((mapGet r "datatype").isSome = true ∨ (mapGet r "language").isSome = true) →
        (mapGet r "value").isSome = true) := by
  unfold stanzaThickRows at h
  cases hts : thin_rows_to_subjects thin_rows with
  | none => rw [hts] at h; simp at h
  | some m =>
      rw [hts] at h
      simp only [Option.map] at h
      have hrows : rows = subjects_to_thick_rows (annotate_reify m) :=
        (Option.some.inj h).symm
      subst hrows
      intro r hr
      have hok := subjects_to_thick_rows_ok (annotate_reify m)
        (annotate_reify_subjinv m (thin_rows_to_subjects_subjinv thin_rows m hts)) r hr
      unfold objOkM at hok
      cases h1 : (mapGet r "object").isSome <;> cases h2 : (mapGet r "value").isSome <;>
        cases h3 : (mapGet r "datatype").isSome <;>
        cases h4 : (mapGet r "language").isSome <;>
        rw [h1, h2, h3, h4] at hok <;> simp_all

/-- Claim C7 witness. -/
theorem C7_witness :
    ((mapGet ([("language", .str "en"), ("predicate", .str "ex:p"),
        ("subject", .str "ex:A"), ("value", .str "v")] : SMap) "object").isSome = true ↔
      (mapGet ([("language", .str "en"), ("predicate", .str "ex:p"),
        ("subject", .str "ex:A"), ("value", .str "v")] : SMap) "value").isSome = false) ∧
    ¬((mapGet ([("language", .str "en"), ("predicate", .str "ex:p"),
        ("subject", .str "ex:A"), ("value", .str "v")] : SMap) "datatype").isSome = true ∧
      (mapGet ([("language", .str "en"), ("predicate", .str "ex:p"),
        ("subject", .str "ex:A"), ("value", .str "v")] : SMap) "language").isSome = true) ∧
    (((mapGet ([("language", .str "en"), ("predicate", .str "ex:p"),
        ("subject", .str "ex:A"), ("value", .str "v")] : SMap) "datatype").isSome = true ∨
      (mapGet ([("language", .str "en"), ("predicate", .str "ex:p"),
        ("subject", .str "ex:A"), ("value", .str "v")] : SMap) "language").isSome = true) →
      (mapGet ([("language", .str "en"), ("predicate", .str "ex:p"),
        ("subject", .str "ex:A"), ("value", .str "v")] : SMap) "value").isSome = true) :=
  C7_thick_row_columns
    [⟨some "ex:A", some "ex:A", some "ex:p", none, some "v", none, some "en"⟩]
    [[("language", .str "en"), ("predicate", .str "ex:p"),
      ("subject", .str "ex:A"), ("value", .str "v")]]
    (by decide)
    [("language", .str "en"), ("predicate", .str "ex:p"),
      ("subject", .str "ex:A"), ("value", .str "v")]
    (by decide)

theorem AllSorted_of_str_map (m : SMap)
    (h : ∀ kv ∈ m, ∃ s, kv.2 = SerdeValue.str s) : AllSorted (.obj m) := by
  refine AllSorted.obj m ?_
  intro kv hkv
  rcases h kv hkv with ⟨s, hs⟩
  rw [hs]
  exact AllSorted.str s

theorem allSorted_row2object_map (row : ThinRow) : AllSorted (row2object_map row) := by
  unfold row2object_map
  dsimp only
  split
  · refine AllSorted_of_str_map _ ?_
    intro kv hkv
    rcases mem_mapInsert _ _ _ _ hkv with rfl | h2
    · exact ⟨_, rfl⟩
    · simp at h2
  · split
    · refine AllSorted_of_str_map _ ?_
      intro kv hkv
      rcases mem_mapInsert _ _ _ _ hkv with rfl | h2
      · exact ⟨_, rfl⟩
      · rcases mem_mapInsert _ _ _ _ h2 with rfl | h3
        · exact ⟨_, rfl⟩
        · simp at h3
    · split
      · refine AllSorted_of_str_map _ ?_
        intro kv hkv
        rcases mem_mapInsert _ _ _ _ hkv with rfl | h2
        · exact ⟨_, rfl⟩
        · rcases mem_mapInsert _ _ _ _ h2 with rfl | h3
          · exact ⟨_, rfl⟩
          · simp at h3
      · refine AllSorted_of_str_map _ ?_
        intro kv hkv
        rcases mem_mapInsert _ _ _ _ hkv with rfl | h2
        · exact ⟨_, rfl⟩
        · simp at h2

/-- sortObjs of a list of AllSorted values is sorted and AllSorted. -/
theorem allSorted_sortObjs (l : List SerdeValue) (h : ∀ x ∈ l, AllSorted x) :
    AllSorted (.arr (sortObjs l)) :=
  AllSorted.arr _ (sortObjs_sorted l) (fun x hx => h x (mem_sortObjs l x hx))

theorem MapSorted_mapInsert (m : SMap) (k : String) (v : SerdeValue)
    (hm : MapSorted m) (hv : AllSorted v) : MapSorted (mapInsert m k v) := by
  intro kv hkv
  rcases mem_mapInsert _ _ _ _ hkv with rfl | h2
  · exact hv
  · exact hm kv h2

theorem MapSorted_mapRemove (m : SMap) (k : String) (hm : MapSorted m) :
    MapSorted (mapRemove m k) :=
  fun kv hkv => hm kv (mem_mapRemove _ _ _ hkv)

theorem MapSorted_nil : MapSorted [] := by
  intro kv hkv
  simp at hkv

theorem AllSorted_of_mapGet (m : SMap) (k : String) (v : SerdeValue)
    (hm : MapSorted m) (hg : mapGet m k = some v) : AllSorted v :=
  hm (k, v) (mem_of_mapGet _ _ _ hg)

theorem subjRowStep_sorted (sid : String) (acc : SMap × DepMap) (row : ThinRow)
    (h : MapSorted acc.1) : MapSorted (subjRowStep sid acc row).1 := by
  rcases acc with ⟨predicates, deps⟩
  unfold subjRowStep
  by_cases hs : get_cell_contents row.subject ≠ sid
  · rw [if_pos hs]
    exact h
  · rw [if_neg hs]
    dsimp only at h ⊢
    cases hg : mapGet predicates (get_cell_contents row.predicate) with
    | some v =>
        cases v with
        | arr l =>
            dsimp only
            refine MapSorted_mapInsert _ _ _ h ?_
            refine allSorted_sortObjs _ ?_
            intro x hx
            rcases List.mem_append.mp hx with h3 | h3
            · have := AllSorted_of_mapGet _ _ _ h hg
              cases this with
              | arr _ _ hall => exact hall x h3
            · rw [List.mem_singleton.mp h3]
              exact allSorted_row2object_map row
        | str s => exact h
        | obj m => exact h
    | none =>
        by_cases hp : get_cell_contents row.predicate ≠ ""
        · rw [if_pos hp]
          refine MapSorted_mapInsert _ _ _ h ?_
          refine allSorted_sortObjs _ ?_
          intro x hx
          rw [List.mem_singleton.mp hx]
          exact allSorted_row2object_map row
        · rw [if_neg hp]
          exact h

theorem rows_fold_sorted (sid : String) :
    ∀ (rows : List ThinRow) (acc : SMap × DepMap), MapSorted acc.1 →
    MapSorted ((rows.foldl (subjRowStep sid) acc).1)
  | [], _, h => h
  | row :: rows, acc, h => by
      simp only [List.foldl]
      exact rows_fold_sorted sid rows _ (subjRowStep_sorted sid acc row h)

theorem core_subjsorted (rows : List ThinRow) :
    MapSorted (thin_rows_to_subjects_core rows).1 := by
  unfold thin_rows_to_subjects_core
  generalize (rows.foldl (fun s row => setInsert s (get_cell_contents row.subject))
    ([] : List String)) = sids
  have hgen : ∀ (ks : List String) (acc : SMap × DepMap), MapSorted acc.1 →
      MapSorted ((ks.foldl (fun (acc : SMap × DepMap) subject_id =>
        let (subjects, dependencies) := acc
        let (predicates, dependencies) :=
          rows.foldl (subjRowStep subject_id) ([], dependencies)
        (mapInsert subjects subject_id (.obj predicates), dependencies)) acc).1) := by
    intro ks
    induction ks with
    | nil => intro acc h; exact h
    | cons sid ks ih =>
        intro acc h
        simp only [List.foldl]
        rcases acc with ⟨subjects, deps⟩
        refine ih _ ?_
        dsimp only
        refine MapSorted_mapInsert _ _ _ h ?_
        exact AllSorted.obj _ (rows_fold_sorted sid rows ([], deps) MapSorted_nil)
  exact hgen sids ([], []) (fun kv hkv => by simp at hkv)

theorem wtdObjStep_out (leaves : List String) (subjects : SMap) (sid : String)
    (acc : List SerdeValue × DepMap × List String) (obj : SerdeValue) :
    (wtdObjStep leaves subjects sid acc obj).1 = acc.1 ++ [obj] ∨
    ∃ val, (wtdObjStep leaves subjects sid acc obj).1 =
        acc.1 ++ [.obj (mapInsert [] "object" val)] ∧
      (val = SerdeValue.obj [] ∨ ∃ os, mapGet subjects os = some val) := by
  rcases acc with ⟨objects, deps, handled⟩
  unfold wtdObjStep
  dsimp only
  repeat' split
  all_goals first
    | exact Or.inl rfl
    | (rename_i heq
       exact Or.inr ⟨_, rfl, Or.inr ⟨_, heq⟩⟩)
    | exact Or.inr ⟨_, rfl, Or.inl rfl⟩

theorem wtdObjStep_allsorted (leaves : List String) (subjects : SMap) (sid : String)
    (acc : List SerdeValue × DepMap × List String) (obj : SerdeValue)
    (hsub : MapSorted subjects)
    (hacc : ∀ o ∈ acc.1, AllSorted o) (hobj : AllSorted obj) :
    ∀ o ∈ (wtdObjStep leaves subjects sid acc obj).1, AllSorted o := by
  have happ : ∀ x, AllSorted x → ∀ o ∈ acc.1 ++ [x], AllSorted o := by
    intro x hx o ho
    rcases List.mem_append.mp ho with h2 | h2
    · exact hacc o h2
    · rw [List.mem_singleton.mp h2]
      exact hx
  rcases wtdObjStep_out leaves subjects sid acc obj with h | ⟨val, h, hval⟩
  · rw [h]
    exact happ _ hobj
  · rw [h]
    refine happ _ (AllSorted.obj _ ?_)
    intro kv hkv
    rcases mem_mapInsert _ _ _ _ hkv with rfl | h2
    · rcases hval with rfl | ⟨os, hg⟩
      · exact AllSorted.obj _ (fun kv2 hkv2 => by simp at hkv2)
      · exact AllSorted_of_mapGet _ _ _ hsub hg
    · simp at h2

theorem wtdObjFold_allsorted (leaves : List String) (subjects : SMap) (sid : String)
    (hsub : MapSorted subjects) :
    ∀ (objs : List SerdeValue) (acc : List SerdeValue × DepMap × List String),
    (∀ o ∈ objs, AllSorted o) → (∀ o ∈ acc.1, AllSorted o) →
    ∀ o ∈ (objs.foldl (wtdObjStep leaves subjects sid) acc).1, AllSorted o
  | [], _, _, hacc => hacc
  | obj :: objs, acc, hobjs, hacc => by
      simp only [List.foldl]
      exact wtdObjFold_allsorted leaves subjects sid hsub objs _
        (fun o ho => hobjs o (List.mem_cons_of_mem _ ho))
        (wtdObjStep_allsorted leaves subjects sid acc obj hsub hacc
          (hobjs obj (List.mem_cons_self _ _)))

theorem wtdPredStep_allsorted (leaves : List String) (sid : String)
    (acc : SMap × SMap × DepMap × List String) (p : String)
    (hpred : MapSorted acc.1) (hsubj : MapSorted acc.2.1) :
    MapSorted (wtdPredStep leaves sid acc p).1 ∧
    MapSorted (wtdPredStep leaves sid acc p).2.1 := by
  rcases acc with ⟨predicates, subjects, deps, handled⟩
  unfold wtdPredStep
  dsimp only at hpred hsubj ⊢
  have hobjs : ∀ o ∈ (match mapGet predicates p with
      | some (.arr v) => v
      | _ => ([] : List SerdeValue)), AllSorted o := by
    cases hg : mapGet predicates p with
    | none => intro o ho; simp at ho
    | some v =>
        cases v with
        | arr l =>
            have := AllSorted_of_mapGet _ _ _ hpred hg
            cases this with
            | arr _ _ hall => exact hall
        | str s => intro o ho; simp at ho
        | obj m => intro o ho; simp at ho
  have hfold := wtdObjFold_allsorted leaves subjects sid hsubj _ ([], deps, handled)
    hobjs (by intro o ho; simp at ho)
  have hnew : AllSorted (.arr (sortObjs ((match mapGet predicates p with
      | some (.arr v) => v
      | _ => ([] : List SerdeValue)).foldl
        (wtdObjStep leaves subjects sid) ([], deps, handled)).1)) :=
    allSorted_sortObjs _ hfold
  constructor
  · exact MapSorted_mapInsert _ _ _ hpred hnew
  · refine MapSorted_mapInsert _ _ _ hsubj (AllSorted.obj _ ?_)
    exact MapSorted_mapInsert _ _ _ hpred hnew

theorem wtdPredFold_allsorted (leaves : List String) (sid : String) :
    ∀ (ps : List String) (acc : SMap × SMap × DepMap × List String),
    MapSorted acc.1 → MapSorted acc.2.1 →
    MapSorted ((ps.foldl (wtdPredStep leaves sid) acc).2.1)
  | [], _, _, hsubj => hsubj
  | p :: ps, acc, hpred, hsubj => by
      simp only [List.foldl]
      have := wtdPredStep_allsorted leaves sid acc p hpred hsubj
      exact wtdPredFold_allsorted leaves sid ps _ this.1 this.2

theorem wtdSubjStep_allsorted (leaves : List String) (acc : SMap × DepMap × List String)
    (sid : String) (h : MapSorted acc.1) : MapSorted (wtdSubjStep leaves acc sid).1 := by
  rcases acc with ⟨subjects, deps, handled⟩
  unfold wtdSubjStep
  dsimp only at h ⊢
  have hpred : MapSorted (match mapGet subjects sid with
      | some (.obj m) => m
      | _ => ([] : SMap)) := by
    cases hg : mapGet subjects sid with
    | none => exact MapSorted_nil
    | some v =>
        cases v with
        | obj pm =>
            have := AllSorted_of_mapGet _ _ _ h hg
            cases this with
            | obj _ hall => exact hall
        | str s => exact MapSorted_nil
        | arr l => exact MapSorted_nil
  exact wtdPredFold_allsorted leaves sid _ _ hpred h

theorem wtdSubjFold_allsorted (leaves : List String) :
    ∀ (ks : List String) (acc : SMap × DepMap × List String), MapSorted acc.1 →
    MapSorted ((ks.foldl (wtdSubjStep leaves) acc).1)
  | [], _, h => h
  | k :: ks, acc, h => by
      simp only [List.foldl]
      exact wtdSubjFold_allsorted leaves ks _ (wtdSubjStep_allsorted leaves acc k h)

theorem fold_mapRemove_mapsorted :
    ∀ (rl : List String) (m : SMap), MapSorted m → MapSorted (rl.foldl mapRemove m)
  | [], _, h => h
  | k :: rl, m, h => by
      simp only [List.foldl]
      exact fold_mapRemove_mapsorted rl _ (MapSorted_mapRemove m k h)

theorem wtdPass_allsorted (st : WtdState) (h : MapSorted st.subjects) :
    MapSorted (wtdPass st).subjects := by
  unfold wtdPass
  dsimp only
  cases hf : (mapKeys st.subjects).foldl
      (wtdSubjStep ((mapKeys st.subjects).filter
        (fun k => !(depKeys st.dependencies).contains k))) (st.subjects, [], []) with
  | mk subjects' rest =>
      have := wtdSubjFold_allsorted ((mapKeys st.subjects).filter
        (fun k => !(depKeys st.dependencies).contains k))
        (mapKeys st.subjects) (st.subjects, [], []) h
      rw [hf] at this
      rcases rest with ⟨deps', handled'⟩
      exact fold_mapRemove_mapsorted handled' subjects' this

theorem wtdRun_allsorted :
    ∀ (fuel : Nat) (st : WtdState) (m : SMap), MapSorted st.subjects →
    wtdRun fuel st = some m → MapSorted m
  | 0, st, m, h, hr => by
      unfold wtdRun at hr
      split at hr
      · rw [← Option.some.inj hr]
        exact h
      · simp at hr
  | fuel + 1, st, m, h, hr => by
      unfold wtdRun at hr
      split at hr
      · rw [← Option.some.inj hr]
        exact h
      · exact wtdRun_allsorted fuel _ m (wtdPass_allsorted st h) hr

/-- Claim C8 amended. -/
theorem C8_amended (thin_rows : List ThinRow) (m : SMap)
    (h : thin_rows_to_subjects thin_rows = some m) :
    ∀ kv ∈ m, AllSorted kv.2 := by
  unfold thin_rows_to_subjects at h
  exact wtdRun_allsorted _ _ m (core_subjsorted thin_rows) h

/-- Claim C8 counterexample: after the overlay collapse attaches the
    annotations attribute, the object list under ex:S / ex:P holds the
    annotated object after the plain one, although its canonical string
    serialization is strictly smaller, so the list is no longer in canonical
    order. -/
theorem C8_counterexample :
    (thin_rows_to_subjects c8rows).map (fun m =>
        (svGet (.obj (annotate_reify m)) "ex:S").map (fun p => svGet p "ex:P")) =
      some (some (some (.arr [c8e1, c8e2]))) ∧
    svLe c8e1 c8e2 = false :=
  ⟨by decide, by decide⟩

/-- Claim C8 witness. -/
theorem C8_amended_witness :
    AllSorted (SerdeValue.obj [("ex:P", .arr [.obj [("object", .str "ex:O")]])]) :=
  C8_amended [⟨some "ex:S", some "ex:S", some "ex:P", some "ex:O", none, none, none⟩]
    [("ex:S", .obj [("ex:P", .arr [.obj [("object", .str "ex:O")]])])]
    (by decide)
    ("ex:S", .obj [("ex:P", .arr [.obj [("object", .str "ex:O")]])])
    (by decide)

theorem strLt_irrefl : ∀ a : String, strLt a a = false := by
  intro a
  show chLt a.data a.data = false
  induction a.data with
  | nil => rfl
  | cons c cs ih => simp [chLt, ih]

theorem setContains_setInsert_self (s : List String) (x : String) :
    setContains (setInsert s x) x = true := by
  induction s with
  | nil => simp [setInsert, setContains]
  | cons hd tl ih =>
      simp only [setInsert]
      by_cases h1 : x = hd
      · simp [h1, setContains]
      · by_cases h2 : strLt x hd = true
        · simp [h1, h2, setContains]
        · simp [h1, h2, setContains, ih]

theorem setContains_setInsert_of (s : List String) (x j : String)
    (h : setContains s j = true) : setContains (setInsert s x) j = true := by
  induction s with
  | nil => simp [setContains] at h
  | cons hd tl ih =>
      simp only [setContains] at h
      simp only [setInsert]
      by_cases h1 : x = hd
      · rw [if_pos h1]
        exact h
      · rw [if_neg h1]
        by_cases h2 : strLt x hd = true
        · rw [if_pos h2]
          by_cases hjx : j = x
          · simp [setContains, hjx]
          · by_cases hj : j = hd
            · simp [setContains, hjx, hj]
            · simp only [hj, if_false] at h
              simp [setContains, hjx, hj, h]
        · rw [if_neg h2]
          by_cases hj : j = hd
          · simp [setContains, hj]
          · simp only [hj, if_false] at h
            simp [setContains, hj, ih h]

theorem depContains_depAdd_self (d : DepMap) (k x : String) :
    depContains (depAdd d k x) k x = true := by
  induction d with
  | nil => simp [depAdd, depContains, depGet, setContains]
  | cons hd tl ih =>
      simp only [depAdd]
      by_cases h1 : k = hd.1
      · simp [h1, depContains, depGet, setContains_setInsert_self]
      · by_cases h2 : strLt k hd.1 = true
        · simp [h1, h2, depContains, depGet, setContains]
        · simp only [h1, h2, if_false, if_neg]
          simp only [depContains, depGet, h1, if_false] at ih ⊢
          exact ih

theorem mem_depKeys_of_depContains (d : DepMap) (s b : String)
    (h : depContains d s b = true) : s ∈ depKeys d := by
  induction d with
  | nil => simp [depContains, depGet] at h
  | cons hd tl ih =>
      simp only [depContains, depGet] at h
      simp only [depKeys, List.map_cons]
      by_cases hs : s = hd.1
      · simp [hs]
      · simp only [hs, if_false] at h
        simp only [depContains] at ih
        exact List.mem_cons_of_mem _ (ih h)

theorem depKeysSorted_depAdd (d : DepMap) (k x : String) (h : depKeysSorted d) :
    depKeysSorted (depAdd d k x) := by
  induction d with
  | nil =>
      simp [depKeysSorted, depAdd, depKeys]
  | cons hd tl ih =>
      simp only [depKeysSorted, depKeys, List.map_cons, List.pairwise_cons] at h
      simp only [depAdd]
      by_cases h1 : k = hd.1
      · rw [if_pos h1]
        simp only [depKeysSorted, depKeys, List.map_cons, List.pairwise_cons]
        exact h
      · rw [if_neg h1]
        by_cases h2 : strLt k hd.1 = true
        · rw [if_pos h2]
          simp only [depKeysSorted, depKeys, List.map_cons, List.pairwise_cons]
          refine ⟨?_, h⟩
          intro a ha
          rcases List.mem_cons.mp ha with rfl | ha2
          · exact h2
          · exact strLt_trans _ _ _ h2 (h.1 a ha2)
        · rw [if_neg h2]
          simp only [depKeysSorted, depKeys, List.map_cons, List.pairwise_cons]
          constructor
          · intro a ha
            have hsub : ∀ a, a ∈ depKeys (depAdd tl k x) → a ∈ depKeys tl ∨ a = k := by
              clear ha h ih
              intro a
              induction tl with
              | nil =>
                  intro hh
                  simp only [depAdd, depKeys, List.map_cons, List.map_nil] at hh
                  rcases List.mem_cons.mp hh with rfl | hh
                  · exact Or.inr rfl
                  · simp at hh
              | cons hd2 tl2 ih2 =>
                  simp only [depAdd]
                  by_cases hk1 : k = hd2.1
                  · rw [if_pos hk1]
                    simp only [depKeys, List.map_cons]
                    intro hh
                    exact Or.inl hh
                  · rw [if_neg hk1]
                    by_cases hk2 : strLt k hd2.1 = true
                    · rw [if_pos hk2]
                      simp only [depKeys, List.map_cons]
                      intro hh
                      rcases List.mem_cons.mp hh with rfl | hh
                      · exact Or.inr rfl
                      · exact Or.inl hh
                    · rw [if_neg hk2]
                      simp only [depKeys, List.map_cons]
                      intro hh
                      rcases List.mem_cons.mp hh with rfl | hh
                      · exact Or.inl (List.mem_cons_self _ _)
                      · rcases ih2 hh with hh2 | hh2
                        · exact Or.inl (List.mem_cons_of_mem _ hh2)
                        · exact Or.inr hh2
            rcases hsub a ha with ha2 | haeq
            · exact h.1 a ha2
            · rw [haeq]
              have h2f : strLt k hd.1 = false := by
                revert h2
                cases strLt k hd.1 <;> simp
              cases hlt : strLt hd.1 k with
              | true => rfl
              | false =>
                  exact absurd (strLt_conn _ _ hlt h2f).symm h1
          · exact ih h.2

theorem depContains_depAdd_of (d : DepMap) (k x s b : String)
    (hsort : depKeysSorted d)
    (h : depContains d s b = true) : depContains (depAdd d k x) s b = true := by
  induction d with
  | nil => simp [depContains, depGet] at h
  | cons hd tl ih =>
      simp only [depContains, depGet] at h
      simp only [depKeysSorted, depKeys, List.map_cons, List.pairwise_cons] at hsort
      simp only [depAdd]
      by_cases h1 : k = hd.1
      · rw [if_pos h1]
        simp only [depContains, depGet]
        by_cases hs : s = hd.1
        · rw [if_pos hs]
          rw [if_pos hs] at h
          exact setContains_setInsert_of _ _ _ h
        · rw [if_neg hs]
          rw [if_neg hs] at h
          exact h
      · rw [if_neg h1]
        by_cases h2 : strLt k hd.1 = true
        · rw [if_pos h2]
          simp only [depContains, depGet]
          by_cases hsk : s = k
          · exfalso
            have hsh : ¬ s = hd.1 := fun hh => h1 (hsk ▸ hh)
            rw [if_neg hsh] at h
            have hmem : s ∈ depKeys tl :=
              mem_depKeys_of_depContains tl s b (by simpa [depContains] using h)
            have : strLt hd.1 s = true := hsort.1 s hmem
            rw [hsk] at this
            have : strLt k k = true := strLt_trans _ _ _ h2 this
            rw [strLt_irrefl] at this
            exact Bool.false_ne_true this
          · rw [if_neg hsk]
            exact h
        · rw [if_neg h2]
          simp only [depContains, depGet]
          by_cases hsh : s = hd.1
          · rw [if_pos hsh]
            rw [if_pos hsh] at h
            exact h
          · rw [if_neg hsh]
            rw [if_neg hsh] at h
            simp only [depContains] at ih
            exact ih hsort.2 h

theorem depContains_depAdd_elim (d : DepMap) (k x s b : String)
    (h : depContains (depAdd d k x) s b = true) :
    depContains d s b = true ∨ (s = k ∧ b = x) := by
  induction d with
  | nil =>
      simp only [depAdd, depContains, depGet] at h
      by_cases hs : s = k
      · rw [if_pos hs] at h
        simp only [setContains] at h
        by_cases hb : b = x
        · exact Or.inr ⟨hs, hb⟩
        · simp [hb] at h
      · simp [hs] at h
  | cons hd tl ih =>
      simp only [depAdd] at h
      by_cases h1 : k = hd.1
      · rw [if_pos h1] at h
        simp only [depContains, depGet] at h ⊢
        by_cases hs : s = hd.1
        · rw [if_pos hs] at h ⊢
          rcases setContains_setInsert_elim _ _ _ h with h2 | h2
          · exact Or.inl h2
          · exact Or.inr ⟨by rw [hs, h1], h2⟩
        · rw [if_neg hs] at h ⊢
          exact Or.inl h
      · rw [if_neg h1] at h
        by_cases h2 : strLt k hd.1 = true
        · rw [if_pos h2] at h
          simp only [depContains, depGet] at h ⊢
          by_cases hsk : s = k
          · rw [if_pos hsk] at h
            simp only [setContains] at h
            by_cases hb : b = x
            · exact Or.inr ⟨hsk, hb⟩
            · simp [hb] at h
          · rw [if_neg hsk] at h
            by_cases hsh : s = hd.1
            · rw [if_pos hsh] at h ⊢
              exact Or.inl h
            · rw [if_neg hsh] at h ⊢
              exact Or.inl h
        · rw [if_neg h2] at h
          simp only [depContains, depGet] at h ⊢
          by_cases hsh : s = hd.1
          · rw [if_pos hsh] at h ⊢
            exact Or.inl h
          · rw [if_neg hsh] at h ⊢
            simp only [depContains] at ih
            exact ih h

theorem depContains_eq_false_of_not_mem (d : DepMap) (s b : String)
    (h : s ∉ depKeys d) : depContains d s b = false := by
  cases hc : depContains d s b with
  | false => rfl
  | true => exact absurd (mem_depKeys_of_depContains d s b hc) h

theorem mapContains_of_mem_keys (m : SMap) (x : String) (h : x ∈ mapKeys m) :
    mapContains m x = true := by
  induction m with
  | nil => simp [mapKeys] at h
  | cons hd tl ih =>
      simp only [mapKeys, List.map_cons] at h
      simp only [mapContains]
      by_cases hx : x = hd.1
      · rw [if_pos hx]
      · rw [if_neg hx]
        rcases List.mem_cons.mp h with h2 | h2
        · exact absurd h2 hx
        · exact ih h2

theorem mem_keys_of_mapContains (m : SMap) (x : String) (h : mapContains m x = true) :
    x ∈ mapKeys m := by
  induction m with
  | nil => simp [mapContains] at h
  | cons hd tl ih =>
      simp only [mapContains] at h
      simp only [mapKeys, List.map_cons]
      by_cases hx : x = hd.1
      · exact List.mem_cons.mpr (Or.inl hx)
      · rw [if_neg hx] at h
        exact List.mem_cons_of_mem _ (ih h)

theorem mapGet_eq_none_of_contains_false (m : SMap) (s : String)
    (h : mapContains m s = false) : mapGet m s = none := by
  induction m with
  | nil => rfl
  | cons hd tl ih =>
      simp only [mapContains] at h
      simp only [mapGet]
      by_cases hs : s = hd.1
      · rw [if_pos hs] at h
        exact absurd h (by simp)
      · rw [if_neg hs] at h
        rw [if_neg hs]
        exact ih h

theorem mapContains_mapInsert_elim (m : SMap) (k j : String) (v : SerdeValue)
    (h : mapContains (mapInsert m k v) j = true) : j = k ∨ mapContains m j = true := by
  induction m with
  | nil =>
      simp only [mapInsert, mapContains] at h
      by_cases hj : j = k
      · exact Or.inl hj
      · rw [if_neg hj] at h
        exact absurd h (by simp)
  | cons hd tl ih =>
      simp only [mapInsert] at h
      by_cases h1 : k = hd.1
      · rw [if_pos h1] at h
        simp only [mapContains] at h ⊢
        by_cases hj : j = k
        · exact Or.inl hj
        · have hj1 : ¬ j = hd.1 := fun hh => hj (h1 ▸ hh)
          rw [if_neg hj] at h
          rw [if_neg hj1]
          exact Or.inr h
      · rw [if_neg h1] at h
        by_cases h2 : strLt k hd.1 = true
        · rw [if_pos h2] at h
          simp only [mapContains] at h ⊢
          by_cases hj : j = k
          · exact Or.inl hj
          · rw [if_neg hj] at h
            exact Or.inr h
        · rw [if_neg h2] at h
          simp only [mapContains] at h ⊢
          by_cases hj : j = hd.1
          · rw [if_pos hj]
            exact Or.inr rfl
          · rw [if_neg hj] at h ⊢
            exact ih h

theorem length_mapInsert_of_contains (m : SMap) (k : String) (v : SerdeValue)
    (hsort : keysSorted m) (h : mapContains m k = true) :
    (mapInsert m k v).length = m.length := by
  induction m with
  | nil => simp [mapContains] at h
  | cons hd tl ih =>
      simp only [keysSorted, mapKeys, List.map_cons, List.pairwise_cons] at hsort
      simp only [mapContains] at h
      simp only [mapInsert]
      by_cases h1 : k = hd.1
      · rw [if_pos h1]
        simp
      · rw [if_neg h1] at h
        rw [if_neg h1]
        by_cases h2 : strLt k hd.1 = true
        · exfalso
          have hmem : k ∈ mapKeys tl := mem_keys_of_mapContains tl k h
          have hlt : strLt hd.1 k = true := hsort.1 k hmem
          have : strLt hd.1 hd.1 = true := strLt_trans _ _ _ hlt h2
          rw [strLt_irrefl] at this
          exact Bool.false_ne_true this
        · rw [if_neg h2]
          simp only [List.length_cons]
          rw [ih hsort.2 h]

theorem mapGet_mapRemove_ne (m : SMap) (k j : String) (hne : j ≠ k) :
    mapGet (mapRemove m k) j = mapGet m j := by
  induction m with
  | nil => rfl
  | cons hd tl ih =>
      simp only [mapRemove]
      by_cases hk : k = hd.1
      · rw [if_pos hk]
        simp only [mapGet]
        have hj : ¬ j = hd.1 := fun hh => hne (by rw [hh, hk])
        rw [if_neg hj]
      · rw [if_neg hk]
        simp only [mapGet]
        by_cases hj : j = hd.1
        · rw [if_pos hj, if_pos hj]
        · rw [if_neg hj, if_neg hj]
          exact ih

theorem mapGet_foldRemove_not_contains :
    ∀ (rl : List String) (m : SMap) (j : String), setContains rl j = false →
    mapGet (rl.foldl mapRemove m) j = mapGet m j
  | [], _, _, _ => rfl
  | hd :: tl, m, j, h => by
      simp only [setContains] at h
      by_cases hj : j = hd
      · rw [if_pos hj] at h
        exact absurd h (by simp)
      · rw [if_neg hj] at h
        simp only [List.foldl]
        rw [mapGet_foldRemove_not_contains tl _ j h]
        exact mapGet_mapRemove_ne m hd j hj

theorem mapContains_mapRemove_elim (m : SMap) (k j : String)
    (h : mapContains (mapRemove m k) j = true) : mapContains m j = true := by
  induction m with
  | nil => simpa [mapRemove] using h
  | cons hd tl ih =>
      simp only [mapRemove] at h
      simp only [mapContains]
      by_cases hk : k = hd.1
      · rw [if_pos hk] at h
        by_cases hj : j = hd.1
        · rw [if_pos hj]
        · rw [if_neg hj]
          exact h
      · rw [if_neg hk] at h
        simp only [mapContains] at h
        by_cases hj : j = hd.1
        · rw [if_pos hj]
        · rw [if_neg hj] at h ⊢
          exact ih h

theorem keys_mapRemove_sublist (m : SMap) (k : String) :
    (mapKeys (mapRemove m k)).Sublist (mapKeys m) := by
  induction m with
  | nil => simp [mapRemove, mapKeys]
  | cons hd tl ih =>
      simp only [mapRemove]
      by_cases hk : k = hd.1
      · rw [if_pos hk]
        simp only [mapKeys, List.map_cons]
        exact List.sublist_cons_of_sublist _ (List.Sublist.refl _)
      · rw [if_neg hk]
        simp only [mapKeys, List.map_cons]
        exact List.Sublist.cons₂ _ ih

theorem keysSorted_mapRemove (m : SMap) (k : String) (h : keysSorted m) :
    keysSorted (mapRemove m k) := h.sublist (keys_mapRemove_sublist m k)

theorem keysSorted_foldRemove :
    ∀ (rl : List String) (m : SMap), keysSorted m → keysSorted (rl.foldl mapRemove m)
  | [], _, h => h
  | hd :: tl, m, h => by
      simp only [List.foldl]
      exact keysSorted_foldRemove tl _ (keysSorted_mapRemove m hd h)

theorem keysSorted_mapInsert (m : SMap) (k : String) (v : SerdeValue)
    (h : keysSorted m) : keysSorted (mapInsert m k v) := by
  induction m with
  | nil => simp [keysSorted, mapInsert, mapKeys]
  | cons hd tl ih =>
      simp only [keysSorted, mapKeys, List.map_cons, List.pairwise_cons] at h
      simp only [mapInsert]
      by_cases h1 : k = hd.1
      · rw [if_pos h1]
        simp only [keysSorted, mapKeys, List.map_cons, List.pairwise_cons]
        rw [h1]
        exact h
      · rw [if_neg h1]
        by_cases h2 : strLt k hd.1 = true
        · rw [if_pos h2]
          simp only [keysSorted, mapKeys, List.map_cons, List.pairwise_cons]
          refine ⟨?_, h⟩
          intro a ha
          rcases List.mem_cons.mp ha with rfl | ha2
          · exact h2
          · exact strLt_trans _ _ _ h2 (h.1 a ha2)
        · rw [if_neg h2]
          simp only [keysSorted, mapKeys, List.map_cons, List.pairwise_cons]
          constructor
          · intro a ha
            have hsub : ∀ y, y ∈ mapKeys (mapInsert tl k v) → y ∈ mapKeys tl ∨ y = k := by
              intro y
              clear ha ih h
              induction tl with
              | nil =>
                  intro hh
                  simp only [mapInsert, mapKeys, List.map_cons, List.map_nil] at hh
                  rcases List.mem_cons.mp hh with rfl | hh
                  · exact Or.inr rfl
                  · simp at hh
              | cons hd2 tl2 ih2 =>
                  simp only [mapInsert]
                  by_cases hk1 : k = hd2.1
                  · rw [if_pos hk1]
                    simp only [mapKeys, List.map_cons]
                    intro hh
                    rcases List.mem_cons.mp hh with rfl | hh
                    · exact Or.inr rfl
                    · exact Or.inl (List.mem_cons_of_mem _ hh)
                  · rw [if_neg hk1]
                    by_cases hk2 : strLt k hd2.1 = true
                    · rw [if_pos hk2]
                      simp only [mapKeys, List.map_cons]
                      intro hh
                      rcases List.mem_cons.mp hh with rfl | hh
                      · exact Or.inr rfl
                      · exact Or.inl hh
                    · rw [if_neg hk2]
                      simp only [mapKeys, List.map_cons]
                      intro hh
                      rcases List.mem_cons.mp hh with rfl | hh
                      · exact Or.inl (List.mem_cons_self _ _)
                      · rcases ih2 hh with hh2 | hh2
                        · exact Or.inl (List.mem_cons_of_mem _ hh2)
                        · exact Or.inr hh2
            rcases hsub a ha with ha2 | haeq
            · exact h.1 a ha2
            · rw [haeq]
              have h2f : strLt k hd.1 = false := by
                revert h2
                cases strLt k hd.1 <;> simp
              cases hlt : strLt hd.1 k with
              | true => rfl
              | false => exact absurd (strLt_conn _ _ hlt h2f).symm h1
          · exact ih h.2

theorem mapContains_mapRemove_self_of_sorted (m : SMap) (s : String)
    (h : keysSorted m) : mapContains (mapRemove m s) s = false := by
  induction m with
  | nil => rfl
  | cons hd tl ih =>
      simp only [keysSorted, mapKeys, List.map_cons, List.pairwise_cons] at h
      simp only [mapRemove]
      by_cases hs : s = hd.1
      · rw [if_pos hs]
        cases hc : mapContains tl s with
        | false => rfl
        | true =>
            exfalso
            have := h.1 s (mem_keys_of_mapContains tl s hc)
            rw [hs] at this
            rw [strLt_irrefl] at this
            exact Bool.false_ne_true this
      · rw [if_neg hs]
        simp only [mapContains]
        rw [if_neg hs]
        exact ih h.2

theorem mapContains_mapRemove_of_false (m : SMap) (k s : String)
    (h : mapContains m s = false) : mapContains (mapRemove m k) s = false := by
  cases hc : mapContains (mapRemove m k) s with
  | false => rfl
  | true => rw [mapContains_mapRemove_elim m k s hc] at h; exact h

theorem mapContains_foldRemove_of_false :
    ∀ (rl : List String) (m : SMap) (s : String), mapContains m s = false →
    mapContains (rl.foldl mapRemove m) s = false
  | [], _, _, h => h
  | hd :: tl, m, s, h => by
      simp only [List.foldl]
      exact mapContains_foldRemove_of_false tl _ s
        (mapContains_mapRemove_of_false m hd s h)

theorem mapContains_foldRemove_false :
    ∀ (rl : List String) (m : SMap) (s : String), keysSorted m →
    setContains rl s = true → mapContains (rl.foldl mapRemove m) s = false
  | [], _, _, _, hc => by simp [setContains] at hc
  | hd :: tl, m, s, hsort, hc => by
      simp only [setContains] at hc
      simp only [List.foldl]
      by_cases hs : s = hd
      · apply mapContains_foldRemove_of_false
        rw [hs]
        exact mapContains_mapRemove_self_of_sorted m hd hsort
      · rw [if_neg hs] at hc
        exact mapContains_foldRemove_false tl _ s (keysSorted_mapRemove m hd hsort) hc

theorem length_mapRemove_le (m : SMap) (k : String) :
    (mapRemove m k).length ≤ m.length := by
  induction m with
  | nil => simp [mapRemove]
  | cons hd tl ih =>
      simp only [mapRemove]
      by_cases hk : k = hd.1
      · rw [if_pos hk]
        simp
      · rw [if_neg hk]
        simp only [List.length_cons]
        exact Nat.succ_le_succ ih

theorem length_mapRemove_lt (m : SMap) (k : String) (h : mapContains m k = true) :
    (mapRemove m k).length < m.length := by
  induction m with
  | nil => simp [mapContains] at h
  | cons hd tl ih =>
      simp only [mapContains] at h
      simp only [mapRemove]
      by_cases hk : k = hd.1
      · rw [if_pos hk]
        simp
      · rw [if_neg hk] at h
        rw [if_neg hk]
        simp only [List.length_cons]
        exact Nat.succ_lt_succ (ih h)

theorem length_foldRemove_le :
    ∀ (rl : List String) (m : SMap), (rl.foldl mapRemove m).length ≤ m.length
  | [], _ => Nat.le_refl _
  | hd :: tl, m => by
      simp only [List.foldl]
      exact Nat.le_trans (length_foldRemove_le tl _) (length_mapRemove_le m hd)

theorem length_foldRemove_lt :
    ∀ (rl : List String) (m : SMap) (b : String), setContains rl b = true →
    mapContains m b = true → (rl.foldl mapRemove m).length < m.length
  | [], _, _, hc, _ => by simp [setContains] at hc
  | hd :: tl, m, b, hc, hm => by
      simp only [setContains] at hc
      simp only [List.foldl]
      by_cases hb : b = hd
      · refine Nat.lt_of_le_of_lt (length_foldRemove_le tl _) ?_
        rw [hb] at hm
        exact length_mapRemove_lt m hd hm
      · rw [if_neg hb] at hc
        refine Nat.lt_of_lt_of_le
          (length_foldRemove_lt tl _ b hc (mapContains_mapRemove_ne m hd b hb hm)) ?_
        exact length_mapRemove_le m hd

theorem svGet_some_obj (obj v : SerdeValue) (k : String) (h : svGet obj k = some v) :
    ∃ m, obj = SerdeValue.obj m := by
  cases obj with
  | obj m => exact ⟨m, rfl⟩
  | str s => simp [svGet] at h
  | arr l => simp [svGet] at h

theorem wtdObjStep_eq_keep (leaves : List String) (subjects : SMap) (sid : String)
    (objects : List SerdeValue) (deps : DepMap) (handled : List String)
    (obj : SerdeValue)
    (hkeep : (svGet obj "object" = none) ∨
      (∃ m, svGet obj "object" = some (.obj m)) ∨
      (∃ l, svGet obj "object" = some (.arr l)) ∨
      (∃ os, svGet obj "object" = some (.str os) ∧ rustStartsWith os "_:" = false)) :
    wtdObjStep leaves subjects sid (objects, deps, handled) obj =
      (objects ++ [obj], deps, handled) := by
  unfold wtdObjStep
  rcases hkeep with hg | ⟨m, hg⟩ | ⟨l, hg⟩ | ⟨os, hg, hsw⟩ <;> rw [hg] <;> dsimp only
  rw [hsw]
  simp

theorem wtdObjStep_eq_dep (leaves : List String) (subjects : SMap) (sid : String)
    (objects : List SerdeValue) (deps : DepMap) (handled : List String)
    (obj : SerdeValue) (os : String)
    (hg : svGet obj "object" = some (.str os)) (hsw : rustStartsWith os "_:" = true)
    (hlf : setContains leaves os = false) :
    wtdObjStep leaves subjects sid (objects, deps, handled) obj =
      (objects ++ [obj], depAdd deps sid os, handled) := by
  unfold wtdObjStep
  rw [hg]
  dsimp only
  rw [hsw, hlf]
  simp

theorem wtdObjStep_eq_inline (leaves : List String) (subjects : SMap) (sid : String)
    (objects : List SerdeValue) (deps : DepMap) (handled : List String)
    (m : SMap) (os : String)
    (hg : svGet (.obj m) "object" = some (.str os)) (hsw : rustStartsWith os "_:" = true)
    (hlf : setContains leaves os = true) :
    wtdObjStep leaves subjects sid (objects, deps, handled) (.obj m) =
      (objects ++ [.obj (mapInsert [] "object"
          (match mapGet subjects os with | some v => v | none => .obj []))],
        deps, setInsert handled os) := by
  unfold wtdObjStep
  rw [hg]
  dsimp only
  rw [hsw, hlf]
  simp

theorem objRefs_eq (obj : SerdeValue) (b os : String)
    (hg : svGet obj "object" = some (.str os)) (hr : objRefs obj b) : b = os := by
  rcases hr with ⟨hg2, _⟩
  rw [hg] at hg2
  exact (SerdeValue.str.inj (Option.some.inj hg2)).symm

theorem objRefs_none (obj : SerdeValue) (b : String)
    (hkeep : (svGet obj "object" = none) ∨
      (∃ m, svGet obj "object" = some (.obj m)) ∨
      (∃ l, svGet obj "object" = some (.arr l))) : ¬ objRefs obj b := by
  rintro ⟨hg2, _⟩
  rcases hkeep with hg | ⟨m, hg⟩ | ⟨l, hg⟩ <;> rw [hg] at hg2 <;> exact
    absurd hg2 (by simp)

theorem wtdObjStep_dep_of_refs (leaves : List String) (subjects : SMap) (sid : String)
    (objects : List SerdeValue) (deps : DepMap) (handled : List String)
    (obj : SerdeValue) (b : String)
    (hr : objRefs obj b) (hlf : setContains leaves b = false) :
    wtdObjStep leaves subjects sid (objects, deps, handled) obj =
      (objects ++ [obj], depAdd deps sid b, handled) := by
  rcases hr with ⟨hg, hsw⟩
  exact wtdObjStep_eq_dep leaves subjects sid objects deps handled obj b hg hsw hlf

theorem wtdObjStep_inline_of_refs (leaves : List String) (subjects : SMap) (sid : String)
    (objects : List SerdeValue) (deps : DepMap) (handled : List String)
    (obj : SerdeValue) (b : String)
    (hr : objRefs obj b) (hlf : setContains leaves b = true) :
    wtdObjStep leaves subjects sid (objects, deps, handled) obj =
      (objects ++ [.obj (mapInsert [] "object"
          (match mapGet subjects b with | some v => v | none => .obj []))],
        deps, setInsert handled b) := by
  rcases hr with ⟨hg, hsw⟩
  obtain ⟨m, rfl⟩ := svGet_some_obj _ _ _ hg
  exact wtdObjStep_eq_inline leaves subjects sid objects deps handled m b hg hsw hlf

theorem wtdObjStep_keep_of_norefs (leaves : List String) (subjects : SMap) (sid : String)
    (objects : List SerdeValue) (deps : DepMap) (handled : List String)
    (obj : SerdeValue) (hnr : ∀ b, ¬ objRefs obj b) :
    wtdObjStep leaves subjects sid (objects, deps, handled) obj =
      (objects ++ [obj], deps, handled) := by
  apply wtdObjStep_eq_keep
  cases hg : svGet obj "object" with
  | none => exact Or.inl rfl
  | some val =>
      cases val with
      | obj m => exact Or.inr (Or.inl ⟨m, rfl⟩)
      | arr l => exact Or.inr (Or.inr (Or.inl ⟨l, rfl⟩))
      | str os =>
          cases hsw : rustStartsWith os "_:" with
          | false => exact Or.inr (Or.inr (Or.inr ⟨os, rfl, hsw⟩))
          | true => exact absurd ⟨hg, hsw⟩ (hnr os)

theorem wtdObjStep_cases (leaves : List String) (subjects : SMap) (sid : String)
    (objects : List SerdeValue) (deps : DepMap) (handled : List String)
    (obj : SerdeValue) :
    ((∀ b, ¬ objRefs obj b) ∧
      wtdObjStep leaves subjects sid (objects, deps, handled) obj =
        (objects ++ [obj], deps, handled)) ∨
    (∃ b, objRefs obj b ∧ setContains leaves b = false ∧
      wtdObjStep leaves subjects sid (objects, deps, handled) obj =
        (objects ++ [obj], depAdd deps sid b, handled)) ∨
    (∃ b, objRefs obj b ∧ setContains leaves b = true ∧
      wtdObjStep leaves subjects sid (objects, deps, handled) obj =
        (objects ++ [.obj (mapInsert [] "object"
            (match mapGet subjects b with | some v => v | none => .obj []))],
          deps, setInsert handled b)) := by
  cases hg : svGet obj "object" with
  | none =>
      exact Or.inl ⟨fun b => objRefs_none obj b (Or.inl hg),
        wtdObjStep_eq_keep _ _ _ _ _ _ _ (Or.inl hg)⟩
  | some val =>
      cases val with
      | obj m =>
          exact Or.inl ⟨fun b => objRefs_none obj b (Or.inr (Or.inl ⟨m, hg⟩)),
            wtdObjStep_eq_keep _ _ _ _ _ _ _ (Or.inr (Or.inl ⟨m, hg⟩))⟩
      | arr l =>
          exact Or.inl ⟨fun b => objRefs_none obj b (Or.inr (Or.inr ⟨l, hg⟩)),
            wtdObjStep_eq_keep _ _ _ _ _ _ _ (Or.inr (Or.inr (Or.inl ⟨l, hg⟩)))⟩
      | str os =>
          cases hsw : rustStartsWith os "_:" with
          | false =>
              refine Or.inl ⟨?_, wtdObjStep_eq_keep _ _ _ _ _ _ _
                (Or.inr (Or.inr (Or.inr ⟨os, hg, hsw⟩)))⟩
              rintro b ⟨hg2, hsw2⟩
              rw [hg] at hg2
              rw [(SerdeValue.str.inj (Option.some.inj hg2)).symm] at hsw2
              rw [hsw] at hsw2
              exact Bool.false_ne_true hsw2
          | true =>
              cases hlf : setContains leaves os with
              | false =>
                  exact Or.inr (Or.inl ⟨os, ⟨hg, hsw⟩, hlf,
                    wtdObjStep_dep_of_refs _ _ _ _ _ _ _ _ ⟨hg, hsw⟩ hlf⟩)
              | true =>
                  exact Or.inr (Or.inr ⟨os, ⟨hg, hsw⟩, hlf,
                    wtdObjStep_inline_of_refs _ _ _ _ _ _ _ _ ⟨hg, hsw⟩ hlf⟩)

theorem objRefs_inlined_none (subjects : SMap) (b : String)
    (hvals : ∀ kv ∈ subjects, ∃ pm, kv.2 = SerdeValue.obj pm) (b2 : String) :
    ¬ objRefs (.obj (mapInsert [] "object"
        (match mapGet subjects b with | some v => v | none => .obj []))) b2 := by
  rintro ⟨hg2, _⟩
  cases hmg : mapGet subjects b with
  | none =>
      rw [hmg] at hg2
      simp only [svGet] at hg2
      rw [mapGet_mapInsert_self] at hg2
      exact absurd (Option.some.inj hg2) (by simp)
  | some v =>
      obtain ⟨pm, hpm⟩ := hvals (b, v) (mem_of_mapGet _ _ _ hmg)
      rw [hmg] at hg2
      simp only [svGet] at hg2
      rw [mapGet_mapInsert_self] at hg2
      rw [show v = SerdeValue.obj pm from hpm] at hg2
      exact absurd (Option.some.inj hg2) (by simp)

theorem wtdObjFold_objects_mono (leaves : List String) (subjects : SMap) (sid : String) :
    ∀ (objs : List SerdeValue) (objects : List SerdeValue) (deps : DepMap)
      (handled : List String) (o : SerdeValue), o ∈ objects →
    o ∈ (objs.foldl (wtdObjStep leaves subjects sid) (objects, deps, handled)).1
  | [], _, _, _, _, ho => ho
  | obj :: objs, objects, deps, handled, o, ho => by
      simp only [List.foldl]
      rcases wtdObjStep_cases leaves subjects sid objects deps handled obj with
        ⟨_, heq⟩ | ⟨b, _, _, heq⟩ | ⟨b, _, _, heq⟩ <;> rw [heq] <;>
        exact wtdObjFold_objects_mono leaves subjects sid objs _ _ _ o
          (List.mem_append_left _ ho)

theorem wtdObjFold_deps_sorted (leaves : List String) (subjects : SMap) (sid : String) :
    ∀ (objs : List SerdeValue) (objects : List SerdeValue) (deps : DepMap)
      (handled : List String), depKeysSorted deps →
    depKeysSorted (objs.foldl (wtdObjStep leaves subjects sid) (objects, deps, handled)).2.1
  | [], _, _, _, h => h
  | obj :: objs, objects, deps, handled, h => by
      simp only [List.foldl]
      rcases wtdObjStep_cases leaves subjects sid objects deps handled obj with
        ⟨_, heq⟩ | ⟨b, _, _, heq⟩ | ⟨b, _, _, heq⟩ <;> rw [heq]
      · exact wtdObjFold_deps_sorted leaves subjects sid objs _ _ _ h
      · exact wtdObjFold_deps_sorted leaves subjects sid objs _ _ _
          (depKeysSorted_depAdd _ _ _ h)
      · exact wtdObjFold_deps_sorted leaves subjects sid objs _ _ _ h

theorem wtdObjFold_deps_mono (leaves : List String) (subjects : SMap) (sid : String) :
    ∀ (objs : List SerdeValue) (objects : List SerdeValue) (deps : DepMap)
      (handled : List String) (s b : String), depKeysSorted deps →
      depContains deps s b = true →
    depContains (objs.foldl (wtdObjStep leaves subjects sid)
      (objects, deps, handled)).2.1 s b = true
  | [], _, _, _, _, _, _, h => h
  | obj :: objs, objects, deps, handled, s, b, hsort, h => by
      simp only [List.foldl]
      rcases wtdObjStep_cases leaves subjects sid objects deps handled obj with
        ⟨_, heq⟩ | ⟨b2, _, _, heq⟩ | ⟨b2, _, _, heq⟩ <;> rw [heq]
      · exact wtdObjFold_deps_mono leaves subjects sid objs _ _ _ s b hsort h
      · exact wtdObjFold_deps_mono leaves subjects sid objs _ _ _ s b
          (depKeysSorted_depAdd _ _ _ hsort) (depContains_depAdd_of _ _ _ _ _ hsort h)
      · exact wtdObjFold_deps_mono leaves subjects sid objs _ _ _ s b hsort h

theorem wtdObjFold_handled_mono (leaves : List String) (subjects : SMap) (sid : String) :
    ∀ (objs : List SerdeValue) (objects : List SerdeValue) (deps : DepMap)
      (handled : List String) (x : String), setContains handled x = true →
    setContains (objs.foldl (wtdObjStep leaves subjects sid)
      (objects, deps, handled)).2.2 x = true
  | [], _, _, _, _, h => h
  | obj :: objs, objects, deps, handled, x, h => by
      simp only [List.foldl]
      rcases wtdObjStep_cases leaves subjects sid objects deps handled obj with
        ⟨_, heq⟩ | ⟨b2, _, _, heq⟩ | ⟨b2, _, _, heq⟩ <;> rw [heq]
      · exact wtdObjFold_handled_mono leaves subjects sid objs _ _ _ x h
      · exact wtdObjFold_handled_mono leaves subjects sid objs _ _ _ x h
      · exact wtdObjFold_handled_mono leaves subjects sid objs _ _ _ x
          (setContains_setInsert_of _ _ _ h)

theorem wtdObjFold_handled_elim (leaves : List String) (subjects : SMap) (sid : String) :
    ∀ (objs : List SerdeValue) (objects : List SerdeValue) (deps : DepMap)
      (handled : List String) (x : String),
    setContains (objs.foldl (wtdObjStep leaves subjects sid)
      (objects, deps, handled)).2.2 x = true →
    setContains handled x = true ∨ setContains leaves x = true
  | [], _, _, _, _, h => Or.inl h
  | obj :: objs, objects, deps, handled, x, h => by
      simp only [List.foldl] at h
      rcases wtdObjStep_cases leaves subjects sid objects deps handled obj with
        ⟨_, heq⟩ | ⟨b2, _, _, heq⟩ | ⟨b2, _, hlf, heq⟩ <;> rw [heq] at h
      · exact wtdObjFold_handled_elim leaves subjects sid objs _ _ _ x h
      · exact wtdObjFold_handled_elim leaves subjects sid objs _ _ _ x h
      · rcases wtdObjFold_handled_elim leaves subjects sid objs _ _ _ x h with h2 | h2
        · rcases setContains_setInsert_elim _ _ _ h2 with h3 | h3
          · exact Or.inl h3
          · rw [h3]
            exact Or.inr hlf
        · exact Or.inr h2

theorem wtdObjFold_handled_of_refs (leaves : List String) (subjects : SMap) (sid : String) :
    ∀ (objs : List SerdeValue) (objects : List SerdeValue) (deps : DepMap)
      (handled : List String) (obj : SerdeValue) (b : String), obj ∈ objs →
      objRefs obj b → setContains leaves b = true →
    setContains (objs.foldl (wtdObjStep leaves subjects sid)
      (objects, deps, handled)).2.2 b = true
  | [], _, _, _, _, _, hm, _, _ => by simp at hm
  | obj0 :: objs, objects, deps, handled, obj, b, hm, hr, hlf => by
      simp only [List.foldl]
      rcases List.mem_cons.mp hm with rfl | hm2
      · rw [wtdObjStep_inline_of_refs leaves subjects sid objects deps handled obj b hr hlf]
        exact wtdObjFold_handled_mono leaves subjects sid objs _ _ _ b
          (setContains_setInsert_self _ _)
      · rcases wtdObjStep_cases leaves subjects sid objects deps handled obj0 with
          ⟨_, heq⟩ | ⟨b2, _, _, heq⟩ | ⟨b2, _, _, heq⟩ <;> rw [heq] <;>
          exact wtdObjFold_handled_of_refs leaves subjects sid objs _ _ _ obj b hm2 hr hlf

theorem wtdObjFold_refs_survive (leaves : List String) (subjects : SMap) (sid : String) :
    ∀ (objs : List SerdeValue) (objects : List SerdeValue) (deps : DepMap)
      (handled : List String) (obj : SerdeValue) (b : String), obj ∈ objs →
      objRefs obj b → setContains leaves b = false →
    obj ∈ (objs.foldl (wtdObjStep leaves subjects sid) (objects, deps, handled)).1
  | [], _, _, _, _, _, hm, _, _ => by simp at hm
  | obj0 :: objs, objects, deps, handled, obj, b, hm, hr, hlf => by
      simp only [List.foldl]
      rcases List.mem_cons.mp hm with rfl | hm2
      · rw [wtdObjStep_dep_of_refs leaves subjects sid objects deps handled obj b hr hlf]
        exact wtdObjFold_objects_mono leaves subjects sid objs _ _ _ obj
          (List.mem_append_right _ (List.mem_singleton.mpr rfl))
      · rcases wtdObjStep_cases leaves subjects sid objects deps handled obj0 with
          ⟨_, heq⟩ | ⟨b2, _, _, heq⟩ | ⟨b2, _, _, heq⟩ <;> rw [heq] <;>
          exact wtdObjFold_refs_survive leaves subjects sid objs _ _ _ obj b hm2 hr hlf

theorem wtdObjFold_deps_elim (leaves : List String) (subjects : SMap) (sid : String) :
    ∀ (objs : List SerdeValue) (objects : List SerdeValue) (deps : DepMap)
      (handled : List String) (s b : String), depKeysSorted deps →
    depContains (objs.foldl (wtdObjStep leaves subjects sid)
      (objects, deps, handled)).2.1 s b = true →
    depContains deps s b = true ∨
      (s = sid ∧ (∃ obj2 ∈ (objs.foldl (wtdObjStep leaves subjects sid)
        (objects, deps, handled)).1, objRefs obj2 b) ∧ setContains leaves b = false)
  | [], _, _, _, _, _, _, h => Or.inl h
  | obj0 :: objs, objects, deps, handled, s, b, hsort, h => by
      simp only [List.foldl] at h ⊢
      rcases wtdObjStep_cases leaves subjects sid objects deps handled obj0 with
        ⟨_, heq⟩ | ⟨b2, hr2, hlf2, heq⟩ | ⟨b2, _, _, heq⟩ <;> rw [heq] at h ⊢
      · exact wtdObjFold_deps_elim leaves subjects sid objs _ _ _ s b hsort h
      · rcases wtdObjFold_deps_elim leaves subjects sid objs _ _ _ s b
          (depKeysSorted_depAdd _ _ _ hsort) h with h2 | h2
        · rcases depContains_depAdd_elim _ _ _ _ _ h2 with h3 | ⟨hs, hb⟩
          · exact Or.inl h3
          · refine Or.inr ⟨hs, ⟨obj0, ?_, ?_⟩, ?_⟩
            · exact wtdObjFold_objects_mono leaves subjects sid objs _ _ _ obj0
                (List.mem_append_right _ (List.mem_singleton.mpr rfl))
            · rw [hb]
              exact hr2
            · rw [hb]
              exact hlf2
        · exact Or.inr h2
      · exact wtdObjFold_deps_elim leaves subjects sid objs _ _ _ s b hsort h

theorem wtdObjFold_deps_complete (leaves : List String) (subjects : SMap) (sid : String)
    (hvals : ∀ kv ∈ subjects, ∃ pm, kv.2 = SerdeValue.obj pm) :
    ∀ (objs : List SerdeValue) (objects : List SerdeValue) (deps : DepMap)
      (handled : List String) (obj2 : SerdeValue) (b : String), depKeysSorted deps →
    obj2 ∈ (objs.foldl (wtdObjStep leaves subjects sid) (objects, deps, handled)).1 →
    objRefs obj2 b → setContains leaves b = false →
    obj2 ∈ objects ∨ depContains (objs.foldl (wtdObjStep leaves subjects sid)
      (objects, deps, handled)).2.1 sid b = true
  | [], _, _, _, _, _, _, hm, _, _ => Or.inl hm
  | obj0 :: objs, objects, deps, handled, obj2, b, hsort, hm, hr, hlf => by
      simp only [List.foldl] at hm ⊢
      rcases wtdObjStep_cases leaves subjects sid objects deps handled obj0 with
        ⟨hnr, heq⟩ | ⟨b2, hr2, hlf2, heq⟩ | ⟨b2, hr2, hlf2, heq⟩ <;> rw [heq] at hm ⊢
      · rcases wtdObjFold_deps_complete leaves subjects sid hvals objs _ _ _ obj2 b
          hsort hm hr hlf with h2 | h2
        · rcases List.mem_append.mp h2 with h3 | h3
          · exact Or.inl h3
          · rw [List.mem_singleton.mp h3] at hr
            exact absurd hr (hnr b)
        · exact Or.inr h2
      · rcases wtdObjFold_deps_complete leaves subjects sid hvals objs _ _ _ obj2 b
          (depKeysSorted_depAdd _ _ _ hsort) hm hr hlf with h2 | h2
        · rcases List.mem_append.mp h2 with h3 | h3
          · exact Or.inl h3
          · rw [List.mem_singleton.mp h3] at hr
            have hb : b = b2 := objRefs_eq obj0 b b2 hr2.1 hr
            rw [hb]
            exact Or.inr (wtdObjFold_deps_mono leaves subjects sid objs _ _ _ sid b2
              (depKeysSorted_depAdd _ _ _ hsort) (depContains_depAdd_self _ _ _))
        · exact Or.inr h2
      · rcases wtdObjFold_deps_complete leaves subjects sid hvals objs _ _ _ obj2 b
          hsort hm hr hlf with h2 | h2
        · rcases List.mem_append.mp h2 with h3 | h3
          · exact Or.inl h3
          · rw [List.mem_singleton.mp h3] at hr
            exact absurd hr (objRefs_inlined_none subjects b2 hvals b)
        · exact Or.inr h2

theorem wtdObjFold_objects_refs (leaves : List String) (subjects : SMap) (sid : String)
    (hvals : ∀ kv ∈ subjects, ∃ pm, kv.2 = SerdeValue.obj pm) :
    ∀ (objs : List SerdeValue) (objects : List SerdeValue) (deps : DepMap)
      (handled : List String) (obj2 : SerdeValue),
    obj2 ∈ (objs.foldl (wtdObjStep leaves subjects sid) (objects, deps, handled)).1 →
    obj2 ∈ objects ∨
      (obj2 ∈ objs ∧ ∀ b, objRefs obj2 b → setContains leaves b = false) ∨
      (∀ b, ¬ objRefs obj2 b)
  | [], _, _, _, _, hm => Or.inl hm
  | obj0 :: objs, objects, deps, handled, obj2, hm => by
      simp only [List.foldl] at hm
      rcases wtdObjStep_cases leaves subjects sid objects deps handled obj0 with
        ⟨hnr, heq⟩ | ⟨b2, hr2, hlf2, heq⟩ | ⟨b2, hr2, hlf2, heq⟩ <;> rw [heq] at hm <;>
        rcases wtdObjFold_objects_refs leaves subjects sid hvals objs _ _ _ obj2 hm with
          h2 | ⟨h2, h3⟩ | h2
      · rcases List.mem_append.mp h2 with h3 | h3
        · exact Or.inl h3
        · rw [List.mem_singleton.mp h3]
          exact Or.inr (Or.inr hnr)
      · exact Or.inr (Or.inl ⟨List.mem_cons_of_mem _ h2, h3⟩)
      · exact Or.inr (Or.inr h2)
      · rcases List.mem_append.mp h2 with h3 | h3
        · exact Or.inl h3
        · rw [List.mem_singleton.mp h3]
          refine Or.inr (Or.inl ⟨List.mem_cons_self _ _, ?_⟩)
          intro b hb
          rw [objRefs_eq obj0 b b2 hr2.1 hb]
          exact hlf2
      · exact Or.inr (Or.inl ⟨List.mem_cons_of_mem _ h2, h3⟩)
      · exact Or.inr (Or.inr h2)
      · rcases List.mem_append.mp h2 with h3 | h3
        · exact Or.inl h3
        · rw [List.mem_singleton.mp h3]
          exact Or.inr (Or.inr (objRefs_inlined_none subjects b2 hvals))
      · exact Or.inr (Or.inl ⟨List.mem_cons_of_mem _ h2, h3⟩)
      · exact Or.inr (Or.inr h2)

theorem wtdPredStep_eq (leaves : List String) (sid : String) (predicates subjects : SMap)
    (deps : DepMap) (handled : List String) (p : String) :
    wtdPredStep leaves sid (predicates, subjects, deps, handled) p =
      (mapInsert predicates p (.arr (sortObjs
        ((pmObjsAt predicates p).foldl (wtdObjStep leaves subjects sid)
          ([], deps, handled)).1)),
       mapInsert subjects sid (.obj (mapInsert predicates p (.arr (sortObjs
        ((pmObjsAt predicates p).foldl (wtdObjStep leaves subjects sid)
          ([], deps, handled)).1)))),
       ((pmObjsAt predicates p).foldl (wtdObjStep leaves subjects sid)
          ([], deps, handled)).2.1,
       ((pmObjsAt predicates p).foldl (wtdObjStep leaves subjects sid)
          ([], deps, handled)).2.2) := rfl

theorem pmRefsAt_iff (pm : SMap) (p b : String) :
    pmRefsAt pm p b ↔ ∃ obj ∈ pmObjsAt pm p, objRefs obj b := by
  constructor
  · rintro ⟨objs, obj, hget, hmem, hr⟩
    refine ⟨obj, ?_, hr⟩
    rw [pmObjsAt, hget]
    exact hmem
  · rintro ⟨obj, hmem, hr⟩
    rw [pmObjsAt] at hmem
    cases hg : mapGet pm p with
    | none => rw [hg] at hmem; simp at hmem
    | some val =>
        cases val with
        | arr v =>
            rw [hg] at hmem
            exact ⟨v, obj, hg, hmem, hr⟩
        | str s => rw [hg] at hmem; simp at hmem
        | obj m => rw [hg] at hmem; simp at hmem

theorem mapContains_mapInsert_eq_of_contains (m : SMap) (k x : String) (v : SerdeValue)
    (hc : mapContains m k = true) :
    mapContains (mapInsert m k v) x = mapContains m x := by
  cases hx : mapContains m x with
  | true => exact mapContains_mapInsert_of m k x v hx
  | false =>
      cases hy : mapContains (mapInsert m k v) x with
      | false => rfl
      | true =>
          rcases mapContains_mapInsert_elim m k x v hy with rfl | h2
          · rw [hc] at hx
            exact hx
          · rw [h2] at hx
            exact hx

theorem wtdPredStep_subj_get_ne (leaves : List String) (sid : String)
    (predicates subjects : SMap) (deps : DepMap) (handled : List String) (p : String)
    (x : String) (hx : x ≠ sid) :
    mapGet (wtdPredStep leaves sid (predicates, subjects, deps, handled) p).2.1 x =
      mapGet subjects x := by
  rw [wtdPredStep_eq]
  exact mapGet_mapInsert_ne _ _ _ _ hx

theorem wtdPredStep_subj_get_self (leaves : List String) (sid : String)
    (predicates subjects : SMap) (deps : DepMap) (handled : List String) (p : String) :
    mapGet (wtdPredStep leaves sid (predicates, subjects, deps, handled) p).2.1 sid =
      some (.obj (wtdPredStep leaves sid (predicates, subjects, deps, handled) p).1) := by
  rw [wtdPredStep_eq]
  exact mapGet_mapInsert_self _ _ _

theorem wtdPredStep_contains (leaves : List String) (sid : String)
    (predicates subjects : SMap) (deps : DepMap) (handled : List String) (p : String)
    (hc : mapContains subjects sid = true) (x : String) :
    mapContains (wtdPredStep leaves sid (predicates, subjects, deps, handled) p).2.1 x =
      mapContains subjects x := by
  rw [wtdPredStep_eq]
  exact mapContains_mapInsert_eq_of_contains _ _ _ _ hc

theorem wtdPredStep_length (leaves : List String) (sid : String)
    (predicates subjects : SMap) (deps : DepMap) (handled : List String) (p : String)
    (hsorted : keysSorted subjects) (hc : mapContains subjects sid = true) :
    (wtdPredStep leaves sid (predicates, subjects, deps, handled) p).2.1.length =
      subjects.length := by
  rw [wtdPredStep_eq]
  exact length_mapInsert_of_contains _ _ _ hsorted hc

theorem wtdPredStep_valuesObj (leaves : List String) (sid : String)
    (predicates subjects : SMap) (deps : DepMap) (handled : List String) (p : String)
    (hvals : ∀ kv ∈ subjects, ∃ pm, kv.2 = SerdeValue.obj pm) :
    ∀ kv ∈ (wtdPredStep leaves sid (predicates, subjects, deps, handled) p).2.1,
      ∃ pm, kv.2 = SerdeValue.obj pm := by
  rw [wtdPredStep_eq]
  intro kv hkv
  rcases mem_mapInsert _ _ _ _ hkv with rfl | h2
  · exact ⟨_, rfl⟩
  · exact hvals kv h2

theorem wtdPredStep_keysSorted (leaves : List String) (sid : String)
    (predicates subjects : SMap) (deps : DepMap) (handled : List String) (p : String)
    (hsorted : keysSorted subjects) :
    keysSorted (wtdPredStep leaves sid (predicates, subjects, deps, handled) p).2.1 := by
  rw [wtdPredStep_eq]
  exact keysSorted_mapInsert _ _ _ hsorted

theorem wtdPredStep_refsAt_elim (leaves : List String) (sid : String)
    (predicates subjects : SMap) (deps : DepMap) (handled : List String) (p : String)
    (hvals : ∀ kv ∈ subjects, ∃ pm, kv.2 = SerdeValue.obj pm)
    (hds : depKeysSorted deps) (q b : String)
    (h : pmRefsAt (wtdPredStep leaves sid (predicates, subjects, deps, handled) p).1 q b) :
    pmRefsAt predicates q b ∧ (q = p →
      setContains leaves b = false ∧
      depContains (wtdPredStep leaves sid
        (predicates, subjects, deps, handled) p).2.2.1 sid b = true) := by
  rw [wtdPredStep_eq] at h ⊢
  by_cases hq : q = p
  · subst hq
    rcases h with ⟨objs, obj, hget, hmem, hr⟩
    rw [mapGet_mapInsert_self] at hget
    have hobjs : objs = sortObjs ((pmObjsAt predicates q).foldl
        (wtdObjStep leaves subjects sid) ([], deps, handled)).1 :=
      (SerdeValue.arr.inj (Option.some.inj hget)).symm
    rw [hobjs] at hmem
    have hmem2 := mem_sortObjs _ _ hmem
    have hshape := wtdObjFold_objects_refs leaves subjects sid hvals
      (pmObjsAt predicates q) [] deps handled obj hmem2
    rcases hshape with h2 | ⟨h2, h3⟩ | h2
    · simp at h2
    · have hlf := h3 b hr
      have hdep := wtdObjFold_deps_complete leaves subjects sid hvals
        (pmObjsAt predicates q) [] deps handled obj b hds hmem2 hr hlf
      rcases hdep with h4 | h4
      · simp at h4
      · exact ⟨(pmRefsAt_iff predicates q b).mpr ⟨obj, h2, hr⟩, fun _ => ⟨hlf, h4⟩⟩
    · exact absurd hr (h2 b)
  · rcases h with ⟨objs, obj, hget, hmem, hr⟩
    rw [mapGet_mapInsert_ne _ _ _ _ hq] at hget
    exact ⟨⟨objs, obj, hget, hmem, hr⟩, fun hh => absurd hh hq⟩

theorem wtdPredStep_refs_survive (leaves : List String) (sid : String)
    (predicates subjects : SMap) (deps : DepMap) (handled : List String) (p : String)
    (b : String) (hlf : setContains leaves b = false) (q : String)
    (h : pmRefsAt predicates q b) :
    pmRefs (wtdPredStep leaves sid (predicates, subjects, deps, handled) p).1 b := by
  rw [wtdPredStep_eq]
  by_cases hq : q = p
  · subst hq
    rcases (pmRefsAt_iff predicates q b).mp h with ⟨obj, hmem, hr⟩
    refine ⟨q, ?_⟩
    refine ⟨_, obj, mapGet_mapInsert_self _ _ _, ?_, hr⟩
    rw [List.Perm.mem_iff (sortObjs_perm _)]
    exact wtdObjFold_refs_survive leaves subjects sid _ [] deps handled obj b hmem hr hlf
  · refine ⟨q, ?_⟩
    rcases h with ⟨objs, obj, hget, hmem, hr⟩
    refine ⟨objs, obj, ?_, hmem, hr⟩
    rw [mapGet_mapInsert_ne _ _ _ _ hq]
    exact hget

theorem wtdPredStep_deps_mono (leaves : List String) (sid : String)
    (predicates subjects : SMap) (deps : DepMap) (handled : List String) (p : String)
    (hds : depKeysSorted deps) (s b : String) (h : depContains deps s b = true) :
    depContains (wtdPredStep leaves sid
      (predicates, subjects, deps, handled) p).2.2.1 s b = true := by
  rw [wtdPredStep_eq]
  exact wtdObjFold_deps_mono leaves subjects sid _ [] deps handled s b hds h

theorem wtdPredStep_deps_sorted (leaves : List String) (sid : String)
    (predicates subjects : SMap) (deps : DepMap) (handled : List String) (p : String)
    (hds : depKeysSorted deps) :
    depKeysSorted (wtdPredStep leaves sid
      (predicates, subjects, deps, handled) p).2.2.1 := by
  rw [wtdPredStep_eq]
  exact wtdObjFold_deps_sorted leaves subjects sid _ [] deps handled hds

theorem wtdPredStep_deps_elim (leaves : List String) (sid : String)
    (predicates subjects : SMap) (deps : DepMap) (handled : List String) (p : String)
    (hds : depKeysSorted deps) (s b : String)
    (h : depContains (wtdPredStep leaves sid
      (predicates, subjects, deps, handled) p).2.2.1 s b = true) :
    depContains deps s b = true ∨
      (s = sid ∧ pmRefsAt (wtdPredStep leaves sid
        (predicates, subjects, deps, handled) p).1 p b ∧
       setContains leaves b = false) := by
  rw [wtdPredStep_eq] at h ⊢
  rcases wtdObjFold_deps_elim leaves subjects sid _ [] deps handled s b hds h with
    h2 | ⟨hs, ⟨obj2, hmem, hr⟩, hlf⟩
  · exact Or.inl h2
  · refine Or.inr ⟨hs, ?_, hlf⟩
    refine ⟨_, obj2, mapGet_mapInsert_self _ _ _, ?_, hr⟩
    rw [List.Perm.mem_iff (sortObjs_perm _)]
    exact hmem

theorem wtdPredStep_handled_mono (leaves : List String) (sid : String)
    (predicates subjects : SMap) (deps : DepMap) (handled : List String) (p : String)
    (x : String) (h : setContains handled x = true) :
    setContains (wtdPredStep leaves sid
      (predicates, subjects, deps, handled) p).2.2.2 x = true := by
  rw [wtdPredStep_eq]
  exact wtdObjFold_handled_mono leaves subjects sid _ [] deps handled x h

theorem wtdPredStep_handled_elim (leaves : List String) (sid : String)
    (predicates subjects : SMap) (deps : DepMap) (handled : List String) (p : String)
    (x : String)
    (h : setContains (wtdPredStep leaves sid
      (predicates, subjects, deps, handled) p).2.2.2 x = true) :
    setContains handled x = true ∨ setContains leaves x = true := by
  rw [wtdPredStep_eq] at h
  exact wtdObjFold_handled_elim leaves subjects sid _ [] deps handled x h

theorem wtdPredStep_handled_of_refs (leaves : List String) (sid : String)
    (predicates subjects : SMap) (deps : DepMap) (handled : List String) (p : String)
    (b : String) (h : pmRefsAt predicates p b) (hlf : setContains leaves b = true) :
    setContains (wtdPredStep leaves sid
      (predicates, subjects, deps, handled) p).2.2.2 b = true := by
  rw [wtdPredStep_eq]
  rcases (pmRefsAt_iff predicates p b).mp h with ⟨obj, hmem, hr⟩
  exact wtdObjFold_handled_of_refs leaves subjects sid _ [] deps handled obj b hmem hr hlf

theorem wtdPredStep_leaf_refs (leaves : List String) (sid : String)
    (predicates subjects : SMap) (deps : DepMap) (handled : List String) (p : String)
    (hvals : ∀ kv ∈ subjects, ∃ pm, kv.2 = SerdeValue.obj pm) (q b : String)
    (h : pmRefsAt (wtdPredStep leaves sid (predicates, subjects, deps, handled) p).1 q b)
    (hlf : setContains leaves b = true) :
    ¬ q = p ∧ pmRefsAt predicates q b := by
  rw [wtdPredStep_eq] at h
  by_cases hq : q = p
  · exfalso
    subst hq
    rcases h with ⟨objs, obj, hget, hmem, hr⟩
    rw [mapGet_mapInsert_self] at hget
    have hobjs : objs = sortObjs ((pmObjsAt predicates q).foldl
        (wtdObjStep leaves subjects sid) ([], deps, handled)).1 :=
      (SerdeValue.arr.inj (Option.some.inj hget)).symm
    rw [hobjs] at hmem
    have hmem2 := mem_sortObjs _ _ hmem
    rcases wtdObjFold_objects_refs leaves subjects sid hvals
        (pmObjsAt predicates q) [] deps handled obj hmem2 with h2 | ⟨h2, h3⟩ | h2
    · simp at h2
    · rw [h3 b hr] at hlf
      exact Bool.false_ne_true hlf
    · exact absurd hr (h2 b)
  · rcases h with ⟨objs, obj, hget, hmem, hr⟩
    rw [mapGet_mapInsert_ne _ _ _ _ hq] at hget
    exact ⟨hq, objs, obj, hget, hmem, hr⟩

theorem wtdPredStep_refsAt_ne (leaves : List String) (sid : String)
    (predicates subjects : SMap) (deps : DepMap) (handled : List String) (p : String)
    (q b : String) (hq : ¬ q = p) :
    pmRefsAt (wtdPredStep leaves sid (predicates, subjects, deps, handled) p).1 q b ↔
      pmRefsAt predicates q b := by
  rw [wtdPredStep_eq]
  constructor
  · rintro ⟨objs, obj, hget, hmem, hr⟩
    rw [mapGet_mapInsert_ne _ _ _ _ hq] at hget
    exact ⟨objs, obj, hget, hmem, hr⟩
  · rintro ⟨objs, obj, hget, hmem, hr⟩
    refine ⟨objs, obj, ?_, hmem, hr⟩
    rw [mapGet_mapInsert_ne _ _ _ _ hq]
    exact hget

theorem wtdPredFold_maps (leaves : List String) (sid : String) :
    ∀ (ks : List String) (predicates subjects : SMap) (deps : DepMap)
      (handled : List String),
    (∀ kv ∈ subjects, ∃ pm, kv.2 = SerdeValue.obj pm) →
    depKeysSorted deps → keysSorted subjects → mapContains subjects sid = true →
    (∀ x, ¬ x = sid →
      mapGet (wtdPredFold leaves sid ks (predicates, subjects, deps, handled)).2.1 x =
        mapGet subjects x) ∧
    (∀ x, mapContains
        (wtdPredFold leaves sid ks (predicates, subjects, deps, handled)).2.1 x =
      mapContains subjects x) ∧
    (wtdPredFold leaves sid ks (predicates, subjects, deps, handled)).2.1.length =
      subjects.length ∧
    (∀ kv ∈ (wtdPredFold leaves sid ks (predicates, subjects, deps, handled)).2.1,
      ∃ pm, kv.2 = SerdeValue.obj pm) ∧
    keysSorted (wtdPredFold leaves sid ks (predicates, subjects, deps, handled)).2.1 ∧
    depKeysSorted
      (wtdPredFold leaves sid ks (predicates, subjects, deps, handled)).2.2.1 ∧
    (wtdPredFold leaves sid ks (predicates, subjects, deps, handled) =
        (predicates, subjects, deps, handled) ∨
      mapGet (wtdPredFold leaves sid ks (predicates, subjects, deps, handled)).2.1 sid =
        some (.obj (wtdPredFold leaves sid ks (predicates, subjects, deps, handled)).1))
  | [], predicates, subjects, deps, handled, hvals, hds, hsorted, hc =>
      ⟨fun _ _ => rfl, fun _ => rfl, rfl, hvals, hsorted, hds, Or.inl rfl⟩
  | p :: ks, predicates, subjects, deps, handled, hvals, hds, hsorted, hc => by
      rcases hB' : wtdPredStep leaves sid (predicates, subjects, deps, handled) p with
        ⟨pre', sub', dep', han'⟩
      have hvals' : ∀ kv ∈ sub', ∃ pm, kv.2 = SerdeValue.obj pm := by
        have := wtdPredStep_valuesObj leaves sid predicates subjects deps handled p hvals
        rw [hB'] at this
        exact this
      have hds' : depKeysSorted dep' := by
        have := wtdPredStep_deps_sorted leaves sid predicates subjects deps handled p hds
        rw [hB'] at this
        exact this
      have hsorted' : keysSorted sub' := by
        have := wtdPredStep_keysSorted leaves sid predicates subjects deps handled p hsorted
        rw [hB'] at this
        exact this
      have hcont : ∀ x, mapContains sub' x = mapContains subjects x := by
        intro x
        have := wtdPredStep_contains leaves sid predicates subjects deps handled p hc x
        rw [hB'] at this
        exact this
      have hc' : mapContains sub' sid = true := by rw [hcont sid]; exact hc
      have hgetne : ∀ x, ¬ x = sid → mapGet sub' x = mapGet subjects x := by
        intro x hx
        have := wtdPredStep_subj_get_ne leaves sid predicates subjects deps handled p x hx
        rw [hB'] at this
        exact this
      have hlen : sub'.length = subjects.length := by
        have := wtdPredStep_length leaves sid predicates subjects deps handled p hsorted hc
        rw [hB'] at this
        exact this
      have hself : mapGet sub' sid = some (.obj pre') := by
        have := wtdPredStep_subj_get_self leaves sid predicates subjects deps handled p
        rw [hB'] at this
        exact this
      have IH := wtdPredFold_maps leaves sid ks pre' sub' dep' han' hvals' hds' hsorted' hc'
      simp only [wtdPredFold, List.foldl] at IH ⊢
      rw [hB']
      obtain ⟨ih1, ih2, ih3, ih4, ih5, ih6, ih7⟩ := IH
      refine ⟨?_, ?_, ?_, ih4, ih5, ih6, ?_⟩
      · intro x hx
        rw [ih1 x hx]
        exact hgetne x hx
      · intro x
        rw [ih2 x]
        exact hcont x
      · rw [ih3]
        exact hlen
      · rcases ih7 with heq | hg
        · rw [heq]
          exact Or.inr hself
        · exact Or.inr hg

theorem wtdPredFold_refs (leaves : List String) (sid : String) :
    ∀ (ks : List String) (predicates subjects : SMap) (deps : DepMap)
      (handled : List String),
    (∀ kv ∈ subjects, ∃ pm, kv.2 = SerdeValue.obj pm) →
    depKeysSorted deps →
    (∀ b, pmRefs (wtdPredFold leaves sid ks (predicates, subjects, deps, handled)).1 b →
      pmRefs predicates b) ∧
    (∀ q b, pmRefsAt (wtdPredFold leaves sid ks
        (predicates, subjects, deps, handled)).1 q b →
      setContains leaves b = true → pmRefsAt predicates q b ∧ ¬ q ∈ ks) ∧
    (∀ q b, pmRefsAt (wtdPredFold leaves sid ks
        (predicates, subjects, deps, handled)).1 q b →
      setContains leaves b = false →
      depContains (wtdPredFold leaves sid ks
        (predicates, subjects, deps, handled)).2.2.1 sid b = true ∨
        (pmRefsAt predicates q b ∧ ¬ q ∈ ks)) ∧
    (∀ s b, depContains (wtdPredFold leaves sid ks
        (predicates, subjects, deps, handled)).2.2.1 s b = true →
      depContains deps s b = true ∨
        (s = sid ∧ pmRefs (wtdPredFold leaves sid ks
          (predicates, subjects, deps, handled)).1 b ∧ setContains leaves b = false)) ∧
    (∀ s b, depContains deps s b = true →
      depContains (wtdPredFold leaves sid ks
        (predicates, subjects, deps, handled)).2.2.1 s b = true) ∧
    (∀ b, setContains leaves b = false → pmRefs predicates b →
      pmRefs (wtdPredFold leaves sid ks (predicates, subjects, deps, handled)).1 b)
  | [], predicates, subjects, deps, handled, hvals, hds =>
      ⟨fun _ h => h,
       fun q b h _ => ⟨h, List.not_mem_nil q⟩,
       fun q b h _ => Or.inr ⟨h, List.not_mem_nil q⟩,
       fun _ _ h => Or.inl h,
       fun _ _ h => h,
       fun _ _ h => h⟩
  | p :: ks, predicates, subjects, deps, handled, hvals, hds => by
      rcases hB' : wtdPredStep leaves sid (predicates, subjects, deps, handled) p with
        ⟨pre', sub', dep', han'⟩
      have hvals' : ∀ kv ∈ sub', ∃ pm, kv.2 = SerdeValue.obj pm := by
        have := wtdPredStep_valuesObj leaves sid predicates subjects deps handled p hvals
        rw [hB'] at this
        exact this
      have hds' : depKeysSorted dep' := by
        have := wtdPredStep_deps_sorted leaves sid predicates subjects deps handled p hds
        rw [hB'] at this
        exact this
      have hElim : ∀ q b, pmRefsAt pre' q b → pmRefsAt predicates q b ∧
          (q = p → setContains leaves b = false ∧ depContains dep' sid b = true) := by
        intro q b h
        have h2 : pmRefsAt (wtdPredStep leaves sid
            (predicates, subjects, deps, handled) p).1 q b := by
          rw [hB']
          exact h
        have := wtdPredStep_refsAt_elim leaves sid predicates subjects deps handled p
          hvals hds q b h2
        rw [hB'] at this
        exact this
      have hLeaf : ∀ q b, pmRefsAt pre' q b → setContains leaves b = true →
          ¬ q = p ∧ pmRefsAt predicates q b := by
        intro q b h hlf
        have h2 : pmRefsAt (wtdPredStep leaves sid
            (predicates, subjects, deps, handled) p).1 q b := by
          rw [hB']
          exact h
        exact wtdPredStep_leaf_refs leaves sid predicates subjects deps handled p
          hvals q b h2 hlf
      have hNe : ∀ q b, ¬ q = p → (pmRefsAt pre' q b ↔ pmRefsAt predicates q b) := by
        intro q b hq
        have := wtdPredStep_refsAt_ne leaves sid predicates subjects deps handled p q b hq
        rw [hB'] at this
        exact this
      have hDepElim : ∀ s b, depContains dep' s b = true →
          depContains deps s b = true ∨
            (s = sid ∧ pmRefsAt pre' p b ∧ setContains leaves b = false) := by
        intro s b h
        have h2 : depContains (wtdPredStep leaves sid
            (predicates, subjects, deps, handled) p).2.2.1 s b = true := by
          rw [hB']
          exact h
        have := wtdPredStep_deps_elim leaves sid predicates subjects deps handled p
          hds s b h2
        rw [hB'] at this
        exact this
      have hDepMono : ∀ s b, depContains deps s b = true →
          depContains dep' s b = true := by
        intro s b h
        have := wtdPredStep_deps_mono leaves sid predicates subjects deps handled p
          hds s b h
        rw [hB'] at this
        exact this
      have hSurv : ∀ q b, setContains leaves b = false → pmRefsAt predicates q b →
          pmRefs pre' b := by
        intro q b hlf h
        have := wtdPredStep_refs_survive leaves sid predicates subjects deps handled p
          b hlf q h
        rw [hB'] at this
        exact this
      have IH := wtdPredFold_refs leaves sid ks pre' sub' dep' han' hvals' hds'
      simp only [wtdPredFold, List.foldl] at IH ⊢
      rw [hB']
      obtain ⟨ih1, ih2, ih3, ih4, ih5, ih6⟩ := IH
      refine ⟨?_, ?_, ?_, ?_, ?_, ?_⟩
      · intro b h
        rcases ih1 b h with ⟨q, hq⟩
        exact ⟨q, (hElim q b hq).1⟩
      · intro q b h hlf
        obtain ⟨h2, hnotin⟩ := ih2 q b h hlf
        obtain ⟨hqp, h3⟩ := hLeaf q b h2 hlf
        refine ⟨h3, ?_⟩
        intro hmem
        rcases List.mem_cons.mp hmem with rfl | hmem2
        · exact hqp rfl
        · exact hnotin hmem2
      · intro q b h hlf
        rcases ih3 q b h hlf with h2 | ⟨h2, hnotin⟩
        · exact Or.inl h2
        · by_cases hqp : q = p
          · subst hqp
            obtain ⟨_, h3⟩ := hElim q b h2
            exact Or.inl (ih5 sid b (h3 rfl).2)
          · refine Or.inr ⟨((hNe q b hqp).mp h2), ?_⟩
            intro hmem
            rcases List.mem_cons.mp hmem with rfl | hmem2
            · exact hqp rfl
            · exact hnotin hmem2
      · intro s b h
        rcases ih4 s b h with h2 | h2
        · rcases hDepElim s b h2 with h3 | ⟨hs, h3, hlf⟩
          · exact Or.inl h3
          · exact Or.inr ⟨hs, ih6 b hlf ⟨p, h3⟩, hlf⟩
        · exact Or.inr h2
      · intro s b h
        exact ih5 s b (hDepMono s b h)
      · intro b hlf h
        rcases h with ⟨q, hq⟩
        exact ih6 b hlf (hSurv q b hlf hq)

theorem wtdPredFold_handled (leaves : List String) (sid : String) :
    ∀ (ks : List String) (predicates subjects : SMap) (deps : DepMap)
      (handled : List String),
    (∀ x, setContains handled x = true →
      setContains (wtdPredFold leaves sid ks
        (predicates, subjects, deps, handled)).2.2.2 x = true) ∧
    (∀ x, setContains (wtdPredFold leaves sid ks
        (predicates, subjects, deps, handled)).2.2.2 x = true →
      setContains handled x = true ∨ setContains leaves x = true) ∧
    (∀ b, setContains leaves b = true → (∃ q ∈ ks, pmRefsAt predicates q b) →
      setContains (wtdPredFold leaves sid ks
        (predicates, subjects, deps, handled)).2.2.2 b = true)
  | [], predicates, subjects, deps, handled =>
      ⟨fun _ h => h, fun _ h => Or.inl h,
       fun b _ h => by
        rcases h with ⟨q, hq, _⟩
        exact absurd hq (List.not_mem_nil q)⟩
  | p :: ks, predicates, subjects, deps, handled => by
      rcases hB' : wtdPredStep leaves sid (predicates, subjects, deps, handled) p with
        ⟨pre', sub', dep', han'⟩
      have hHanMono : ∀ x, setContains handled x = true → setContains han' x = true := by
        intro x h
        have := wtdPredStep_handled_mono leaves sid predicates subjects deps handled p x h
        rw [hB'] at this
        exact this
      have hHanElim : ∀ x, setContains han' x = true →
          setContains handled x = true ∨ setContains leaves x = true := by
        intro x h
        have h2 : setContains (wtdPredStep leaves sid
            (predicates, subjects, deps, handled) p).2.2.2 x = true := by
          rw [hB']
          exact h
        exact wtdPredStep_handled_elim leaves sid predicates subjects deps handled p x h2
      have hHanRefs : ∀ b, pmRefsAt predicates p b → setContains leaves b = true →
          setContains han' b = true := by
        intro b h hlf
        have := wtdPredStep_handled_of_refs leaves sid predicates subjects deps handled p
          b h hlf
        rw [hB'] at this
        exact this
      have hNe : ∀ q b, ¬ q = p → (pmRefsAt pre' q b ↔ pmRefsAt predicates q b) := by
        intro q b hq
        have := wtdPredStep_refsAt_ne leaves sid predicates subjects deps handled p q b hq
        rw [hB'] at this
        exact this
      have IH := wtdPredFold_handled leaves sid ks pre' sub' dep' han'
      simp only [wtdPredFold, List.foldl] at IH ⊢
      rw [hB']
      obtain ⟨ih1, ih2, ih3⟩ := IH
      refine ⟨?_, ?_, ?_⟩
      · intro x h
        exact ih1 x (hHanMono x h)
      · intro x h
        rcases ih2 x h with h2 | h2
        · exact hHanElim x h2
        · exact Or.inr h2
      · intro b hlf h
        rcases h with ⟨q, hq, href⟩
        by_cases hqp : q = p
        · subst hqp
          exact ih1 b (hHanRefs b href hlf)
        · rcases List.mem_cons.mp hq with rfl | hq2
          · exact absurd rfl hqp
          · exact ih3 b hlf ⟨q, hq2, (hNe q b hqp).mpr href⟩

theorem mapGet_some_of_contains (m : SMap) (k : String) (h : mapContains m k = true) :
    ∃ v, mapGet m k = some v := by
  induction m with
  | nil => simp [mapContains] at h
  | cons hd tl ih =>
      simp only [mapContains] at h
      simp only [mapGet]
      by_cases hk : k = hd.1
      · rw [if_pos hk]
        exact ⟨hd.2, rfl⟩
      · rw [if_neg hk] at h
        rw [if_neg hk]
        exact ih h

theorem wtdSubjStep_eq (leaves : List String) (subjects : SMap) (deps : DepMap)
    (handled : List String) (sid : String) :
    wtdSubjStep leaves (subjects, deps, handled) sid =
      ((wtdPredFold leaves sid (mapKeys (pmOf subjects sid))
        (pmOf subjects sid, subjects, deps, handled)).2.1,
       (wtdPredFold leaves sid (mapKeys (pmOf subjects sid))
        (pmOf subjects sid, subjects, deps, handled)).2.2.1,
       (wtdPredFold leaves sid (mapKeys (pmOf subjects sid))
        (pmOf subjects sid, subjects, deps, handled)).2.2.2) := rfl

theorem wtdSubjStep_spec (leaves : List String) (subjects : SMap) (deps : DepMap)
    (handled : List String) (sid : String)
    (hvals : ∀ kv ∈ subjects, ∃ pm, kv.2 = SerdeValue.obj pm)
    (hds : depKeysSorted deps) (hsorted : keysSorted subjects)
    (hc : mapContains subjects sid = true) :
    (∀ x, ¬ x = sid →
      mapGet (wtdSubjStep leaves (subjects, deps, handled) sid).1 x =
        mapGet subjects x) ∧
    (∀ x, mapContains (wtdSubjStep leaves (subjects, deps, handled) sid).1 x =
      mapContains subjects x) ∧
    (wtdSubjStep leaves (subjects, deps, handled) sid).1.length = subjects.length ∧
    (∀ kv ∈ (wtdSubjStep leaves (subjects, deps, handled) sid).1,
      ∃ pm, kv.2 = SerdeValue.obj pm) ∧
    keysSorted (wtdSubjStep leaves (subjects, deps, handled) sid).1 ∧
    depKeysSorted (wtdSubjStep leaves (subjects, deps, handled) sid).2.1 ∧
    (∀ b, subjRefs (wtdSubjStep leaves (subjects, deps, handled) sid).1 sid b →
      subjRefs subjects sid b) ∧
    (∀ b, subjRefs (wtdSubjStep leaves (subjects, deps, handled) sid).1 sid b →
      setContains leaves b = false) ∧
    (∀ b, subjRefs (wtdSubjStep leaves (subjects, deps, handled) sid).1 sid b →
      depContains (wtdSubjStep leaves (subjects, deps, handled) sid).2.1 sid b = true) ∧
    (∀ s b, depContains (wtdSubjStep leaves (subjects, deps, handled) sid).2.1 s b
        = true →
      depContains deps s b = true ∨
        (s = sid ∧ subjRefs (wtdSubjStep leaves (subjects, deps, handled) sid).1 sid b ∧
          setContains leaves b = false)) ∧
    (∀ s b, depContains deps s b = true →
      depContains (wtdSubjStep leaves (subjects, deps, handled) sid).2.1 s b = true) ∧
    (∀ x, setContains handled x = true →
      setContains (wtdSubjStep leaves (subjects, deps, handled) sid).2.2 x = true) ∧
    (∀ x, setContains (wtdSubjStep leaves (subjects, deps, handled) sid).2.2 x = true →
      setContains handled x = true ∨ setContains leaves x = true) ∧
    (∀ b, subjRefs subjects sid b → setContains leaves b = true →
      setContains (wtdSubjStep leaves (subjects, deps, handled) sid).2.2 b = true) ∧
    (∀ b, subjRefs subjects sid b → setContains leaves b = false →
      subjRefs (wtdSubjStep leaves (subjects, deps, handled) sid).1 sid b) := by
  rw [wtdSubjStep_eq]
  obtain ⟨a1, a2, a3, a4, a5, a6, a7⟩ :=
    wtdPredFold_maps leaves sid (mapKeys (pmOf subjects sid)) (pmOf subjects sid)
      subjects deps handled hvals hds hsorted hc
  obtain ⟨b1, b2, b3, b4, b5, b6⟩ :=
    wtdPredFold_refs leaves sid (mapKeys (pmOf subjects sid)) (pmOf subjects sid)
      subjects deps handled hvals hds
  obtain ⟨c1, c2, c3⟩ :=
    wtdPredFold_handled leaves sid (mapKeys (pmOf subjects sid)) (pmOf subjects sid)
      subjects deps handled
  have hEntry : ∀ pm', mapGet (wtdPredFold leaves sid (mapKeys (pmOf subjects sid))
      (pmOf subjects sid, subjects, deps, handled)).2.1 sid = some (.obj pm') →
      pm' = (wtdPredFold leaves sid (mapKeys (pmOf subjects sid))
        (pmOf subjects sid, subjects, deps, handled)).1 := by
    intro pm' hget
    rcases a7 with heq | hself
    · rw [heq] at hget ⊢
      have hget2 : mapGet subjects sid = some (.obj pm') := hget
      show pm' = pmOf subjects sid
      simp [pmOf, hget2]
    · rw [hself] at hget
      exact (SerdeValue.obj.inj (Option.some.inj hget)).symm
  have hRefsF : ∀ b, subjRefs (wtdPredFold leaves sid (mapKeys (pmOf subjects sid))
      (pmOf subjects sid, subjects, deps, handled)).2.1 sid b →
      pmRefs (wtdPredFold leaves sid (mapKeys (pmOf subjects sid))
        (pmOf subjects sid, subjects, deps, handled)).1 b := by
    rintro b ⟨pm', hget, hr⟩
    rw [hEntry pm' hget] at hr
    exact hr
  have hRefs0 : ∀ b, subjRefs subjects sid b → pmRefs (pmOf subjects sid) b := by
    rintro b ⟨pm, hget, hr⟩
    simp only [pmOf, hget]
    exact hr
  have hGetF : ∀ b, pmRefs (wtdPredFold leaves sid (mapKeys (pmOf subjects sid))
      (pmOf subjects sid, subjects, deps, handled)).1 b →
      mapGet (wtdPredFold leaves sid (mapKeys (pmOf subjects sid))
        (pmOf subjects sid, subjects, deps, handled)).2.1 sid =
      some (.obj (wtdPredFold leaves sid (mapKeys (pmOf subjects sid))
        (pmOf subjects sid, subjects, deps, handled)).1) := by
    intro b hr
    rcases a7 with heq | hself
    · rw [heq] at hr ⊢
      have hr2 : pmRefs (pmOf subjects sid) b := hr
      show mapGet subjects sid = some (.obj (pmOf subjects sid))
      rcases hr2 with ⟨q2, q2objs, q2obj, hq2get, _, _⟩
      cases hg : mapGet subjects sid with
      | none =>
          exfalso
          simp only [pmOf, hg] at hq2get
          simp [mapGet] at hq2get
      | some v =>
          cases v with
          | obj pm =>
              simp only [pmOf, hg]
          | str s =>
              exfalso
              simp only [pmOf, hg] at hq2get
              simp [mapGet] at hq2get
          | arr l =>
              exfalso
              simp only [pmOf, hg] at hq2get
              simp [mapGet] at hq2get
    · exact hself
  have hLeafFalse : ∀ b, subjRefs (wtdPredFold leaves sid (mapKeys (pmOf subjects sid))
      (pmOf subjects sid, subjects, deps, handled)).2.1 sid b →
      setContains leaves b = false := by
    intro b hr
    cases hlf : setContains leaves b with
    | false => rfl
    | true =>
        exfalso
        rcases hRefsF b hr with ⟨q, hq⟩
        obtain ⟨h2, hnotin⟩ := b2 q b hq hlf
        rcases h2 with ⟨objs, obj, hget2, _, _⟩
        exact hnotin (mem_mapKeys_of_mapGet _ _ _ hget2)
  refine ⟨?_, ?_, ?_, a4, a5, a6, ?_, hLeafFalse, ?_, ?_, b5, c1, c2, ?_, ?_⟩
  · intro x hx
    exact a1 x hx
  · intro x
    exact a2 x
  · exact a3
  · intro b hr
    rcases hRefsF b hr with ⟨q, hq⟩
    have h2 := (b1 b ⟨q, hq⟩)
    rcases h2 with ⟨q2, hq2⟩
    rcases hq2 with ⟨objs, obj, hget2, hmem2, hr2⟩
    cases hg : mapGet subjects sid with
    | none =>
        exfalso
        simp only [pmOf, hg] at hget2
        simp [mapGet] at hget2
    | some v =>
        cases v with
        | obj pm =>
            refine ⟨pm, hg, ⟨q2, objs, obj, ?_, hmem2, hr2⟩⟩
            simp only [pmOf, hg] at hget2
            exact hget2
        | str s =>
            exfalso
            simp only [pmOf, hg] at hget2
            simp [mapGet] at hget2
        | arr l =>
            exfalso
            simp only [pmOf, hg] at hget2
            simp [mapGet] at hget2
  · intro b hr
    have hlf := hLeafFalse b hr
    rcases hRefsF b hr with ⟨q, hq⟩
    rcases b3 q b hq hlf with h2 | ⟨h2, hnotin⟩
    · exact h2
    · exfalso
      rcases h2 with ⟨objs, obj, hget2, _, _⟩
      exact hnotin (mem_mapKeys_of_mapGet _ _ _ hget2)
  · intro s b h
    rcases b4 s b h with h2 | ⟨hs, h2, hlf⟩
    · exact Or.inl h2
    · exact Or.inr ⟨hs, ⟨_, hGetF b h2, h2⟩, hlf⟩
  · intro b hr hlf
    rcases hRefs0 b hr with ⟨q, hq⟩
    rcases hq with ⟨objs, obj, hget2, hmem2, hr2⟩
    exact c3 b hlf ⟨q, mem_mapKeys_of_mapGet _ _ _ hget2,
      objs, obj, hget2, hmem2, hr2⟩
  · intro b hr hlf
    have h2 := b6 b hlf (hRefs0 b hr)
    exact ⟨_, hGetF b h2, h2⟩

theorem wtdSubjFold_spec (leaves : List String) :
    ∀ (ks : List String) (subjects : SMap) (deps : DepMap) (handled : List String),
    (∀ kv ∈ subjects, ∃ pm, kv.2 = SerdeValue.obj pm) →
    depKeysSorted deps → keysSorted subjects →
    (∀ sid ∈ ks, mapContains subjects sid = true) →
    (∀ x, mapContains (wtdSubjFold leaves ks (subjects, deps, handled)).1 x =
      mapContains subjects x) ∧
    (wtdSubjFold leaves ks (subjects, deps, handled)).1.length = subjects.length ∧
    (∀ kv ∈ (wtdSubjFold leaves ks (subjects, deps, handled)).1,
      ∃ pm, kv.2 = SerdeValue.obj pm) ∧
    keysSorted (wtdSubjFold leaves ks (subjects, deps, handled)).1 ∧
    depKeysSorted (wtdSubjFold leaves ks (subjects, deps, handled)).2.1 ∧
    (∀ s b, subjRefs (wtdSubjFold leaves ks (subjects, deps, handled)).1 s b →
      subjRefs subjects s b) ∧
    (∀ s b, subjRefs (wtdSubjFold leaves ks (subjects, deps, handled)).1 s b →
      setContains leaves b = true → subjRefs subjects s b ∧ ¬ s ∈ ks) ∧
    (∀ s b, subjRefs (wtdSubjFold leaves ks (subjects, deps, handled)).1 s b →
      setContains leaves b = false →
      depContains (wtdSubjFold leaves ks (subjects, deps, handled)).2.1 s b = true ∨
        (subjRefs subjects s b ∧ ¬ s ∈ ks)) ∧
    (∀ s b, depContains (wtdSubjFold leaves ks (subjects, deps, handled)).2.1 s b
        = true →
      depContains deps s b = true ∨
        (subjRefs (wtdSubjFold leaves ks (subjects, deps, handled)).1 s b ∧
          setContains leaves b = false)) ∧
    (∀ s b, depContains deps s b = true →
      depContains (wtdSubjFold leaves ks (subjects, deps, handled)).2.1 s b = true) ∧
    (∀ s b, subjRefs subjects s b → setContains leaves b = false →
      subjRefs (wtdSubjFold leaves ks (subjects, deps, handled)).1 s b) ∧
    (∀ x, setContains handled x = true →
      setContains (wtdSubjFold leaves ks (subjects, deps, handled)).2.2 x = true) ∧
    (∀ x, setContains (wtdSubjFold leaves ks (subjects, deps, handled)).2.2 x = true →
      setContains handled x = true ∨ setContains leaves x = true) ∧
    (∀ s b, subjRefs subjects s b → setContains leaves b = true → s ∈ ks →
      setContains (wtdSubjFold leaves ks (subjects, deps, handled)).2.2 b = true)
  | [], subjects, deps, handled, hvals, hds, hsorted, hcs =>
      ⟨fun _ => rfl, rfl, hvals, hsorted, hds,
       fun _ _ h => h,
       fun s _ h _ => ⟨h, List.not_mem_nil s⟩,
       fun s _ h _ => Or.inr ⟨h, List.not_mem_nil s⟩,
       fun _ _ h => Or.inl h,
       fun _ _ h => h,
       fun _ _ h _ => h,
       fun _ h => h,
       fun _ h => Or.inl h,
       fun s _ _ _ h => absurd h (List.not_mem_nil s)⟩
  | sid :: ks, subjects, deps, handled, hvals, hds, hsorted, hcs => by
      have hc : mapContains subjects sid = true := hcs sid (List.mem_cons_self _ _)
      rcases hA' : wtdSubjStep leaves (subjects, deps, handled) sid with
        ⟨sub', dep', han'⟩
      obtain ⟨s1, s2, s3, s4, s5, s6, s7, s8, s9, s10, s11, s12, s13, s14, s15⟩ :=
        wtdSubjStep_spec leaves subjects deps handled sid hvals hds hsorted hc
      rw [hA'] at s1 s2 s3 s4 s5 s6 s7 s8 s9 s10 s11 s12 s13 s14 s15
      have hcs' : ∀ k ∈ ks, mapContains sub' k = true := by
        intro k hk
        rw [s2 k]
        exact hcs k (List.mem_cons_of_mem _ hk)
      have IH := wtdSubjFold_spec leaves ks sub' dep' han' s4 s6 s5 hcs'
      simp only [wtdSubjFold, List.foldl] at IH ⊢
      rw [hA']
      obtain ⟨o1, o2, o3, o4, o5, o6, o7, o8, o9, o10, o11, o12, o13, o14⟩ := IH
      have hStepShrink : ∀ s b, subjRefs sub' s b → subjRefs subjects s b := by
        intro s b h
        by_cases hs : s = sid
        · rw [hs] at h ⊢
          exact s7 b h
        · rcases h with ⟨pm, hget, hr⟩
          rw [s1 s hs] at hget
          exact ⟨pm, hget, hr⟩
      have hStepPres : ∀ s b, ¬ s = sid → subjRefs subjects s b → subjRefs sub' s b := by
        intro s b hs h
        rcases h with ⟨pm, hget, hr⟩
        refine ⟨pm, ?_, hr⟩
        rw [s1 s hs]
        exact hget
      refine ⟨?_, ?_, o3, o4, o5, ?_, ?_, ?_, ?_, ?_, ?_, ?_, ?_, ?_⟩
      · intro x
        rw [o1 x]
        exact s2 x
      · rw [o2]
        exact s3
      · intro s b h
        exact hStepShrink s b (o6 s b h)
      · intro s b h hlf
        obtain ⟨h2, hnotin⟩ := o7 s b h hlf
        by_cases hs : s = sid
        · exfalso
          rw [hs] at h2
          rw [s8 b h2] at hlf
          exact Bool.false_ne_true hlf
        · refine ⟨hStepShrink s b h2, ?_⟩
          intro hmem
          rcases List.mem_cons.mp hmem with heq2 | hmem2
          · exact hs heq2
          · exact hnotin hmem2
      · intro s b h hlf
        rcases o8 s b h hlf with h2 | ⟨h2, hnotin⟩
        · exact Or.inl h2
        · by_cases hs : s = sid
          · rw [hs] at h2 ⊢
            exact Or.inl (o10 sid b (s9 b h2))
          · refine Or.inr ⟨hStepShrink s b h2, ?_⟩
            intro hmem
            rcases List.mem_cons.mp hmem with heq2 | hmem2
            · exact hs heq2
            · exact hnotin hmem2
      · intro s b h
        rcases o9 s b h with h2 | h2
        · rcases s10 s b h2 with h3 | ⟨hs, h3, hlf⟩
          · exact Or.inl h3
          · rw [hs]
            exact Or.inr ⟨o11 sid b h3 hlf, hlf⟩
        · exact Or.inr h2
      · intro s b h
        exact o10 s b (s11 s b h)
      · intro s b h hlf
        by_cases hs : s = sid
        · rw [hs] at h ⊢
          exact o11 sid b (s15 b h hlf) hlf
        · exact o11 s b (hStepPres s b hs h) hlf
      · intro x h
        exact o12 x (s12 x h)
      · intro x h
        rcases o13 x h with h2 | h2
        · exact s13 x h2
        · exact Or.inr h2
      · intro s b h hlf hmem
        by_cases hs : s = sid
        · rw [hs] at h
          exact o12 b (s14 b h hlf)
        · rcases List.mem_cons.mp hmem with heq2 | hmem2
          · exact absurd heq2 hs
          · exact o14 s b (hStepPres s b hs h) hlf hmem2

theorem depKeys_depAdd_sub (d : DepMap) (k x : String) :
    ∀ a ∈ depKeys (depAdd d k x), a ∈ depKeys d ∨ a = k := by
  intro a
  induction d with
  | nil =>
      intro hh
      simp only [depAdd, depKeys, List.map_cons, List.map_nil] at hh
      rcases List.mem_cons.mp hh with rfl | hh
      · exact Or.inr rfl
      · simp at hh
  | cons hd2 tl2 ih2 =>
      simp only [depAdd]
      by_cases hk1 : k = hd2.1
      · rw [if_pos hk1]
        simp only [depKeys, List.map_cons]
        intro hh
        exact Or.inl hh
      · rw [if_neg hk1]
        by_cases hk2 : strLt k hd2.1 = true
        · rw [if_pos hk2]
          simp only [depKeys, List.map_cons]
          intro hh
          rcases List.mem_cons.mp hh with rfl | hh
          · exact Or.inr rfl
          · exact Or.inl hh
        · rw [if_neg hk2]
          simp only [depKeys, List.map_cons]
          intro hh
          rcases List.mem_cons.mp hh with rfl | hh
          · exact Or.inl (List.mem_cons_self _ _)
          · rcases ih2 hh with hh2 | hh2
            · exact Or.inl (List.mem_cons_of_mem _ hh2)
            · exact Or.inr hh2

theorem depNE_depAdd (d : DepMap) (k x : String) (hsort : depKeysSorted d)
    (h : depNE d) : depNE (depAdd d k x) := by
  intro a ha
  rcases depKeys_depAdd_sub d k x a ha with h2 | rfl
  · obtain ⟨b, hb⟩ := h a h2
    exact ⟨b, depContains_depAdd_of d k x a b hsort hb⟩
  · exact ⟨x, depContains_depAdd_self d a x⟩

theorem wtdObjFold_depNE (leaves : List String) (subjects : SMap) (sid : String) :
    ∀ (objs : List SerdeValue) (objects : List SerdeValue) (deps : DepMap)
      (handled : List String), depKeysSorted deps → depNE deps →
    depNE (objs.foldl (wtdObjStep leaves subjects sid) (objects, deps, handled)).2.1
  | [], _, _, _, _, h => h
  | obj :: objs, objects, deps, handled, hsort, h => by
      simp only [List.foldl]
      rcases wtdObjStep_cases leaves subjects sid objects deps handled obj with
        ⟨_, heq⟩ | ⟨b, _, _, heq⟩ | ⟨b, _, _, heq⟩ <;> rw [heq]
      · exact wtdObjFold_depNE leaves subjects sid objs _ _ _ hsort h
      · exact wtdObjFold_depNE leaves subjects sid objs _ _ _
          (depKeysSorted_depAdd _ _ _ hsort) (depNE_depAdd _ _ _ hsort h)
      · exact wtdObjFold_depNE leaves subjects sid objs _ _ _ hsort h

theorem wtdPredFold_deps_sorted (leaves : List String) (sid : String) :
    ∀ (ks : List String) (predicates subjects : SMap) (deps : DepMap)
      (handled : List String), depKeysSorted deps →
    depKeysSorted (wtdPredFold leaves sid ks (predicates, subjects, deps, handled)).2.2.1
  | [], _, _, _, _, h => h
  | p :: ks, predicates, subjects, deps, handled, hsort => by
      rcases hB' : wtdPredStep leaves sid (predicates, subjects, deps, handled) p with
        ⟨pre', sub', dep', han'⟩
      have hsort' : depKeysSorted dep' := by
        have := wtdPredStep_deps_sorted leaves sid predicates subjects deps handled p hsort
        rw [hB'] at this
        exact this
      have IH := wtdPredFold_deps_sorted leaves sid ks pre' sub' dep' han' hsort'
      simp only [wtdPredFold, List.foldl] at IH ⊢
      rw [hB']
      exact IH

theorem wtdPredFold_depNE (leaves : List String) (sid : String) :
    ∀ (ks : List String) (predicates subjects : SMap) (deps : DepMap)
      (handled : List String), depKeysSorted deps → depNE deps →
    depNE (wtdPredFold leaves sid ks (predicates, subjects, deps, handled)).2.2.1
  | [], _, _, _, _, _, h => h
  | p :: ks, predicates, subjects, deps, handled, hsort, h => by
      rcases hB' : wtdPredStep leaves sid (predicates, subjects, deps, handled) p with
        ⟨pre', sub', dep', han'⟩
      have hsort' : depKeysSorted dep' := by
        have := wtdPredStep_deps_sorted leaves sid predicates subjects deps handled p hsort
        rw [hB'] at this
        exact this
      have h' : depNE dep' := by
        have h2 : depNE (wtdPredStep leaves sid
            (predicates, subjects, deps, handled) p).2.2.1 := by
          rw [wtdPredStep_eq]
          exact wtdObjFold_depNE leaves subjects sid _ [] deps handled hsort h
        rw [hB'] at h2
        exact h2
      have IH := wtdPredFold_depNE leaves sid ks pre' sub' dep' han' hsort' h'
      simp only [wtdPredFold, List.foldl] at IH ⊢
      rw [hB']
      exact IH

theorem wtdSubjStep_deps_sorted (leaves : List String) (subjects : SMap) (deps : DepMap)
    (handled : List String) (sid : String) (hsort : depKeysSorted deps) :
    depKeysSorted (wtdSubjStep leaves (subjects, deps, handled) sid).2.1 := by
  rw [wtdSubjStep_eq]
  exact wtdPredFold_deps_sorted leaves sid _ _ _ _ _ hsort

theorem wtdSubjStep_depNE (leaves : List String) (subjects : SMap) (deps : DepMap)
    (handled : List String) (sid : String) (hsort : depKeysSorted deps)
    (h : depNE deps) : depNE (wtdSubjStep leaves (subjects, deps, handled) sid).2.1 := by
  rw [wtdSubjStep_eq]
  exact wtdPredFold_depNE leaves sid _ _ _ _ _ hsort h

theorem wtdSubjFold_depNE (leaves : List String) :
    ∀ (ks : List String) (subjects : SMap) (deps : DepMap) (handled : List String),
      depKeysSorted deps → depNE deps →
    depNE (wtdSubjFold leaves ks (subjects, deps, handled)).2.1
  | [], _, _, _, _, h => h
  | sid :: ks, subjects, deps, handled, hsort, h => by
      rcases hA' : wtdSubjStep leaves (subjects, deps, handled) sid with
        ⟨sub', dep', han'⟩
      have hsort' : depKeysSorted dep' := by
        have := wtdSubjStep_deps_sorted leaves subjects deps handled sid hsort
        rw [hA'] at this
        exact this
      have h' : depNE dep' := by
        have := wtdSubjStep_depNE leaves subjects deps handled sid hsort h
        rw [hA'] at this
        exact this
      have IH := wtdSubjFold_depNE leaves ks sub' dep' han' hsort' h'
      simp only [wtdSubjFold, List.foldl] at IH ⊢
      rw [hA']
      exact IH

theorem mem_of_setContains (s : List String) (x : String) (h : setContains s x = true) :
    x ∈ s := by
  induction s with
  | nil => simp [setContains] at h
  | cons hd tl ih =>
      simp only [setContains] at h
      by_cases hx : x = hd
      · rw [hx]
        exact List.mem_cons_self _ _
      · rw [if_neg hx] at h
        exact List.mem_cons_of_mem _ (ih h)

theorem mem_foldRemove :
    ∀ (rl : List String) (m : SMap) (kv : String × SerdeValue),
    kv ∈ rl.foldl mapRemove m → kv ∈ m
  | [], _, _, h => h
  | hd :: tl, m, kv, h => by
      simp only [List.foldl] at h
      exact mem_mapRemove m hd kv (mem_foldRemove tl _ kv h)

theorem mapContains_foldRemove_true :
    ∀ (rl : List String) (m : SMap) (x : String), setContains rl x = false →
    mapContains m x = true → mapContains (rl.foldl mapRemove m) x = true
  | [], _, _, _, h => h
  | hd :: tl, m, x, hs, h => by
      simp only [setContains] at hs
      by_cases hx : x = hd
      · rw [if_pos hx] at hs
        exact absurd hs (by simp)
      · rw [if_neg hx] at hs
        simp only [List.foldl]
        exact mapContains_foldRemove_true tl _ x hs
          (mapContains_mapRemove_ne m hd x hx h)

theorem wtdPass_eq (st : WtdState) :
    wtdPass st =
      ⟨(wtdSubjFold (wtdLeaves st) (mapKeys st.subjects) (st.subjects, [], [])).2.1,
       ((wtdSubjFold (wtdLeaves st) (mapKeys st.subjects)
          (st.subjects, [], [])).2.2).foldl mapRemove
         (wtdSubjFold (wtdLeaves st) (mapKeys st.subjects) (st.subjects, [], [])).1⟩ :=
  rfl

theorem contains_iff_mem_str (l : List String) (a : String) :
    l.contains a = true ↔ a ∈ l := by
  induction l with
  | nil => simp
  | cons hd tl ih =>
      simp only [List.contains_cons, List.mem_cons, Bool.or_eq_true, beq_iff_eq]
      constructor
      · rintro (h | h)
        · exact Or.inl h
        · exact Or.inr (ih.mp h)
      · rintro (h | h)
        · exact Or.inl h
        · exact Or.inr (ih.mpr h)

theorem setContains_wtdLeaves_false_of_dep (st : WtdState) (s : String)
    (h : s ∈ depKeys st.dependencies) : setContains (wtdLeaves st) s = false := by
  cases hc : setContains (wtdLeaves st) s with
  | false => rfl
  | true =>
      exfalso
      have hmem := mem_of_setContains _ _ hc
      rw [wtdLeaves] at hmem
      obtain ⟨_, hpred⟩ := List.mem_filter.mp hmem
      rw [(contains_iff_mem_str _ _).mpr h] at hpred
      simp at hpred

theorem setContains_wtdLeaves_true (st : WtdState) (b : String)
    (hmem : b ∈ mapKeys st.subjects) (hdep : ¬ b ∈ depKeys st.dependencies) :
    setContains (wtdLeaves st) b = true := by
  apply setContains_of_mem
  rw [wtdLeaves]
  refine List.mem_filter.mpr ⟨hmem, ?_⟩
  cases hcont : (depKeys st.dependencies).contains b with
  | false => rfl
  | true => exact absurd ((contains_iff_mem_str _ _).mp hcont) hdep

theorem subjRefs_foldRemove_elim (rl : List String) (m : SMap) (s b : String)
    (hsorted : keysSorted m) (h : subjRefs (rl.foldl mapRemove m) s b) :
    subjRefs m s b ∧ setContains rl s = false := by
  rcases h with ⟨pm, hget, hr⟩
  cases hcs : setContains rl s with
  | false =>
      rw [mapGet_foldRemove_not_contains rl m s hcs] at hget
      exact ⟨⟨pm, hget, hr⟩, rfl⟩
  | true =>
      exfalso
      have h2 := mapContains_foldRemove_false rl m s hsorted hcs
      rw [mapGet_eq_none_of_contains_false _ _ h2] at hget
      exact absurd hget (by simp)

theorem subjRefs_of_get_eq (m1 m2 : SMap) (s b : String)
    (hget : mapGet m1 s = mapGet m2 s) (h : subjRefs m1 s b) : subjRefs m2 s b := by
  rcases h with ⟨pm, hg, hr⟩
  rw [hget] at hg
  exact ⟨pm, hg, hr⟩

theorem depContains_nil (s b : String) : depContains [] s b = false := rfl

theorem wtdPass_inv (rank : String → Nat) (st : WtdState) (hinv : WtdInv rank st) :
    WtdInv rank (wtdPass st) := by
  obtain ⟨hsorted, hvals, hclosed, hrank, hsound, hcomplete, hne⟩ := hinv
  obtain ⟨o1, o2, o3, o4, o5, o6, o7, o8, o9, o10, o11, o12, o13, o14⟩ :=
    wtdSubjFold_spec (wtdLeaves st) (mapKeys st.subjects) st.subjects [] []
      hvals List.Pairwise.nil hsorted
      (fun sid h => mapContains_of_mem_keys _ _ h)
  have hNoLeaf : ∀ s b,
      subjRefs (wtdSubjFold (wtdLeaves st) (mapKeys st.subjects)
        (st.subjects, [], [])).1 s b →
      setContains (wtdLeaves st) b = false := by
    intro s b hr
    cases hlf : setContains (wtdLeaves st) b with
    | false => rfl
    | true =>
        exfalso
        obtain ⟨h2, hnotin⟩ := o7 s b hr hlf
        rcases h2 with ⟨pm, hget, _⟩
        exact hnotin (mem_mapKeys_of_mapGet _ _ _ hget)
  have hHanLeaf : ∀ x,
      setContains (wtdSubjFold (wtdLeaves st) (mapKeys st.subjects)
        (st.subjects, [], [])).2.2 x = true →
      setContains (wtdLeaves st) x = true := by
    intro x h
    rcases o13 x h with h2 | h2
    · exact absurd h2 (by simp [setContains])
    · exact h2
  have hNotRemoved : ∀ s b,
      subjRefs (wtdSubjFold (wtdLeaves st) (mapKeys st.subjects)
        (st.subjects, [], [])).1 s b →
      setContains (wtdSubjFold (wtdLeaves st) (mapKeys st.subjects)
        (st.subjects, [], [])).2.2 s = false := by
    intro s b hr
    cases hcs : setContains (wtdSubjFold (wtdLeaves st) (mapKeys st.subjects)
        (st.subjects, [], [])).2.2 s with
    | false => rfl
    | true =>
        exfalso
        have hlv := hHanLeaf s hcs
        have hst := o6 s b hr
        have hdep := hcomplete s b hst
        have hmem := mem_depKeys_of_depContains _ _ _ hdep
        rw [setContains_wtdLeaves_false_of_dep st s hmem] at hlv
        exact Bool.false_ne_true hlv
  rw [wtdPass_eq]
  refine ⟨?_, ?_, ?_, ?_, ?_, ?_, ?_⟩
  · exact keysSorted_foldRemove _ _ o4
  · intro kv hkv
    exact o3 kv (mem_foldRemove _ _ _ hkv)
  · intro s b hr
    obtain ⟨hrF, _⟩ := subjRefs_foldRemove_elim _ _ s b o4 hr
    have hbleaf := hNoLeaf s b hrF
    have hbcont : mapContains (wtdSubjFold (wtdLeaves st) (mapKeys st.subjects)
        (st.subjects, [], [])).1 b = true := by
      rw [o1 b]
      exact hclosed s b (o6 s b hrF)
    have hbhan : setContains (wtdSubjFold (wtdLeaves st) (mapKeys st.subjects)
        (st.subjects, [], [])).2.2 b = false := by
      cases hcb : setContains (wtdSubjFold (wtdLeaves st) (mapKeys st.subjects)
          (st.subjects, [], [])).2.2 b with
      | false => rfl
      | true =>
          exfalso
          rw [hHanLeaf b hcb] at hbleaf
          exact absurd hbleaf (by simp)
    exact mapContains_foldRemove_true _ _ b hbhan hbcont
  · intro s b hr
    obtain ⟨hrF, _⟩ := subjRefs_foldRemove_elim _ _ s b o4 hr
    exact hrank s b (o6 s b hrF)
  · intro s b hdep
    rcases o9 s b hdep with h2 | ⟨hrF, _⟩
    · rw [depContains_nil] at h2
      exact absurd h2 (by simp)
    · have hnr := hNotRemoved s b hrF
      exact subjRefs_of_get_eq _ _ s b
        (mapGet_foldRemove_not_contains _ _ s hnr).symm hrF
  · intro s b hr
    obtain ⟨hrF, _⟩ := subjRefs_foldRemove_elim _ _ s b o4 hr
    have hlf := hNoLeaf s b hrF
    rcases o8 s b hrF hlf with h2 | ⟨h2, hnotin⟩
    · exact h2
    · exfalso
      rcases h2 with ⟨pm, hget, _⟩
      exact hnotin (mem_mapKeys_of_mapGet _ _ _ hget)
  · exact wtdSubjFold_depNE (wtdLeaves st) (mapKeys st.subjects) st.subjects [] []
      List.Pairwise.nil (fun k h => by simp [depKeys] at h)

theorem wtdPass_decreases (rank : String → Nat) (st : WtdState) (hinv : WtdInv rank st)
    (hne : st.dependencies ≠ []) :
    (wtdPass st).subjects.length < st.subjects.length := by
  obtain ⟨hsorted, hvals, hclosed, hrank, hsound, hcomplete, hdepne⟩ := hinv
  obtain ⟨o1, o2, o3, o4, o5, o6, o7, o8, o9, o10, o11, o12, o13, o14⟩ :=
    wtdSubjFold_spec (wtdLeaves st) (mapKeys st.subjects) st.subjects [] []
      hvals List.Pairwise.nil hsorted
      (fun sid h => mapContains_of_mem_keys _ _ h)
  have hex : ∃ n, ∃ s b, depContains st.dependencies s b = true ∧ rank b = n := by
    cases hd : st.dependencies with
    | nil => exact absurd hd hne
    | cons kv tl =>
        have hk : kv.1 ∈ depKeys st.dependencies := by
          rw [hd]
          simp [depKeys]
        obtain ⟨b, hb⟩ := hdepne kv.1 hk
        rw [hd] at hb
        exact ⟨rank b, kv.1, b, hb, rfl⟩
  classical
  obtain ⟨s0, b0, hdep0, hrank0⟩ := Nat.find_spec hex
  have hmin : ∀ s1 b1, depContains st.dependencies s1 b1 = true → rank b0 ≤ rank b1 := by
    intro s1 b1 h1
    by_contra hlt
    push_neg at hlt
    rw [hrank0] at hlt
    exact Nat.find_min hex hlt ⟨s1, b1, h1, rfl⟩
  have hb0notdep : ¬ b0 ∈ depKeys st.dependencies := by
    intro hmem
    obtain ⟨b1, hb1⟩ := hdepne b0 hmem
    have hlt := hrank b0 b1 (hsound b0 b1 hb1)
    exact Nat.lt_irrefl _ (Nat.lt_of_lt_of_le hlt (hmin b0 b1 hb1))
  have hrefs0 := hsound s0 b0 hdep0
  have hb0keys : b0 ∈ mapKeys st.subjects :=
    mem_keys_of_mapContains _ _ (hclosed s0 b0 hrefs0)
  have hleaf : setContains (wtdLeaves st) b0 = true :=
    setContains_wtdLeaves_true st b0 hb0keys hb0notdep
  have hs0keys : s0 ∈ mapKeys st.subjects := by
    rcases hrefs0 with ⟨pm, hget, _⟩
    exact mem_mapKeys_of_mapGet _ _ _ hget
  have hhan := o14 s0 b0 hrefs0 hleaf hs0keys
  have hcontF : mapContains (wtdSubjFold (wtdLeaves st) (mapKeys st.subjects)
      (st.subjects, [], [])).1 b0 = true := by
    rw [o1 b0]
    exact hclosed s0 b0 hrefs0
  rw [wtdPass_eq]
  show (((wtdSubjFold (wtdLeaves st) (mapKeys st.subjects)
      (st.subjects, [], [])).2.2).foldl mapRemove
    (wtdSubjFold (wtdLeaves st) (mapKeys st.subjects)
      (st.subjects, [], [])).1).length < st.subjects.length
  calc (((wtdSubjFold (wtdLeaves st) (mapKeys st.subjects)
      (st.subjects, [], [])).2.2).foldl mapRemove
    (wtdSubjFold (wtdLeaves st) (mapKeys st.subjects)
      (st.subjects, [], [])).1).length
      < (wtdSubjFold (wtdLeaves st) (mapKeys st.subjects)
          (st.subjects, [], [])).1.length :=
        length_foldRemove_lt _ _ b0 hhan hcontF
    _ = st.subjects.length := o2

theorem wtdRun_terminates (rank : String → Nat) :
    ∀ (fuel : Nat) (st : WtdState), WtdInv rank st → st.subjects.length < fuel →
    ∃ m, wtdRun fuel st = some m
  | 0, st, _, hfuel => absurd hfuel (Nat.not_lt_zero _)
  | fuel + 1, st, hinv, hfuel => by
      unfold wtdRun
      cases he : st.dependencies.isEmpty with
      | true => exact ⟨st.subjects, by simp⟩
      | false =>
          have hne : st.dependencies ≠ [] := by
            intro hh
            rw [hh] at he
            simp [List.isEmpty] at he
          have hdec := wtdPass_decreases rank st hinv hne
          have hfuel' : (wtdPass st).subjects.length < fuel :=
            Nat.lt_of_lt_of_le hdec (Nat.lt_succ_iff.mp hfuel)
          obtain ⟨m, hm⟩ := wtdRun_terminates rank fuel (wtdPass st)
            (wtdPass_inv rank st hinv) hfuel'
          exact ⟨m, by simp [he, hm]⟩

theorem wtdRun_fixpoint (st : WtdState) (hfix : wtdPass st = st)
    (hne : st.dependencies.isEmpty = false) :
    ∀ fuel, wtdRun fuel st = none
  | 0 => by
      unfold wtdRun
      rw [hne]
      simp
  | fuel + 1 => by
      unfold wtdRun
      rw [hne, hfix]
      simp only [Bool.false_eq_true, if_false]
      exact wtdRun_fixpoint st hfix hne fuel

theorem c4wit_norefs : ∀ s b, ¬ subjRefs [("ex:S", SerdeValue.obj [])] s b := by
  rintro s b ⟨pm, hget, q, objs, obj, hget2, _, _⟩
  by_cases hs : s = "ex:S"
  · rw [hs] at hget
    simp only [mapGet, if_pos rfl] at hget
    obtain rfl : pm = [] := (SerdeValue.obj.inj (Option.some.inj hget)).symm
    simp [mapGet] at hget2
  · simp only [mapGet, hs, if_false] at hget
    exact absurd hget (by simp)

theorem c4wit_inv : WtdInv (fun _ => 0) ⟨[], [("ex:S", SerdeValue.obj [])]⟩ := by
  refine ⟨?_, ?_, ?_, ?_, ?_, ?_, ?_⟩
  · show keysSorted [("ex:S", SerdeValue.obj [])]
    simp [keysSorted, mapKeys]
  · rintro kv hkv
    rcases List.mem_singleton.mp hkv with rfl
    exact ⟨[], rfl⟩
  · intro s b hr
    exact absurd hr (c4wit_norefs s b)
  · intro s b hr
    exact absurd hr (c4wit_norefs s b)
  · intro s b h
    exact absurd h (by rw [depContains_nil]; simp)
  · intro s b hr
    exact absurd hr (c4wit_norefs s b)
  · intro k hk
    exact absurd hk (by simp [depKeys])

/-- Claim C4 (amended).  First half: whenever the worklist state is
    well-formed for some ranking function (subject values are objects,
    every referenced blank node is a defined subject, references strictly
    decrease the rank — that is, the blank-node graph is acyclic and
    closed — and the dependency map records exactly the references), the
    loop terminates within subjects.length passes.  Second half: the code
    has no cycle diagnostic at all — at any fixpoint state with pending
    dependencies (which is what a cycle or a dangling blank reference
    produces) the loop runs forever, modelled by wtdRun returning none at
    every fuel. -/
theorem C4_amended :
    (∀ (rank : String → Nat) (st : WtdState), WtdInv rank st →
      ∀ fuel, st.subjects.length < fuel → ∃ m, wtdRun fuel st = some m) ∧
    (∀ st : WtdState, wtdPass st = st → st.dependencies.isEmpty = false →
      ∀ fuel, wtdRun fuel st = none) :=
  ⟨fun rank st hinv fuel hfuel => wtdRun_terminates rank fuel st hinv hfuel,
   fun st hfix hne fuel => wtdRun_fixpoint st hfix hne fuel⟩

/-- Claim C4 counterexample: the cyclic stanza reaches a fixpoint of the
    pass with its dependencies still pending, so the loop spins forever
    and thin_rows_to_subjects diverges — there is no CycleDetected
    diagnostic.  The dangling stanza is acyclic yet diverges identically,
    refuting the acyclic-implies-termination half as stated. -/
theorem C4_counterexample :
    thin_rows_to_subjects c4cycRows = none ∧
    wtdPass c4cycSt = c4cycSt ∧ c4cycSt.dependencies ≠ [] ∧
    thin_rows_to_subjects c4dangRows = none ∧
    wtdPass c4dangSt = c4dangSt ∧ c4dangSt.dependencies ≠ [] :=
  ⟨by decide, by decide, by decide, by decide, by decide, by decide⟩

/-- Claim C4 witness. -/
theorem C4_amended_witness :
    (∃ m, wtdRun 2 ⟨[], [("ex:S", SerdeValue.obj [])]⟩ = some m) ∧
    wtdRun 5 c4cycSt = none :=
  ⟨C4_amended.1 (fun _ => 0) ⟨[], [("ex:S", SerdeValue.obj [])]⟩ c4wit_inv 2 (by decide),
   C4_amended.2 c4cycSt (by decide) (by decide) 5⟩
